import Mathlib

/-!
# Verification of the constraint-pool and search-state subsystem

Shallow embedding of the constraint-pool / LP-synchronization / basis
checkpoint / garbage-collection core of the branch-and-cut solver
(`src/constrnt.c`) and of the union-find cycle detector
(`src/cycle_check.c`).

Modelling conventions:
* C `double` arithmetic is idealized as exact rational arithmetic (`ℚ`).
* C `int` values are `Int` (no overflow is reachable in the modelled paths);
  C integer division/remainder (truncation toward zero) is `Int.tdiv`/`Int.tmod`.
* A `FATAL_ERROR` abort is modelled by an `Option`-valued function returning
  `none`; reading indeterminate or out-of-bounds memory is likewise `none`.
* The external LP engine is abstract: only its reported row count is tracked,
  matching the way `constrnt.c` itself consults it (`GET_LP_NUM_ROWS`).
* The slab allocator (`struct rblk`) only moves bytes around; rows are
  semantically identified by their coefficient content, so coefficients are
  stored inline in the row header and only the running non-zero count
  (`pool->num_nz`), which the garbage collector budgets with, is tracked.
-/

/-! ## Small list toolkit

Helper operations and lemmas for array-style list access used throughout the
embedding (C arrays become `List`s accessed by index). -/

/-- Index range `[s, s+n)` as a list, mirroring C `for` loops. -/
def natRange : Nat → Nat → List Nat
  | _, 0 => []
  | s, n + 1 => s :: natRange (s + 1) n

/-- Abortable fold, used to model C loops containing `FATAL_ERROR` exits. -/
def foldOpt {σ α : Type _} (f : σ → α → Option σ) : σ → List α → Option σ
  | s, [] => some s
  | s, a :: l =>
    match f s a with
    | none => none
    | some s2 => foldOpt f s2 l

/-! ## Row encoding (`struct rcoef` rows)

A physical constraint row in `constrnt.c` is an array of `struct rcoef`
pairs `(var, val)`: LHS entries have `var ≥ RC_VAR_BASE` (variable index
plus base) and integer coefficient `val`; the terminating sentinel stores
the relational operator (`RC_OP_LE`/`RC_OP_EQ`/`RC_OP_GE`, all `< RC_VAR_BASE`)
in `var` and the right-hand side in `val`.  We represent the same data as the
list of `(variable-index, coefficient)` pairs (the `RC_VAR_BASE` offset
removed) plus the operator and rhs. -/

/-- Relational operator stored in a row's sentinel entry. -/
inductive RcOp where
  | le
  | eq
  | ge
deriving DecidableEq

/-- One physical constraint row (a `struct rcoef` array). -/
structure RRow where
  coefs : List (Nat × Int)
  op : RcOp
  rhs : Int
deriving DecidableEq

instance : Inhabited RRow := ⟨⟨[], RcOp.le, 0⟩⟩

/-- Modelled from the spec: the fixed numerical tolerance `FUZZ` used by the
violation test and the slack test.  The macro lives in a header that is not
under `src/`; the spec only requires a fixed positive tolerance, and the
concrete-example properties need it below `1/10`.  We use `10 ^ (-6)`. -/
def FUZZ : ℚ := 1 / 1000000

/-- The gcd loop of `reduce_constraint` (src/constrnt.c:1243-1259): fold
Euclid's gcd over the remaining coefficient values and finally over the
right-hand side (the C loop incorporates the sentinel's `val` before the
`p->var < RC_VAR_BASE` test breaks it).  `none` models the
`FATAL_ERROR_IF (k EQ 0)` abort on a zero value; the loop returns as soon as
the running factor reaches 1. -/
def gcdFold : Nat → List Int → Int → Option Nat
  | cf, [], rhs =>
    if rhs = 0 then none
    else some (Nat.gcd cf rhs.natAbs)
  | cf, v :: rest, rhs =>
    if v = 0 then none
    else
      let cf2 := Nat.gcd cf v.natAbs
      if cf2 = 1 then some 1 else gcdFold cf2 rest rhs

/-- `reduce_constraint` (src/constrnt.c:1221-1267): reduce the row to lowest
terms by dividing every coefficient and the right-hand side by their common
gcd.  `none` models the `FATAL_ERROR` paths (zero first coefficient, a zero
value reached while the factor still exceeds 1, a non-exact division) and the
out-of-bounds read the C code would perform on a row with no LHS entries.
When the factor reaches 1 the C code returns the row unchanged, which
coincides with dividing by 1. -/
def reduce_constraint (r : RRow) : Option RRow :=
  match r.coefs with
  | [] => none
  | (_, c0) :: rest =>
    if c0 = 0 then none
    else if c0.natAbs = 1 then some r
    else
      match gcdFold c0.natAbs (rest.map Prod.snd) r.rhs with
      | none => none
      | some g =>
        if r.coefs.all (fun p => decide (p.2.tmod (g : Int) = 0)) &&
           decide (r.rhs.tmod (g : Int) = 0) then
          some { coefs := r.coefs.map (fun p => (p.1, p.2.tdiv (g : Int))),
                 op := r.op, rhs := r.rhs.tdiv (g : Int) }
        else none

/-- The dot-product loop shared by `_gst_is_violation` and
`compute_slack_value`: `sum += cp->val * x[cp->var - RC_VAR_BASE]`. -/
def rowSum (coefs : List (Nat × Int)) (x : Nat → ℚ) : ℚ :=
  coefs.foldl (fun s p => s + (p.2 : ℚ) * x p.1) 0

/-- `_gst_is_violation` (src/constrnt.c:3358-3393): whether the solution `x`
violates the row beyond the fixed tolerance `FUZZ`. -/
def _gst_is_violation (r : RRow) (x : Nat → ℚ) : Bool :=
  let sum := rowSum r.coefs x
  match r.op with
  | RcOp.le => decide (sum > (r.rhs : ℚ) + FUZZ)
  | RcOp.eq => decide (sum - (r.rhs : ℚ) < -FUZZ) || decide (FUZZ < sum - (r.rhs : ℚ))
  | RcOp.ge => decide (sum + FUZZ < (r.rhs : ℚ))

/-- `compute_slack_value` (src/constrnt.c:3400-3440): signed slack of the row
at `x` (negative on the violated side; an `=` row never has positive slack). -/
def compute_slack_value (r : RRow) (x : Nat → ℚ) : ℚ :=
  let sum := rowSum r.coefs x
  match r.op with
  | RcOp.le => (r.rhs : ℚ) - sum
  | RcOp.eq =>
    let s := sum - (r.rhs : ℚ)
    if s > 0 then -s else s
  | RcOp.ge => sum - (r.rhs : ℚ)

/-- Concrete example row `x1 + x2 ≤ 1` from the spec's violation-detection
property (variables 0 and 1 with coefficient 1). -/
def exRow_x1x2 : RRow := ⟨[(0, 1), (1, 1)], RcOp.le, 1⟩

/-- Concrete solution `x1 = 0.6, x2 = 0.6`. -/
def xSol66 : Nat → ℚ := fun i => if i = 0 then 3 / 5 else if i = 1 then 3 / 5 else 0

/-- Concrete solution `x1 = 0.4, x2 = 0.5`. -/
def xSol45 : Nat → ℚ := fun i => if i = 0 then 2 / 5 else if i = 1 then 1 / 2 else 0

/-- Concrete row `6 x0 + 9 x1 + 15 x2 ≤ 30` from the spec's GCD example. -/
def row_6_9_15 : RRow := ⟨[(0, 6), (1, 9), (2, 15)], RcOp.le, 30⟩

/-- Reduced form `2 x0 + 3 x1 + 5 x2 ≤ 10` of `row_6_9_15`. -/
def row_2_3_5 : RRow := ⟨[(0, 2), (1, 3), (2, 5)], RcOp.le, 10⟩

/-- Concrete row `10 x0 ≤ 10`, whose reduction divides by 10. -/
def row_10le10 : RRow := ⟨[(0, 10)], RcOp.le, 10⟩

/-- Reduced form `x0 ≤ 1` of `row_10le10`. -/
def row_1le1 : RRow := ⟨[(0, 1)], RcOp.le, 1⟩

/-- A solution in the tolerance band: `x0 = 1 + 1/2000000`, violating
`10 x0 ≤ 10` beyond `FUZZ` but `x0 ≤ 1` only within `FUZZ`. -/
def xBoundary : Nat → ℚ := fun _ => 1 + 1 / 2000000

/-! ## Constraint pool (`struct cpool`, `struct rcon`)

The pool stores every known row, indexed by a fixed-size hash table for
deduplication.  Bucket `h` of `buckets` lists the row indices on the chain
`pool->hash[h] -> rcon.next -> ...` in order; the per-row `next` pointer of the
C code is represented positionally by these lists. -/

/-- Modelled from the spec: `RC_VAR_BASE`, the offset added to variable
indices inside `struct rcoef` entries so that the operator codes stay below
it.  Defined in a header not under `src/`; only its role (a fixed constant
separating operators from variables) matters, we use 4. -/
def RC_VAR_BASE : Nat := 4

/-- Modelled from the spec: the fixed size of the pool's hash table
(`CPOOL_HASH_SIZE`, from a header not under `src/`); any fixed positive size
works, we use 1009. -/
def CPOOL_HASH_SIZE : Nat := 1009

/-- Modelled from the spec: the "always discard" row flag
(`RCON_FLAG_DISCARD`, from a header not under `src/`), a fixed one-bit mask. -/
def RCON_FLAG_DISCARD : Nat := 1

/-- `2 ^ 32`, the modulus of the C `int` hash register. -/
def twoPow32 : Nat := 4294967296

/-- `2 ^ 31`, the sign-bit threshold of the C `int` hash register. -/
def twoPow31 : Nat := 2147483648

/-- One step of the `_HASH` macro (src/constrnt.c:1106-1108): xor the value
into the 32-bit register, then rotate left by one bit (the C idiom
`reg < 0 ? (reg << 1) + 1 : reg << 1` on the 32-bit word). -/
def hashStep (reg : Nat) (value : Int) : Nat :=
  let r := Nat.xor reg ((value % (twoPow32 : Int)).toNat)
  (2 * r + r / twoPow31) % twoPow32

/-- Hash value of a (reduced) row (src/constrnt.c:1115-1128): fold `_HASH`
over the var and val of each LHS entry, then take the signed register modulo
`CPOOL_HASH_SIZE`; C adjusts a negative remainder by adding the modulus,
which is exactly the euclidean remainder. -/
def rowHash (r : RRow) : Nat :=
  let reg := r.coefs.foldl
    (fun acc p => hashStep (hashStep acc ((p.1 + RC_VAR_BASE : Nat) : Int)) p.2) 0
  ((if reg < twoPow31 then (reg : Int) else (reg : Int) - (twoPow32 : Int)).emod
      (CPOOL_HASH_SIZE : Int)).toNat

/-- Row header (`struct rcon`): the coefficient row plus metadata.  The C
`len` field is `row.coefs.length` (LHS entries only); the `coefs` arena
pointer is the inlined `row`; the `next` chain pointer lives in the pool's
bucket lists.  `lprow` is the row status: `-1` not loaded, `-2` pending,
`k ≥ 0` loaded at LP row `k`. -/
structure Rcon where
  row : RRow
  lprow : Int
  biter : Int
  hval : Nat
  flags : Nat
  uid : Nat
  refc : Int
deriving DecidableEq

instance : Inhabited Rcon := ⟨⟨default, -1, 0, 0, 0, 0, 0⟩⟩

/-- The constraint pool (`struct cpool`).  `lprows` is the defined region of
`pool->lprows`: the loaded rows at positions `[0, nlprows)` followed by the
pending rows at positions `[nlprows, nlprows + npend)`.  `nrows` is
`rows.length`.  Capacity fields (`maxrows`, high-water marks, the arena block
list and the scratch buffer `cbuf`) have no semantic effect and are omitted;
`num_nz` is the running LHS-coefficient count the garbage collector budgets
with. -/
structure CPool where
  rows : List Rcon
  buckets : List (List Nat)
  lprows : List Int
  nlprows : Nat
  npend : Nat
  num_nz : Nat
  iter : Int
  uid : Nat
  initrows : Nat
deriving DecidableEq

/-- Write `lprows[i] = v`: the C array is pre-allocated, so a write at the
current end of the defined region extends it. -/
def lpWrite (l : List Int) (i : Nat) (v : Int) : List Int :=
  if i < l.length then l.set i v
  else l ++ List.replicate (i - l.length) (-1) ++ [v]

/-- `_gst_mark_row_pending_to_LP` (src/constrnt.c:3100-3127): transition a
stored, unloaded row to pending; no-op when it is already pending or loaded;
fatal on an out-of-range row number or a corrupt status. -/
def _gst_mark_row_pending_to_LP (pool : CPool) (row : Nat) : Option CPool :=
  if row < pool.rows.length then
    let rcp := pool.rows.getD row default
    if rcp.lprow ≥ 0 ∨ rcp.lprow = -2 then some pool
    else if rcp.lprow ≠ -1 then none
    else
      some { pool with
        rows := pool.rows.set row { rcp with lprow := -2 },
        lprows := lpWrite pool.lprows (pool.nlprows + pool.npend) (row : Int),
        npend := pool.npend + 1 }
  else none

/-- The duplicate scan of `_gst_add_constraint_to_pool`
(src/constrnt.c:1136-1144): walk the hash chain of bucket `hval` looking for a
row with the same LHS length and identical coefficient/sentinel bytes, i.e.
the same `RRow`. -/
def bucketHasDup (pool : CPool) (r : RRow) (hval : Nat) : Bool :=
  (pool.buckets.getD hval []).any
    (fun i => decide ((pool.rows.getD i default).row = r))

/-- The insertion step of `_gst_add_constraint_to_pool` (src/constrnt.c:
1146-1204): append the fresh row header (next uid, status not-loaded, binding
stamp now), thread it at the front of its hash bucket, and count its LHS
coefficients into `num_nz`. -/
def addFreshRow (pool : CPool) (r : RRow) (hval : Nat) : CPool :=
  { pool with
    rows := pool.rows ++
      [{ row := r, lprow := -1, biter := pool.iter, hval := hval,
         flags := 0, uid := pool.uid, refc := 0 }],
    buckets := pool.buckets.set hval
      ((pool.rows.length : Nat) :: pool.buckets.getD hval []),
    num_nz := pool.num_nz + r.coefs.length,
    uid := pool.uid + 1 }

/-- `_gst_add_constraint_to_pool` (src/constrnt.c:1085-1214): reduce the row,
hash it, scan the bucket for a duplicate, and if absent insert the row and
optionally mark it pending.  Returns the routine's boolean
(`false` = duplicate already present) with the new pool. -/
def _gst_add_constraint_to_pool (pool : CPool) (rp : RRow) (add_to_lp : Bool) :
    Option (Bool × CPool) :=
  match reduce_constraint rp with
  | none => none
  | some r =>
    if bucketHasDup pool r (rowHash r) then
      some (false, pool)
    else
      let pool2 := addFreshRow pool r (rowHash r)
      if add_to_lp then
        match _gst_mark_row_pending_to_LP pool2 pool.rows.length with
        | none => none
        | some pool3 => some (true, pool3)
      else some (true, pool2)

/-- A pool with no rows and the full-size empty hash table, as left by a
trivial pool initialization. -/
def emptyPool : CPool :=
  { rows := [], buckets := List.replicate CPOOL_HASH_SIZE [], lprows := [],
    nlprows := 0, npend := 0, num_nz := 0, iter := 0, uid := 0, initrows := 0 }

/-! ## LP synchronization (`struct bbinfo` slice, pending-row push,
slack-row deletion)

The external LP engine is abstract; the embedding tracks the one quantity the
pool code reads back from it, the current row count (`GET_LP_NUM_ROWS`), and
the engine-reported slack vector stored in `bbip->slack`.  The CPLEX variants
of the routines are modelled (the LPSOLVE variants differ only in the
engine-call details); the `#ifndef CPLEX_HAS_CREATEPROB` capacity-reallocation
escape in `_gst_add_pending_rows_to_LP` is not taken (capacity is treated as
unbounded, as with `CPLEX_HAS_CREATEPROB`). -/

/-- Branch-and-bound node fields consumed by this subsystem (`struct bbnode`):
the objective value `z`, the objective value at the last actual slack-row
deletion `delrow_z`, the constraint-pool stamp `cpiter`, and the stored LP
solution `x`. -/
structure BBNode where
  z : ℚ
  delrow_z : ℚ
  cpiter : Int
  x : List ℚ
deriving DecidableEq

/-- The basis snapshot recorded in a node by `_gst_save_node_basis`: parallel
lists of row uids and LP row positions (`bc_uids`, `bc_row`, of length
`n_uids`).  The engine basis blobs `cstat`/`rstat` are opaque to the pool
bookkeeping and are not represented. -/
structure NodeBasis where
  bc_uids : List Nat
  bc_row : List Nat
deriving DecidableEq

/-- The pool-facing slice of `struct bbinfo`. -/
structure BBState where
  pool : CPool
  lpRows : Nat
  slack : List ℚ
  node : BBNode
deriving DecidableEq

/-- One step of the pending-row assignment loop of
`_gst_add_pending_rows_to_LP` (src/constrnt.c:2838-2849): fetch the pending
row number at lprows position `i`, abort (`FATAL_ERROR`) unless its status is
pending (`lprow = -2`), and record `i` as its LP row index. -/
def assignPendingStep (pool : CPool) (i : Nat) : Option CPool :=
  let row := pool.lprows.getD i (-1)
  if row < 0 ∨ (pool.rows.length : Int) ≤ row then none
  else
    let rcp := pool.rows.getD row.toNat default
    if rcp.lprow ≠ -2 then none
    else some { pool with
      rows := pool.rows.set row.toNat { rcp with lprow := (i : Int) } }

/-- `_gst_add_pending_rows_to_LP` (CPLEX variant, src/constrnt.c:2790-2963):
abort if the engine row count disagrees with the pool bookkeeping, otherwise
assign the pending rows the next LP positions, hand them to the engine in one
bulk call (tracked as the row-count increase), and account them loaded. -/
def _gst_add_pending_rows_to_LP (st : BBState) : Option BBState :=
  if st.lpRows ≠ st.pool.nlprows then none
  else
    let newrows := st.pool.npend
    if newrows = 0 then some st
    else
      match foldOpt assignPendingStep st.pool (natRange st.pool.nlprows newrows) with
      | none => none
      | some pool2 =>
        some { st with
          pool := { pool2 with
            nlprows := st.pool.nlprows + newrows, npend := 0 },
          lpRows := st.lpRows + newrows }

/-- The deletion condition of `_gst_delete_slack_rows_from_LP` for LP row
position `i`: the engine reports slack beyond `FUZZ`, or the row carries the
always-discard flag. -/
def delCond (pool : CPool) (slack : List ℚ) (i : Nat) : Bool :=
  decide (slack.getD i 0 > FUZZ) ||
  decide ((pool.rows.getD (pool.lprows.getD i (-1)).toNat default).flags
    &&& RCON_FLAG_DISCARD ≠ 0)

/-- One step of the deletion scan of `_gst_delete_slack_rows_from_LP`
(src/constrnt.c:3960-3980): the state is the evolving row headers, the
compacted loaded-row list built so far, and the count of rows moved to the
delete list; the positions are scanned in order against the original
`lprows`/`slack` arrays.  Aborts (`FATAL_ERROR`) when the row's recorded LP
index disagrees with its position. -/
def delSlackStep (lprows0 : List Int) (slack : List ℚ) :
    List Rcon × List Int × Nat → Nat → Option (List Rcon × List Int × Nat)
  | (rows, kept, ndel), i =>
    let row := lprows0.getD i (-1)
    if row < 0 ∨ (rows.length : Int) ≤ row then none
    else
      let rcp := rows.getD row.toNat default
      if rcp.lprow ≠ (i : Int) then none
      else if slack.getD i 0 > FUZZ then
        some (rows.set row.toNat { rcp with lprow := -1 }, kept, ndel + 1)
      else if rcp.flags &&& RCON_FLAG_DISCARD ≠ 0 then
        some (rows.set row.toNat { rcp with lprow := -1 }, kept, ndel + 1)
      else
        some (rows.set row.toNat { rcp with lprow := (kept.length : Int) },
          kept ++ [row], ndel)

/-- `_gst_delete_slack_rows_from_LP` (CPLEX variant,
src/constrnt.c:3901-4009): do nothing unless the node objective strictly
improved since the last actual deletion; abort if the engine row count
disagrees with the pool; otherwise remove every loaded row that is slack
beyond `FUZZ` or discard-flagged (demoting it to not-loaded), compact the
survivors (recording their new LP positions), re-append the pending entries,
and, if anything was deleted, drop those rows from the engine and stamp
`delrow_z`. -/
def _gst_delete_slack_rows_from_LP (st : BBState) : Option BBState :=
  if st.node.z ≤ st.node.delrow_z then some st
  else if st.lpRows ≠ st.pool.nlprows then none
  else
    let n := st.pool.nlprows
    match foldOpt (delSlackStep st.pool.lprows st.slack)
        (st.pool.rows, [], 0) (natRange 0 n) with
    | none => none
    | some s =>
      let rows2 := s.1
      let kept := s.2.1
      let ndel := s.2.2
      let pend := (natRange n st.pool.npend).map
        (fun i => st.pool.lprows.getD i (-1))
      let pool2 := { st.pool with
        rows := rows2, lprows := kept ++ pend, nlprows := kept.length }
      if ndel > 0 then
        some { st with
          pool := pool2,
          lpRows := st.lpRows - ndel,
          node := { st.node with delrow_z := st.node.z } }
      else
        some { st with pool := pool2 }

/-- The deletion condition expressed against fixed data: position `j` is
deleted when its engine slack exceeds `FUZZ` or its row's flags (given by
`flags0`) carry the discard bit.  `delCond` instantiates `flags0` with the
current pool. -/
def delCondAt (slack : List ℚ) (flags0 : Nat → Nat) (j : Nat) : Bool :=
  decide (slack.getD j 0 > FUZZ) ||
  decide (flags0 j &&& RCON_FLAG_DISCARD ≠ 0)

/-- A concrete two-row pool, both rows loaded at LP positions 0 and 1. -/
def poolTwoLoaded : CPool :=
  { rows := [{ row := row_1le1, lprow := 0, biter := 0, hval := 0, flags := 0,
               uid := 5, refc := 0 },
             { row := row_2_3_5, lprow := 1, biter := 0, hval := 1, flags := 0,
               uid := 7, refc := 1 }],
    buckets := List.replicate CPOOL_HASH_SIZE [], lprows := [0, 1],
    nlprows := 2, npend := 0, num_nz := 4, iter := 3, uid := 8, initrows := 0 }

/-- Concrete synchronizer state: row at LP position 0 is slack beyond `FUZZ`,
row at position 1 is tight; the node objective has strictly improved. -/
def stSlackDel : BBState :=
  { pool := poolTwoLoaded, lpRows := 2, slack := [1, 0],
    node := { z := 1, delrow_z := 0, cpiter := -1, x := [] } }

/-- Concrete synchronizer state whose node objective has not improved since
the last deletion. -/
def stNoImprove : BBState :=
  { pool := poolTwoLoaded, lpRows := 2, slack := [1, 0],
    node := { z := 1, delrow_z := 1, cpiter := -1, x := [] } }

/-! ## Basis checkpointing (`_gst_save_node_basis`, `_gst_restore_node_basis`)

The engine basis blobs (`cstat`/`rstat`) are captured and replayed verbatim
and are opaque to the pool bookkeeping; the embedding tracks the pool-facing
content of a snapshot: the (uid, LP-position) tuples. -/

/-- `_gst_save_node_basis` (src/constrnt.c:4101-4162): abort if the engine row
count disagrees with the pool, else walk the pool in order, record
`(uid, lprow)` for every loaded row while bumping its reference count, and
abort if the tuple count differs from the loaded-row count. -/
def _gst_save_node_basis (st : BBState) : Option (NodeBasis × BBState) :=
  if st.pool.nlprows ≠ st.lpRows then none
  else
    let pairs := st.pool.rows.filterMap
      (fun rc => if 0 ≤ rc.lprow then some (rc.uid, rc.lprow.toNat) else none)
    if pairs.length ≠ st.pool.nlprows then none
    else
      some ({ bc_uids := pairs.map Prod.fst, bc_row := pairs.map Prod.snd },
        { st with pool := { st.pool with
          rows := st.pool.rows.map
            (fun rc => if 0 ≤ rc.lprow then { rc with refc := rc.refc + 1 }
                       else rc) } })

/-- One step of the unload loop of `_gst_restore_node_basis`
(src/constrnt.c:4222-4237): position `i` of the (possibly reconciled) loaded
region; a negative entry is a dynamic row without a pool entry and is skipped;
an out-of-range row number is fatal; otherwise the row is demoted to
not-loaded. -/
def unloadStep (pool : CPool) (i : Nat) : Option CPool :=
  let row := pool.lprows.getD i (-1)
  if row < 0 then some pool
  else if (pool.rows.length : Int) ≤ row then none
  else
    let rcp := pool.rows.getD row.toNat default
    some { pool with rows := pool.rows.set row.toNat { rcp with lprow := -1 } }

/-- The scanning loop of the resumable uid search, structurally recursive on
the remaining distance to the end of the row array. -/
def findUidLoop (rows : List Rcon) (uid : Nat) : Nat → Nat → Option Nat
  | 0, _ => none
  | fuel + 1, p =>
    if p < rows.length then
      if (rows.getD p default).uid = uid then some p
      else findUidLoop rows uid fuel (p + 1)
    else none

/-- The resumable uid scan of `_gst_restore_node_basis`
(src/constrnt.c:4277-4284): find the first pool row at or after position `p`
carrying `uid` (`none` models the row-not-found `FATAL_ERROR`). -/
def findUidFrom (rows : List Rcon) (uid : Nat) (p : Nat) : Option Nat :=
  findUidLoop rows uid (rows.length - p) p

/-- One step of the replay loop of `_gst_restore_node_basis`
(src/constrnt.c:4274-4298): locate the saved uid (resuming the scan from the
previous hit), decrement its reference count, and make it the `j`-th pending
constraint; fatal if the row is not in the not-loaded state, the slot is out
of range, or the slot is already taken. -/
def replayStep (nuids : Nat) : CPool × Nat → Nat × Nat → Option (CPool × Nat)
  | (pool, p), (uid, j) =>
    match findUidFrom pool.rows uid p with
    | none => none
    | some row =>
      let rcp := pool.rows.getD row default
      if rcp.lprow ≠ -1 ∨ nuids ≤ j ∨ pool.lprows.getD j (-1) ≠ -1 then none
      else
        some ({ pool with
          rows := pool.rows.set row { rcp with lprow := -2, refc := rcp.refc - 1 },
          lprows := pool.lprows.set j (row : Int) }, row)

/-- `_gst_restore_node_basis` (src/constrnt.c:4180-4331): reconcile the
pool's loaded-row count with the engine's if they disagree (the code sets
`pool->nlprows = n` instead of aborting), require no pending rows, demote
every tracked loaded row, delete all engine rows, replay the saved
`(uid, position)` tuples as pending rows at their original slots while
dropping the snapshot's reference counts, and push them back into the engine
with `_gst_add_pending_rows_to_LP` (after which the saved basis is handed back
to the engine verbatim). -/
def _gst_restore_node_basis (nb : NodeBasis) (st : BBState) : Option BBState :=
  let n := st.lpRows
  let pool0 := if n ≠ st.pool.nlprows then { st.pool with nlprows := n }
               else st.pool
  if pool0.npend ≠ 0 then none
  else
    match foldOpt unloadStep pool0 (natRange 0 pool0.nlprows) with
    | none => none
    | some pool1 =>
      let nuids := nb.bc_uids.length
      let pool2 := { pool1 with
        nlprows := 0,
        lprows := List.replicate nuids (-1) }
      match foldOpt (replayStep nuids) (pool2, 0) (nb.bc_uids.zip nb.bc_row) with
      | none => none
      | some s =>
        _gst_add_pending_rows_to_LP
          { st with pool := { s.1 with npend := nuids }, lpRows := 0 }

/-- Concrete state whose engine row count (2) disagrees with the pool's
loaded-row bookkeeping (1): one pool row loaded at LP position 0, plus an
untracked engine row. -/
def stMismatch : BBState :=
  { pool := { rows := [{ row := row_1le1, lprow := 0, biter := 0, hval := 0,
                         flags := 0, uid := 5, refc := 1 }],
              buckets := List.replicate CPOOL_HASH_SIZE [], lprows := [0, -1],
              nlprows := 1, npend := 0, num_nz := 1, iter := 0, uid := 6,
              initrows := 0 },
    lpRows := 2, slack := [],
    node := { z := 0, delrow_z := 0, cpiter := -1, x := [] } }

/-- A basis snapshot matching `stMismatch`: uid 5 was loaded at LP row 0. -/
def nbMismatch : NodeBasis := { bc_uids := [5], bc_row := [0] }

/-! ## Garbage collector (`garbage_collect_pool`)

The shellsort below is the 3h+1 sort shared by `sort_gc_candidates`
(src/constrnt.c:3727-3757) and the pending-row sort of `prune_pending_rows`
(src/constrnt.c:3304-3327), generic in the sort key.  All loops are phrased
with a structural fuel that provably dominates the C loop counters, so the
functions compute by kernel reduction. -/

/-- Solver parameters consumed by the garbage collector
(`params->target_pool_non_zeros`). -/
structure GstParams where
  target_pool_non_zeros : Int
deriving DecidableEq

/-- The inner shift loop of one shellsort pass: sift `tmp` down the
`h`-strided chain ending at position `j`, shifting larger keys up.  The fuel
dominates `j` (which strictly decreases by `h ≥ 1`). -/
def shellInnerA {α : Type _} (key : α → Nat) (h : Nat) (tmp : α) :
    Nat → List α → Nat → List α
  | 0, l, j => l.set j tmp
  | fuel + 1, l, j =>
    if 0 < h ∧ h ≤ j ∧ key (l.getD (j - h) tmp) > key tmp then
      shellInnerA key h tmp fuel (l.set j (l.getD (j - h) tmp)) (j - h)
    else l.set j tmp

/-- One insertion of the shellsort pass (`tmp = a[j]` sifted into place). -/
def shellInner {α : Type _} (key : α → Nat) (h : Nat) (tmp : α)
    (l : List α) (j : Nat) : List α :=
  shellInnerA key h tmp j l j

/-- One full `h`-pass over positions `[i, n)`; fuel dominates `n - i`. -/
def shellPassA {α : Type _} [Inhabited α] (key : α → Nat) (h n : Nat) :
    Nat → List α → Nat → List α
  | 0, l, _ => l
  | fuel + 1, l, i =>
    if i < n then
      shellPassA key h n fuel (shellInner key h (l.getD i default) l i) (i + 1)
    else l

/-- One full `h`-pass starting at position `h`. -/
def shellPass {α : Type _} [Inhabited α] (key : α → Nat) (h n : Nat)
    (l : List α) : List α :=
  shellPassA key h n (n - h) l h

/-- The initial gap: the first element of 1, 4, 13, 40, ... exceeding `n`
(`for (h = 1; h <= n; h = 3*h+1)`); fuel `n + 1` dominates the iteration
count. -/
def shellHA : Nat → Nat → Nat → Nat
  | 0, _, h => h
  | fuel + 1, n, h => if h ≤ n then shellHA fuel n (3 * h + 1) else h

/-- The gap-shrinking do-while loop (`h = h/3; pass; while h > 1`); fuel
dominates the number of divisions by 3. -/
def shellLoopA {α : Type _} [Inhabited α] (key : α → Nat) (n : Nat) :
    Nat → List α → Nat → List α
  | 0, l, _ => l
  | fuel + 1, l, h =>
    let h2 := h / 3
    let l2 := shellPass key h2 n l
    if h2 > 1 then shellLoopA key n fuel l2 h2 else l2

/-- The 3h+1 shellsort of `sort_gc_candidates` / `prune_pending_rows`,
ascending by `key`. -/
def shellSortBy {α : Type _} [Inhabited α] (key : α → Nat) (l : List α) :
    List α :=
  shellLoopA key l.length (shellHA (l.length + 1) l.length 1)
    l (shellHA (l.length + 1) l.length 1)

/-- One step of the candidate-collection loop of `garbage_collect_pool`
(src/constrnt.c:3514-3550): rows in (or on their way to) the LP or referenced
by a suspended node are never candidates; discard-flagged rows get the maximal
cost (`INT_MAX`); rows binding within the grace period (10 iterations) are
spared; otherwise cost = (length + 1) x idle time. -/
def gcCollectStep (pool : CPool) (acc : List (Nat × Nat)) (i : Nat) :
    List (Nat × Nat) :=
  let rcp := pool.rows.getD i default
  if rcp.lprow ≠ -1 then acc
  else if 0 < rcp.refc then acc
  else if rcp.flags &&& RCON_FLAG_DISCARD ≠ 0 then acc ++ [(i, 2147483647)]
  else
    let time := pool.iter - rcp.biter
    if time < 10 then acc
    else acc ++ [(i, (rcp.row.coefs.length + 1) * time.toNat)]

/-- The eviction candidates `(cnum, cost)` of `garbage_collect_pool`: only
rows at indices `initrows` and beyond are ever considered. -/
def gcCandidates (pool : CPool) : List (Nat × Nat) :=
  (natRange pool.initrows (pool.rows.length - pool.initrows)).foldl
    (gcCollectStep pool) []

/-- The "useful" non-zero count of `garbage_collect_pool`
(src/constrnt.c:3503-3512): `len + 1` summed over rows in (or headed to) the
LP or referenced by a suspended node. -/
def gcUsefulNz (pool : CPool) : Nat :=
  pool.rows.foldl
    (fun nz rc => if rc.lprow ≠ -1 ∨ 0 < rc.refc
                  then nz + (rc.row.coefs.length + 1) else nz) 0

/-- The pool size target of `garbage_collect_pool` (src/constrnt.c:3558-3576):
16 x the useful non-zeros, overridden by `params->target_pool_non_zeros` when
positive. -/
def gcTarget (pool : CPool) (params : GstParams) : Nat :=
  if params.target_pool_non_zeros > 0 then params.target_pool_non_zeros.toNat
  else 16 * gcUsefulNz pool

/-- The eviction-selection loop (src/constrnt.c:3598-3610), walking the
cost-sorted candidates from the most costly end and accumulating lengths
until the recovery amount is met (or the candidates run out). -/
def gcSelectLoop (rows : List Rcon) (minRec : Nat) :
    Nat → List Nat → List Nat
  | _, [] => []
  | nz, k :: rest =>
    let nz2 := nz + (rows.getD k default).row.coefs.length
    if minRec ≤ nz2 then [k]
    else k :: gcSelectLoop rows minRec nz2 rest

/-- Total LHS length of the given row indices. -/
def sumLens (rows : List Rcon) : List Nat → Nat
  | [] => 0
  | k :: rest => (rows.getD k default).row.coefs.length + sumLens rows rest

/-- `renum[i]` of the surviving rows (src/constrnt.c:3622-3632): the number of
surviving indices below `i`. -/
def renumVal (evicted : List Nat) (i : Nat) : Nat :=
  ((natRange 0 i).filter (fun j => !(evicted.contains j))).length

/-- Renumbering one hash chain (src/constrnt.c:3641-3656): unthread the
evicted rows, renumber the survivors, chain order preserved. -/
def gcRenumChain (evicted : List Nat) (chain : List Nat) : List Nat :=
  (chain.filter (fun j => !(evicted.contains j))).map (renumVal evicted)

/-- One step of the LP-row renumbering loop (src/constrnt.c:3634-3639):
`FATAL_ERROR` if a loaded row was selected for eviction (or the entry is
out of range, which the C code would read as garbage). -/
def gcLprowsStep (evicted : List Nat) (nrows : Nat) (acc : List Int)
    (e : Int) : Option (List Int) :=
  if e < 0 ∨ (nrows : Int) ≤ e then none
  else if evicted.contains e.toNat then none
  else some (acc ++ [(renumVal evicted e.toNat : Int)])

/-- `garbage_collect_pool` (src/constrnt.c:3455-3718).  The arena-block
compaction (src/constrnt.c:3667-3709) moves coefficient bytes without
changing any row's content and is not represented; the `minrow` variable is
an optimization of the header compaction, which is the filtered survivor
list either way.  Returns the collected pool, `none` on the `FATAL_ERROR`
paths (pending rows present, or a loaded row selected for eviction). -/
def garbage_collect_pool (pool : CPool) (ncoeff : Nat) (nrowsArg : Nat)
    (params : GstParams) : Option CPool :=
  if pool.npend ≠ 0 then none
  else
    let cand := gcCandidates pool
    if cand.length = 0 then some pool
    else
      let target := gcTarget pool params
      let impending := pool.num_nz + ncoeff
      if impending ≤ target then some pool
      else
        let minRec0 := 3 * ncoeff / 2
        let minRec := if minRec0 < impending - target then impending - target
                      else minRec0
        let sorted := shellSortBy Prod.snd cand
        let evicted := gcSelectLoop pool.rows minRec 0
          (sorted.reverse.map Prod.fst)
        let nzDel := sumLens pool.rows evicted
        match (pool.lprows.foldl
            (fun acc e => match acc with
              | none => none
              | some acc2 => gcLprowsStep evicted pool.rows.length acc2 e)
            (some [])) with
        | none => none
        | some lprows2 =>
          some { pool with
            rows := ((natRange 0 pool.rows.length).filter
                (fun i => !(evicted.contains i))).map
                (fun i => pool.rows.getD i default),
            buckets := pool.buckets.map (gcRenumChain evicted),
            lprows := lprows2,
            num_nz := pool.num_nz - nzDel }

/-- A pool whose only row is loaded, with a coefficient count far above any
target: the garbage collector finds no eligible candidate and returns with
the count still above the target. -/
def poolOverTarget : CPool :=
  { rows := [{ row := row_2_3_5, lprow := 0, biter := 0, hval := 0, flags := 0,
               uid := 1, refc := 0 }],
    buckets := List.replicate CPOOL_HASH_SIZE [], lprows := [0],
    nlprows := 1, npend := 0, num_nz := 100, iter := 50, uid := 2,
    initrows := 0 }

/-- Parameters forcing a tiny explicit pool size target. -/
def paramsTiny : GstParams := { target_pool_non_zeros := 1 }

/-- A two-row pool: row 0 loaded in the LP (ineligible), row 1 stale and
unreferenced (eviction candidate), both threaded on hash chain 0. -/
def poolGC : CPool :=
  { rows := [{ row := row_2_3_5, lprow := 0, biter := 0, hval := 0,
               flags := 0, uid := 1, refc := 0 },
             { row := row_6_9_15, lprow := -1, biter := 0, hval := 0,
               flags := 0, uid := 2, refc := 0 }],
    buckets := [[0, 1]], lprows := [0], nlprows := 1, npend := 0,
    num_nz := 8, iter := 50, uid := 3, initrows := 0 }

/-- `poolGC` after collection: row 1 evicted, row 0 renumbered in place. -/
def poolGCres : CPool :=
  { rows := [{ row := row_2_3_5, lprow := 0, biter := 0, hval := 0,
               flags := 0, uid := 1, refc := 0 }],
    buckets := [[0]], lprows := [0], nlprows := 1, npend := 0,
    num_nz := 5, iter := 50, uid := 3, initrows := 0 }

/-- Parameters whose explicit size target forces `poolGC` to collect. -/
def paramsGC : GstParams := { target_pool_non_zeros := 5 }

/-! ## Cycle detection (`src/cycle_check.c`)

The union-find of `create_union_find` / `uf_find` / `uf_union` and the scan
of `_gst_check_integer_solution_for_cycles`.  `uf_find`'s recursion follows
parent links; it is phrased with a fuel of `length + 1`, which dominates any
acyclic parent chain (a cyclic chain — impossible for union-find forests,
and stack overflow in the C — yields `none`).  Bitmaps become `List Bool`;
the hypergraph's edge vertex lists become `List (List Nat)`. -/

/-- Union-find state: `parent` and `rank` arrays (`union_find_t`). -/
structure UF where
  parent : List Nat
  rank : List Nat
deriving DecidableEq

/-- `create_union_find` (src/cycle_check.c:26-39): each vertex its own
parent, all ranks zero. -/
def create_union_find (n : Nat) : UF :=
  { parent := natRange 0 n, rank := List.replicate n 0 }

/-- `uf_find` with path compression (src/cycle_check.c:54-60), fuelled:
returns the updated parent array and the root. -/
def uf_findA : Nat → List Nat → Nat → Option (List Nat × Nat)
  | 0, _, _ => none
  | fuel + 1, par, x =>
    if par.getD x x = x then some (par, x)
    else match uf_findA fuel par (par.getD x x) with
      | none => none
      | some (par2, r) => some (par2.set x r, r)

/-- `uf_find` at the dominating fuel. -/
def uf_find (par : List Nat) (x : Nat) : Option (List Nat × Nat) :=
  uf_findA (par.length + 1) par x

/-- `uf_union` by rank (src/cycle_check.c:64-84): `false` when the two
vertices are already in the same set (a cycle), `true` after merging. -/
def uf_union (uf : UF) (x y : Nat) : Option (UF × Bool) :=
  match uf_find uf.parent x with
  | none => none
  | some (par1, rx) =>
    match uf_find par1 y with
    | none => none
    | some (par2, ry) =>
      if rx = ry then some ({ uf with parent := par2 }, false)
      else if uf.rank.getD rx 0 < uf.rank.getD ry 0 then
        some ({ parent := par2.set rx ry, rank := uf.rank }, true)
      else if uf.rank.getD ry 0 < uf.rank.getD rx 0 then
        some ({ parent := par2.set ry rx, rank := uf.rank }, true)
      else
        some ({ parent := par2.set ry rx,
                rank := uf.rank.set rx (uf.rank.getD rx 0 + 1) }, true)

/-- The root of `x` by repeated parent steps without compression — the
mathematical "union-find root" used to state set-membership properties. -/
def rootpA : Nat → List Nat → Nat → Option Nat
  | 0, _, _ => none
  | fuel + 1, par, x =>
    if par.getD x x = x then some x else rootpA fuel par (par.getD x x)

/-- `r` is the union-find root of `x` in parent array `par`. -/
def RootOf (par : List Nat) (x r : Nat) : Prop :=
  ∃ fuel, rootpA fuel par x = some r

/-- Result of the cycle check: no cycle, or a SEC vertex mask
(`cp->mask`). -/
inductive CycleOut
  | noCycle
  | cycle (mask : List Bool)
deriving DecidableEq

/-- One step of the SEC-mask loop (src/cycle_check.c:168-173): thread the
compressed parent array, set bit `k` when `k` is covered and shares the
cycle's root. -/
def maskStep (cv : List Bool) (cycleRoot : Nat)
    (s : List Nat × List Bool) (k : Nat) : Option (List Nat × List Bool) :=
  match uf_find s.1 k with
  | none => none
  | some (par2, rk) =>
    some (par2, if cv.getD k false = true ∧ rk = cycleRoot then
      s.2.set k true else s.2)

/-- Build the SEC vertex mask (src/cycle_check.c:160-186): find the cycle's
root, then collect every covered vertex with that root. -/
def buildMask (uf : UF) (cv : List Bool) (root nverts : Nat) :
    Option (List Nat × List Bool) :=
  match uf_find uf.parent root with
  | none => none
  | some (par1, cycleRoot) =>
    foldOpt (maskStep cv cycleRoot) (par1, List.replicate nverts false)
      (natRange 0 nverts)

/-- The star-topology union loop over one selected FST
(src/cycle_check.c:146-190): union the root vertex with each remaining
vertex; `Sum.inr` reports the state at the first failed union (cycle). -/
def starLoop (uf : UF) (root : Nat) : List Nat → Option (UF ⊕ UF)
  | [] => some (Sum.inl uf)
  | j :: rest =>
    match uf_union uf root j with
    | none => none
    | some (uf2, true) => starLoop uf2 root rest
    | some (uf2, false) => some (Sum.inr uf2)

/-- The per-edge scan of `_gst_check_integer_solution_for_cycles`
(src/cycle_check.c:123-191): skip unselected edges (`x[i] < 0.5`), mark the
edge's vertices, star-union them, and on the first failed union emit the
SEC mask. -/
def cycleScanEdges (nverts : Nat) :
    UF → List Bool → List (ℚ × List Nat) → Option CycleOut
  | _, _, [] => some CycleOut.noCycle
  | uf, cv, (xv, vs) :: rest =>
    if xv < 1 / 2 then cycleScanEdges nverts uf cv rest
    else
      let cv2 := vs.foldl (fun c j => c.set j true) cv
      match vs with
      | [] => cycleScanEdges nverts uf cv2 rest
      | root :: js =>
        match starLoop uf root js with
        | none => none
        | some (Sum.inl uf2) => cycleScanEdges nverts uf2 cv2 rest
        | some (Sum.inr uf2) =>
          match buildMask uf2 cv2 root nverts with
          | none => none
          | some (_, mask) => some (CycleOut.cycle mask)

/-- The union-find trajectory of the edge scan: the same control flow as
`cycleScanEdges` (src/cycle_check.c:123-191), but instead of building the
SEC mask it records the state at the first failed union — the union-find,
the coverage bitmap and the star root at detection time (`Sum.inr`) — or
the final union-find when every selected component processes without a
failed union (`Sum.inl`).  Being a function of the inputs, it pins the
detection-time state the emitted mask is characterized against. -/
def cycleScanState :
    UF → List Bool → List (ℚ × List Nat) →
      Option (UF ⊕ (UF × List Bool × Nat))
  | uf, _, [] => some (Sum.inl uf)
  | uf, cv, (xv, vs) :: rest =>
    if xv < 1 / 2 then cycleScanState uf cv rest
    else
      let cv2 := vs.foldl (fun c j => c.set j true) cv
      match vs with
      | [] => cycleScanState uf cv2 rest
      | root :: js =>
        match starLoop uf root js with
        | none => none
        | some (Sum.inl uf2) => cycleScanState uf2 cv2 rest
        | some (Sum.inr uf2) => some (Sum.inr (uf2, cv2, root))

/-- `_gst_check_integer_solution_for_cycles` (src/cycle_check.c:91-198):
fresh union-find and empty coverage bitmap, then the edge scan. -/
def _gst_check_integer_solution_for_cycles (x : List ℚ)
    (edges : List (List Nat)) (nverts : Nat) : Option CycleOut :=
  cycleScanEdges nverts (create_union_find nverts)
    (List.replicate nverts false) (x.zip edges)

/-! ## The cutting-plane loop (`_gst_solve_LP_over_constraint_pool`)

`solve_single_LP` wraps the external simplex engine; it is abstracted as an
oracle giving, per loop iteration, the engine's status, solution vector,
objective value and slack vector (the CPLEX scaling retries and the reduced
costs, consumed only by the branching heuristics, are internal to it).
The loop itself has no termination proof in the C either; it is phrased
with fuel, `none` meaning the fuel ran out or a `FATAL_ERROR` path fired. -/

/-- Solver-independent LP status (`BBLP_OPTIMAL` / `BBLP_INFEASIBLE` /
`BBLP_CUTOFF`). -/
inductive BBLPStatus
  | optimal
  | infeasible
  | cutoff
deriving DecidableEq

/-- One engine solve: status, primal solution, objective, slack vector. -/
structure LPResult where
  status : BBLPStatus
  x : List ℚ
  z : ℚ
  slackv : List ℚ
deriving DecidableEq

/-- The "record another real LP solved" bump
(src/constrnt.c:2168-2170): `do { ++iter; } while (iter == -1)`. -/
def bumpIter (it : Int) : Int :=
  if it + 1 = -1 then it + 2 else it + 1

/-- `update_lp_solution_history` (src/constrnt.c:2276-2360), restricted to
its pool-visible effect: the node's solution buffer becomes the engine
solution (the branch-heuristic and reduced-cost bookkeeping it also updates
is not read by the pool code). -/
def update_lp_solution_history (node : BBNode) (xs : List ℚ) : BBNode :=
  { node with x := xs }

/-- Stamp row `i` as binding at the current pool iteration
(`rcp->biter = pool->iter`, src/constrnt.c:2197). -/
def restampBiter (pool : CPool) (i : Nat) : CPool :=
  { pool with
    rows := pool.rows.set i
      { pool.rows.getD i default with biter := pool.iter } }

/-- One step of the violation scan (src/constrnt.c:2190-2212): a row slack
beyond `FUZZ` is left alone; otherwise it is stamped binding now; loaded
rows are skipped; an unloaded row violated beyond `FUZZ` is marked pending
and the `any_violations` flag raised. -/
def poolScanStep (x : Nat → ℚ) (s : CPool × Bool) (i : Nat) :
    Option (CPool × Bool) :=
  let pool := s.1
  let rcp := pool.rows.getD i default
  let slack := compute_slack_value rcp.row x
  if slack > FUZZ then some s
  else if rcp.lprow ≥ 0 then some (restampBiter pool i, s.2)
  else if slack < -FUZZ then
    match _gst_mark_row_pending_to_LP (restampBiter pool i) i with
    | none => none
    | some pool3 => some (pool3, true)
  else some (restampBiter pool i, s.2)

/-- The full-pool violation scan of the cutting-plane loop. -/
def poolScan (pool : CPool) (x : Nat → ℚ) : Option (CPool × Bool) :=
  foldOpt (poolScanStep x) (pool, false) (natRange 0 pool.rows.length)

/-- The pending-mass threshold of `prune_pending_rows`
(src/constrnt.c:3276). -/
def PRUNE_THRESHOLD : Nat := 2000000

/-- Total LHS length of the pending entries; `none` models the garbage read
on an out-of-range entry. -/
def pendLenSum (rows : List Rcon) : List Int → Option Nat
  | [] => some 0
  | e :: rest =>
    if e < 0 ∨ (rows.length : Int) ≤ e then none
    else match pendLenSum rows rest with
      | none => none
      | some t => some ((rows.getD e.toNat default).row.coefs.length + t)

/-- How many of the (sorted) pending rows the prune keeps: the longest
prefix whose running length stays within the threshold
(src/constrnt.c:3330-3336). -/
def pruneCutA (rows : List Rcon) : Nat → List Int → Nat
  | _, [] => 0
  | total, e :: rest =>
    let t2 := total + (rows.getD e.toNat default).row.coefs.length
    if t2 > PRUNE_THRESHOLD then 0 else 1 + pruneCutA rows t2 rest

/-- Demote one pruned pending row back to not-loaded
(src/constrnt.c:3338-3344): `FATAL_ERROR` unless it was pending. -/
def demoteStep (rows : List Rcon) (e : Int) : Option (List Rcon) :=
  if e < 0 ∨ (rows.length : Int) ≤ e then none
  else
    let rcp := rows.getD e.toNat default
    if rcp.lprow ≠ -2 then none
    else some (rows.set e.toNat { rcp with lprow := -1 })

/-- `prune_pending_rows` (src/constrnt.c:3252-3349): when the pending rows
carry more than the threshold of coefficients, optionally delete slack rows
first, sort the pending region ascending by length, keep only the prefix
within the threshold, and demote the rest to not-loaded. -/
def prune_pending_rows (st : BBState) (can_del : Bool) : Option BBState :=
  let n := st.pool.npend
  let parray := (natRange st.pool.nlprows n).map
    (fun i => st.pool.lprows.getD i (-1))
  match pendLenSum st.pool.rows parray with
  | none => none
  | some total =>
    if total ≤ PRUNE_THRESHOLD then some st
    else
      match (if can_del then _gst_delete_slack_rows_from_LP st
             else some st) with
      | none => none
      | some st2 =>
        let parray2 := (natRange st2.pool.nlprows n).map
          (fun i => st2.pool.lprows.getD i (-1))
        let sorted := shellSortBy
          (fun e => (st2.pool.rows.getD e.toNat default).row.coefs.length)
          parray2
        let keepN := pruneCutA st2.pool.rows 0 sorted
        match (sorted.drop keepN).foldl
            (fun acc e => match acc with
              | none => none
              | some rows2 => demoteStep rows2 e)
            (some st2.pool.rows) with
        | none => none
        | some rows3 =>
          some { st2 with pool := { st2.pool with
            rows := rows3,
            lprows := st2.pool.lprows.take st2.pool.nlprows ++
              sorted.take keepN,
            npend := keepN } }

/-- The solve step of one loop iteration (src/constrnt.c:2147-2174):
`solve_single_LP` writes the node objective and the engine slack vector,
then the pool iteration counter is bumped. -/
def solveStepA (oracle : Nat → LPResult) (st : BBState) (pi : Nat) :
    BBState :=
  { st with
    node := { st.node with z := (oracle pi).z },
    slack := (oracle pi).slackv,
    pool := { st.pool with iter := bumpIter st.pool.iter } }

/-- The solve step followed by `update_lp_solution_history`
(src/constrnt.c:2176): the node's solution buffer takes the engine
solution. -/
def solveStepB (oracle : Nat → LPResult) (st : BBState) (pi : Nat) :
    BBState :=
  { solveStepA oracle st pi with
    node := update_lp_solution_history (solveStepA oracle st pi).node
      (oracle pi).x }

/-- The slack-deletion guard of `prune_pending_rows`'s caller
(src/constrnt.c:2238): the objective grew by at least a relative 1e-4. -/
def canDelSlack (oracle : Nat → LPResult) (st : BBState) (pi : Nat) :
    Bool :=
  decide ((oracle pi).z ≥ st.node.z + (1 / 10000) * |st.node.z|)

/-- The body of the cutting-plane loop (src/constrnt.c:2147-2243): solve,
bump the pool iteration, stop on a non-optimal status, record the solution
in the node, delete slack rows, scan the pool for violations, stop at the
fixed point, else prune and push the pending rows and go round again. -/
def solveLoop (oracle : Nat → LPResult) :
    Nat → BBState → Nat → Option (BBLPStatus × BBState)
  | 0, _, _ => none
  | fuel + 1, st, pi =>
    if (oracle pi).status ≠ BBLPStatus.optimal then
      some ((oracle pi).status, solveStepA oracle st pi)
    else
      match _gst_delete_slack_rows_from_LP (solveStepB oracle st pi) with
      | none => none
      | some st4 =>
        match poolScan st4.pool (fun i => (oracle pi).x.getD i 0) with
        | none => none
        | some pb =>
          if pb.2 = false then
            some (BBLPStatus.optimal, { st4 with pool := pb.1 })
          else
            match prune_pending_rows { st4 with pool := pb.1 }
                (canDelSlack oracle st pi) with
            | none => none
            | some st6 =>
              match _gst_add_pending_rows_to_LP st6 with
              | none => none
              | some st7 => solveLoop oracle fuel st7 (pi + 1)

/-- `_gst_solve_LP_over_constraint_pool` (src/constrnt.c:2086-2267): if the
pool is unchanged since this node's stored solution (`cpiter == uid`), skip
the solve and report optimal with a zeroed slack vector; otherwise run the
cutting-plane loop and stamp `cpiter` with the pool uid on optimal success
(or `-1` to force a re-solve). -/
def _gst_solve_LP_over_constraint_pool (oracle : Nat → LPResult)
    (fuel : Nat) (st : BBState) : Option (BBLPStatus × BBState) :=
  if st.node.cpiter = (st.pool.uid : Int) then
    some (BBLPStatus.optimal, { st with slack := List.replicate st.lpRows 0 })
  else
    match solveLoop oracle fuel st 0 with
    | none => none
    | some r =>
      if r.1 = BBLPStatus.optimal then
        some (r.1, { r.2 with
          node := { r.2.node with cpiter := (r.2.pool.uid : Int) } })
      else
        some (r.1, { r.2 with node := { r.2.node with cpiter := -1 } })

/-- A trivial always-optimal LP oracle over an empty column set. -/
def oracleTriv : Nat → LPResult :=
  fun _ => { status := BBLPStatus.optimal, x := [], z := 1, slackv := [] }

/-- An initial solver state over the empty pool, forcing a real solve
(`cpiter = -1` differs from the pool uid). -/
def stC4 : BBState :=
  { pool := emptyPool, lpRows := 0, slack := [],
    node := { z := 0, delrow_z := 0, cpiter := -1, x := [] } }

/-- `stC4` after one cutting-plane iteration: iteration counter bumped,
objective recorded, `cpiter` stamped with the pool uid. -/
def stC4res : BBState :=
  { pool := { emptyPool with iter := 1 }, lpRows := 0, slack := [],
    node := { z := 1, delrow_z := 0, cpiter := 0, x := [] } }

/-- The loaded-row observable: the `(uid, LP position)` tuples of the rows
currently in the LP, in pool-row order — exactly what `_gst_save_node_basis`
records into `bc_uids`/`bc_row`. -/
def loadedPairs (pool : CPool) : List (Nat × Nat) :=
  pool.rows.filterMap
    (fun rc => if 0 ≤ rc.lprow then some (rc.uid, rc.lprow.toNat) else none)

/-- A three-row pool for the save/mutate/restore roundtrip: uids 5 and 7
loaded at LP positions 0 and 1, uid 9 stored but not loaded. -/
def poolC1 : CPool :=
  { rows := [{ row := row_1le1, lprow := 0, biter := 3, hval := 0,
               flags := 0, uid := 5, refc := 0 },
             { row := row_2_3_5, lprow := 1, biter := 3, hval := 1,
               flags := 0, uid := 7, refc := 1 },
             { row := exRow_x1x2, lprow := -1, biter := 3, hval := 2,
               flags := 0, uid := 9, refc := 0 }],
    buckets := [], lprows := [0, 1], nlprows := 2, npend := 0,
    num_nz := 6, iter := 3, uid := 10, initrows := 0 }

/-- The roundtrip's starting synchronizer state. -/
def stC1 : BBState :=
  { pool := poolC1, lpRows := 2, slack := [0, 0],
    node := { z := 1, delrow_z := 0, cpiter := -1, x := [] } }

/-- The snapshot `_gst_save_node_basis` takes of `stC1`. -/
def nbC1 : NodeBasis := { bc_uids := [5, 7], bc_row := [0, 1] }

/-- `stC1` after the save: both loaded rows' reference counts bumped. -/
def stSavedC1 : BBState :=
  { pool := { poolC1 with
      rows := [{ row := row_1le1, lprow := 0, biter := 3, hval := 0,
                 flags := 0, uid := 5, refc := 1 },
               { row := row_2_3_5, lprow := 1, biter := 3, hval := 1,
                 flags := 0, uid := 7, refc := 2 },
               { row := exRow_x1x2, lprow := -1, biter := 3, hval := 2,
                 flags := 0, uid := 9, refc := 0 }] },
    lpRows := 2, slack := [0, 0],
    node := { z := 1, delrow_z := 0, cpiter := -1, x := [] } }

/-- `stSavedC1`'s pool after the unrelated row (uid 9) is marked pending. -/
def poolMarkC1 : CPool :=
  { poolC1 with
    rows := [{ row := row_1le1, lprow := 0, biter := 3, hval := 0,
               flags := 0, uid := 5, refc := 1 },
             { row := row_2_3_5, lprow := 1, biter := 3, hval := 1,
               flags := 0, uid := 7, refc := 2 },
             { row := exRow_x1x2, lprow := -2, biter := 3, hval := 2,
               flags := 0, uid := 9, refc := 0 }],
    lprows := [0, 1, 2], npend := 1 }

/-- The state after the pending row is pushed into the engine, with the
engine then reporting the new row slack (vector `[0, 0, 1]`). -/
def stPushSlackC1 : BBState :=
  { pool := { poolC1 with
      rows := [{ row := row_1le1, lprow := 0, biter := 3, hval := 0,
                 flags := 0, uid := 5, refc := 1 },
               { row := row_2_3_5, lprow := 1, biter := 3, hval := 1,
                 flags := 0, uid := 7, refc := 2 },
               { row := exRow_x1x2, lprow := 2, biter := 3, hval := 2,
                 flags := 0, uid := 9, refc := 0 }],
      lprows := [0, 1, 2], nlprows := 3 },
    lpRows := 3, slack := [0, 0, 1],
    node := { z := 1, delrow_z := 0, cpiter := -1, x := [] } }

/-- The state handed to the restore: the unrelated row slack-deleted
again, the snapshot rows still loaded with their bumped counts. -/
def stMidC1 : BBState :=
  { pool := { poolC1 with
      rows := [{ row := row_1le1, lprow := 0, biter := 3, hval := 0,
                 flags := 0, uid := 5, refc := 1 },
               { row := row_2_3_5, lprow := 1, biter := 3, hval := 1,
                 flags := 0, uid := 7, refc := 2 },
               { row := exRow_x1x2, lprow := -1, biter := 3, hval := 2,
                 flags := 0, uid := 9, refc := 0 }] },
    lpRows := 2, slack := [0, 0, 1],
    node := { z := 1, delrow_z := 1, cpiter := -1, x := [] } }

/-- The state after the restore: the loaded set and the reference counts
are back to their `stC1` values. -/
def stBackC1 : BBState :=
  { pool := poolC1, lpRows := 2, slack := [0, 0, 1],
    node := { z := 1, delrow_z := 1, cpiter := -1, x := [] } }

-- ===== theorems =====

theorem foldOpt_cons {σ α : Type _} (f : σ → α → Option σ) (s : σ) (a : α)
    (l : List α) :
    foldOpt f s (a :: l) =
      match f s a with
      | none => none
      | some s2 => foldOpt f s2 l := rfl

theorem natRange_length (s n : Nat) : (natRange s n).length = n := by
  induction n generalizing s with
  | zero => rfl
  | succ n ih => simp [natRange, ih]

theorem mem_natRange {s n i : Nat} : i ∈ natRange s n ↔ s ≤ i ∧ i < s + n := by
  induction n generalizing s with
  | zero => simp [natRange]
  | succ n ih =>
    simp only [natRange, List.mem_cons, ih]
    omega

theorem getD_set_self {α : Type _} (l : List α) (i : Nat) (a d : α)
    (h : i < l.length) : (l.set i a).getD i d = a := by
  induction l generalizing i with
  | nil => simp at h
  | cons b t ih =>
    cases i with
    | zero => rfl
    | succ i => simpa [List.set, List.getD] using ih i (by simpa using h)

theorem getD_set_ne {α : Type _} (l : List α) (i j : Nat) (a d : α)
    (h : i ≠ j) : (l.set i a).getD j d = l.getD j d := by
  induction l generalizing i j with
  | nil => simp [List.set]
  | cons b t ih =>
    cases i with
    | zero =>
      cases j with
      | zero => exact absurd rfl h
      | succ j => rfl
    | succ i =>
      cases j with
      | zero => rfl
      | succ j => simpa [List.set, List.getD] using ih i j (by omega)

theorem set_getD_self {α : Type _} (l : List α) (i : Nat) (d : α)
    (h : i < l.length) : l.set i (l.getD i d) = l := by
  induction l generalizing i with
  | nil => simp at h
  | cons b t ih =>
    cases i with
    | zero => rfl
    | succ i => simpa [List.set, List.getD] using ih i (by simpa using h)

theorem getD_append_left {α : Type _} (l m : List α) (i : Nat) (d : α)
    (h : i < l.length) : (l ++ m).getD i d = l.getD i d := by
  induction l generalizing i with
  | nil => simp at h
  | cons b t ih =>
    cases i with
    | zero => rfl
    | succ i => simpa [List.getD] using ih i (by simpa using h)

theorem getD_append_right {α : Type _} (l m : List α) (i : Nat) (d : α)
    (h : l.length ≤ i) : (l ++ m).getD i d = m.getD (i - l.length) d := by
  induction l generalizing i with
  | nil => simp
  | cons b t ih =>
    cases i with
    | zero => simp at h
    | succ i => simpa [List.getD] using ih i (by simpa using h)

theorem foldOpt_append {σ α : Type _} (f : σ → α → Option σ) (s : σ)
    (l1 l2 : List α) :
    foldOpt f s (l1 ++ l2) =
      match foldOpt f s l1 with
      | none => none
      | some s2 => foldOpt f s2 l2 := by
  induction l1 generalizing s with
  | nil => simp [foldOpt]
  | cons a t ih =>
    simp only [List.cons_append, foldOpt]
    cases f s a with
    | none => rfl
    | some s2 => exact ih s2

/-! ### Facts about reduction and evaluation -/

theorem FUZZ_pos : 0 < FUZZ := by norm_num [FUZZ]

/-- Violation and slack agree: a row is violated exactly when its slack is
below `-FUZZ` (uniformly over the three operators). -/
theorem is_violation_iff_slack (r : RRow) (x : Nat → ℚ) :
    _gst_is_violation r x = true ↔ compute_slack_value r x < -FUZZ := by
  cases r with
  | mk coefs op rhs =>
    cases op <;>
      simp only [_gst_is_violation, compute_slack_value] <;>
      constructor <;> intro h
    · simp only [decide_eq_true_eq] at h; linarith
    · simp only [decide_eq_true_eq]; linarith
    · rcases Bool.or_eq_true_iff.mp h with h | h <;>
        simp only [decide_eq_true_eq] at h <;> split <;> linarith
    · apply Bool.or_eq_true_iff.mpr
      by_cases hs : rowSum coefs x - (rhs : ℚ) > 0
      · right; simp only [decide_eq_true_eq]; simp only [if_pos hs] at h; linarith
      · left; simp only [decide_eq_true_eq]; simp only [if_neg hs] at h; linarith
    · simp only [decide_eq_true_eq] at h; linarith
    · simp only [decide_eq_true_eq]; linarith

theorem gcdFold_pos {cf : Nat} {vs : List Int} {rhs : Int} {g : Nat}
    (hcf : 0 < cf) (h : gcdFold cf vs rhs = some g) : 0 < g := by
  induction vs generalizing cf with
  | nil =>
    simp only [gcdFold] at h
    split at h
    · exact absurd h (by simp)
    · cases h; exact Nat.pos_of_ne_zero fun hz => by
        rcases Nat.eq_zero_of_gcd_eq_zero_left hz with h'
        omega
  | cons v rest ih =>
    simp only [gcdFold] at h
    split at h
    · exact absurd h (by simp)
    · split at h
      · cases h; omega
      · exact ih (Nat.pos_of_ne_zero fun hz => by
          have := Nat.eq_zero_of_gcd_eq_zero_left hz; omega) h

theorem natAbs_dvd_int {g : Nat} {v : Int} (h : g ∣ v.natAbs) : (g : Int) ∣ v :=
  Int.dvd_natAbs.mp (Int.natCast_dvd_natCast.mpr h)

theorem gcdFold_dvd {cf : Nat} {vs : List Int} {rhs : Int} {g : Nat}
    (h : gcdFold cf vs rhs = some g) :
    g ∣ cf ∧ (∀ v ∈ vs, (g : Int) ∣ v) ∧ (g : Int) ∣ rhs := by
  induction vs generalizing cf with
  | nil =>
    simp only [gcdFold] at h
    split at h
    · exact absurd h (by simp)
    · cases h
      refine ⟨Nat.gcd_dvd_left _ _, by simp, ?_⟩
      exact natAbs_dvd_int (Nat.gcd_dvd_right cf rhs.natAbs)
  | cons v rest ih =>
    simp only [gcdFold] at h
    split at h
    · exact absurd h (by simp)
    · rename_i hv
      split at h
      · cases h
        exact ⟨Nat.one_dvd _, by intro w hw; exact Int.one_dvd _, Int.one_dvd _⟩
      · rcases ih h with ⟨h1, h2, h3⟩
        refine ⟨h1.trans (Nat.gcd_dvd_left _ _), ?_, h3⟩
        intro w hw
        rcases List.mem_cons.mp hw with rfl | hw
        · exact natAbs_dvd_int (h1.trans (Nat.gcd_dvd_right _ _))
        · exact h2 w hw

theorem rowSum_foldl_acc (l : List (Nat × Int)) (x : Nat → ℚ) (a : ℚ) :
    l.foldl (fun s p => s + (p.2 : ℚ) * x p.1) a = a + rowSum l x := by
  induction l generalizing a with
  | nil => simp [rowSum]
  | cons p t ih =>
    simp only [rowSum, List.foldl_cons] at *
    rw [ih, ih (0 + (p.2 : ℚ) * x p.1)]
    ring

theorem rowSum_cons (p : Nat × Int) (l : List (Nat × Int)) (x : Nat → ℚ) :
    rowSum (p :: l) x = (p.2 : ℚ) * x p.1 + rowSum l x := by
  show List.foldl (fun s q => s + (q.2 : ℚ) * x q.1) 0 (p :: l)
      = (p.2 : ℚ) * x p.1 + rowSum l x
  rw [List.foldl_cons, rowSum_foldl_acc]
  ring

theorem cast_tdiv_eq {g : Nat} (hg : 0 < g) {c : Int} (h : (g : Int) ∣ c) :
    ((c.tdiv (g : Int) : Int) : ℚ) = (c : ℚ) / (g : ℚ) := by
  rcases h with ⟨k, rfl⟩
  have hgz : (g : Int) ≠ 0 := by exact_mod_cast Nat.pos_iff_ne_zero.mp hg
  rw [Int.mul_tdiv_cancel_left k hgz]
  have hgq : (g : ℚ) ≠ 0 := by exact_mod_cast Nat.pos_iff_ne_zero.mp hg
  push_cast
  field_simp

theorem rowSum_tdiv {g : Nat} (hg : 0 < g) (l : List (Nat × Int)) (x : Nat → ℚ)
    (hdvd : ∀ p ∈ l, (g : Int) ∣ p.2) :
    rowSum (l.map fun p => (p.1, p.2.tdiv (g : Int))) x = rowSum l x / (g : ℚ) := by
  induction l with
  | nil => simp [rowSum]
  | cons p t ih =>
    rw [List.map_cons, rowSum_cons, rowSum_cons,
      ih (fun q hq => hdvd q (List.mem_cons_of_mem p hq)),
      cast_tdiv_eq hg (hdvd p (List.mem_cons_self p t))]
    ring

/-- Characterization of a successful `reduce_constraint`: the result is the
input row divided componentwise (coefficients and rhs) by a positive common
divisor. -/
theorem reduce_constraint_spec {r r' : RRow} (h : reduce_constraint r = some r') :
    ∃ g : Nat, 0 < g ∧
      r'.coefs = r.coefs.map (fun p => (p.1, p.2.tdiv (g : Int))) ∧
      r'.op = r.op ∧ r'.rhs = r.rhs.tdiv (g : Int) ∧
      (∀ p ∈ r.coefs, (g : Int) ∣ p.2) ∧ (g : Int) ∣ r.rhs := by
  unfold reduce_constraint at h
  rcases hc : r.coefs with _ | ⟨⟨v0, c0⟩, rest⟩
  · rw [hc] at h; exact absurd h (by simp)
  · rw [hc] at h
    simp only at h
    split at h
    · exact absurd h (by simp)
    · split at h
      · -- first coefficient magnitude 1: the row is returned unchanged
        refine ⟨1, Nat.one_pos, ?_, ?_, ?_, ?_, ?_⟩ <;>
          cases h <;>
          simp [Int.tdiv_one, hc]
      · rename_i hc0 _
        rcases hg : gcdFold c0.natAbs (rest.map Prod.snd) r.rhs with _ | g
        · rw [hg] at h; exact absurd h (by simp)
        · rw [hg] at h
          simp only at h
          split at h
          · rcases gcdFold_dvd hg with ⟨h1, h2, h3⟩
            have hgpos : 0 < g :=
              gcdFold_pos (Int.natAbs_pos.mpr hc0) hg
            refine ⟨g, hgpos, ?_, ?_, ?_, ?_, h3⟩ <;> cases h
            · simp [hc]
            · rfl
            · rfl
            · intro p hp
              rcases List.mem_cons.mp hp with rfl | hp2
              · exact natAbs_dvd_int h1
              · exact h2 _ (List.mem_map_of_mem Prod.snd hp2)
          · exact absurd h (by simp)

/-- A violated reduced row is always violated in its un-reduced form (the
converse can fail inside the gcd-scaled tolerance band). -/
theorem reduce_violation_mono {r r' : RRow} (h : reduce_constraint r = some r')
    (x : Nat → ℚ) (hv : _gst_is_violation r' x = true) :
    _gst_is_violation r x = true := by
  rcases reduce_constraint_spec h with ⟨g, hg, hcoefs, hop, hrhs, hdvd, hdvdr⟩
  have hgq : (0 : ℚ) < (g : ℚ) := by exact_mod_cast hg
  have hgq1 : (1 : ℚ) ≤ (g : ℚ) := by exact_mod_cast hg
  have hfg : FUZZ ≤ FUZZ * (g : ℚ) := by
    nlinarith [FUZZ_pos]
  have hsum : rowSum r'.coefs x = rowSum r.coefs x / (g : ℚ) := by
    rw [hcoefs]; exact rowSum_tdiv hg _ x hdvd
  have hrhsq : ((r'.rhs : Int) : ℚ) = (r.rhs : ℚ) / (g : ℚ) := by
    rw [hrhs]; exact cast_tdiv_eq hg hdvdr
  cases r with
  | mk coefs op rhs =>
    cases op <;>
      rw [show r' = ⟨r'.coefs, r'.op, r'.rhs⟩ from rfl] at hv <;>
      simp only [_gst_is_violation] at hv ⊢ <;>
      rw [hop] at hv <;>
      simp only [hsum, hrhsq] at hv
    · simp only [decide_eq_true_eq] at hv ⊢
      have h2 := mul_lt_mul_of_pos_right hv hgq
      rw [div_mul_cancel₀ _ (ne_of_gt hgq)] at h2
      have h3 : ((rhs : ℚ) / (g : ℚ) + FUZZ) * (g : ℚ)
          = (rhs : ℚ) + FUZZ * (g : ℚ) := by
        field_simp
      rw [h3] at h2
      linarith
    · rcases Bool.or_eq_true_iff.mp hv with hv | hv <;>
        simp only [decide_eq_true_eq] at hv <;>
        apply Bool.or_eq_true_iff.mpr
      · left
        simp only [decide_eq_true_eq]
        have hd : rowSum coefs x / (g : ℚ) - (rhs : ℚ) / (g : ℚ)
            = (rowSum coefs x - (rhs : ℚ)) / (g : ℚ) := by ring
        rw [hd] at hv
        have h2 := mul_lt_mul_of_pos_right hv hgq
        rw [div_mul_cancel₀ _ (ne_of_gt hgq)] at h2
        nlinarith [FUZZ_pos]
      · right
        simp only [decide_eq_true_eq]
        have hd : rowSum coefs x / (g : ℚ) - (rhs : ℚ) / (g : ℚ)
            = (rowSum coefs x - (rhs : ℚ)) / (g : ℚ) := by ring
        rw [hd] at hv
        have h2 := mul_lt_mul_of_pos_right hv hgq
        rw [div_mul_cancel₀ _ (ne_of_gt hgq)] at h2
        nlinarith [FUZZ_pos]
    · simp only [decide_eq_true_eq] at hv ⊢
      have h2 := mul_lt_mul_of_pos_right hv hgq
      rw [div_mul_cancel₀ _ (ne_of_gt hgq)] at h2
      have h3 : (rowSum coefs x / (g : ℚ) + FUZZ) * (g : ℚ)
          = rowSum coefs x + FUZZ * (g : ℚ) := by
        field_simp
      rw [h3] at h2
      linarith

/-- C3 counterexample: the claim asserts that for EVERY solution vector the
satisfied/violated classification of the reduced row equals that of the
original row.  This fails in the tolerance band: `10 x0 ≤ 10` reduces to
`x0 ≤ 1`, and at `x0 = 1 + 1/2000000` the original row is violated
(excess `5/1000000 > FUZZ`) while the reduced row is not
(excess `1/2000000 ≤ FUZZ`). -/
theorem claim_C3_counterexample :
    reduce_constraint row_10le10 = some row_1le1 ∧
    _gst_is_violation row_10le10 xBoundary = true ∧
    _gst_is_violation row_1le1 xBoundary = false := by
  refine ⟨by decide, ?_, ?_⟩
  · simp [_gst_is_violation, rowSum, row_10le10, xBoundary, FUZZ]
    norm_num
  · simp [_gst_is_violation, rowSum, row_1le1, xBoundary, FUZZ]
    norm_num

/-- C3 (amended): `reduce_constraint` divides every coefficient and the
right-hand side by their greatest common divisor, so the row `[6, 9, 15] ≤ 30`
is stored as `[2, 3, 5] ≤ 10`; and the classification of the reduced row is
conservative with respect to the original: whenever the reduced row is
classified violated, so is the original un-reduced row (equality of the two
classifications can fail only when the violation amount lies inside the
gcd-scaled tolerance band, as the counterexample shows). -/
theorem claim_C3 :
    reduce_constraint row_6_9_15 = some row_2_3_5 ∧
    ∀ (r r' : RRow) (x : Nat → ℚ), reduce_constraint r = some r' →
      _gst_is_violation r' x = true → _gst_is_violation r x = true := by
  exact ⟨by decide, fun r r' x h hv => reduce_violation_mono h x hv⟩

/-- Witness for C3: the amended implication applied at the spec's concrete
rows with the all-ten solution (both forms are violated there). -/
theorem claim_C3_witness :
    reduce_constraint row_6_9_15 = some row_2_3_5 ∧
    _gst_is_violation row_2_3_5 (fun _ => 10) = true ∧
    _gst_is_violation row_6_9_15 (fun _ => 10) = true := by
  have hred : reduce_constraint row_6_9_15 = some row_2_3_5 := by decide
  have hv : _gst_is_violation row_2_3_5 (fun _ => 10) = true := by
    simp [_gst_is_violation, rowSum, row_2_3_5, FUZZ]
    norm_num
  exact ⟨hred, hv, claim_C3.2 row_6_9_15 row_2_3_5 (fun _ => 10) hred hv⟩

/-- C7: `evaluate` dot-products the row with the solution and classifies it
against the operator and rhs with tolerance `FUZZ`; a `≤`-row is violated
exactly when the dot product exceeds `rhs + FUZZ`, with violation amount
(the negated slack) equal to dot product minus rhs; analogously for `=` and
`≥`; uniformly, violation means slack below `-FUZZ`.  For `x1 + x2 ≤ 1`,
the solution `(0.6, 0.6)` is violated by amount `0.2`, while `(0.4, 0.5)`
is satisfied with slack `0.1`. -/
theorem claim_C7 :
    (∀ (coefs : List (Nat × Int)) (rhs : Int) (x : Nat → ℚ),
      (_gst_is_violation ⟨coefs, RcOp.le, rhs⟩ x = true ↔
        rowSum coefs x > (rhs : ℚ) + FUZZ) ∧
      -(compute_slack_value ⟨coefs, RcOp.le, rhs⟩ x) = rowSum coefs x - (rhs : ℚ)) ∧
    (∀ (coefs : List (Nat × Int)) (rhs : Int) (x : Nat → ℚ),
      (_gst_is_violation ⟨coefs, RcOp.ge, rhs⟩ x = true ↔
        rowSum coefs x + FUZZ < (rhs : ℚ)) ∧
      -(compute_slack_value ⟨coefs, RcOp.ge, rhs⟩ x) = (rhs : ℚ) - rowSum coefs x) ∧
    (∀ (coefs : List (Nat × Int)) (rhs : Int) (x : Nat → ℚ),
      (_gst_is_violation ⟨coefs, RcOp.eq, rhs⟩ x = true ↔
        FUZZ < |rowSum coefs x - (rhs : ℚ)|) ∧
      -(compute_slack_value ⟨coefs, RcOp.eq, rhs⟩ x) = |rowSum coefs x - (rhs : ℚ)|) ∧
    (∀ (r : RRow) (x : Nat → ℚ),
      _gst_is_violation r x = true ↔ compute_slack_value r x < -FUZZ) ∧
    (_gst_is_violation exRow_x1x2 xSol66 = true ∧
      compute_slack_value exRow_x1x2 xSol66 = -(1 / 5)) ∧
    (_gst_is_violation exRow_x1x2 xSol45 = false ∧
      compute_slack_value exRow_x1x2 xSol45 = 1 / 10) := by
  refine ⟨?_, ?_, ?_, is_violation_iff_slack, ⟨?_, ?_⟩, ⟨?_, ?_⟩⟩
  · intro coefs rhs x
    constructor
    · simp [_gst_is_violation, gt_iff_lt]
    · simp [compute_slack_value]
  · intro coefs rhs x
    constructor
    · simp [_gst_is_violation]
    · simp [compute_slack_value]
  · intro coefs rhs x
    constructor
    · simp only [_gst_is_violation, Bool.or_eq_true_iff, decide_eq_true_eq]
      rw [lt_abs]
      constructor
      · rintro (h | h)
        · right; linarith
        · left; exact h
      · rintro (h | h)
        · right; exact h
        · left; linarith
    · simp only [compute_slack_value]
      rcases le_or_lt (rowSum coefs x - (rhs : ℚ)) 0 with h | h
      · rw [if_neg (by simpa using h), abs_of_nonpos h]
      · rw [if_pos (by simpa using h), abs_of_pos h, neg_neg]
  · simp [_gst_is_violation, rowSum, exRow_x1x2, xSol66, FUZZ]
    norm_num
  · simp [compute_slack_value, rowSum, exRow_x1x2, xSol66]
    norm_num
  · simp [_gst_is_violation, rowSum, exRow_x1x2, xSol45, FUZZ]
    norm_num
  · simp [compute_slack_value, rowSum, exRow_x1x2, xSol45]
    norm_num


theorem getD_mem_of_lt {α : Type _} (l : List α) (i : Nat) (d : α)
    (h : i < l.length) : l.getD i d ∈ l := by
  induction l generalizing i with
  | nil => simp at h
  | cons b t ih =>
    cases i with
    | zero => exact List.mem_cons_self _ _
    | succ i => exact List.mem_cons_of_mem _ (ih i (by simpa using h))

theorem set_append_last {α : Type _} (l : List α) (a b : α) :
    (l ++ [a]).set l.length b = l ++ [b] := by
  induction l with
  | nil => rfl
  | cons c t ih => simp [List.set, ih]

theorem emod_toNat_lt (a : Int) (n : Nat) (hn : 0 < n) :
    (a.emod (n : Int)).toNat < n := by
  have hnz : ((n : Int)) ≠ 0 := by exact_mod_cast Nat.pos_iff_ne_zero.mp hn
  have h1 : 0 ≤ a.emod (n : Int) := Int.emod_nonneg a hnz
  have h2 : a.emod (n : Int) < (n : Int) := Int.emod_lt_of_pos a (by exact_mod_cast hn)
  omega

theorem rowHash_lt (r : RRow) : rowHash r < CPOOL_HASH_SIZE :=
  emod_toNat_lt _ _ (by norm_num [CPOOL_HASH_SIZE])

theorem reduce_some_ne_nil {r r' : RRow} (h : reduce_constraint r = some r') :
    r'.coefs ≠ [] := by
  rcases reduce_constraint_spec h with ⟨g, _, hcoefs, _⟩
  cases hc : r.coefs with
  | nil =>
    unfold reduce_constraint at h
    rw [hc] at h
    exact absurd h (by simp)
  | cons p t =>
    intro hnil
    rw [hnil, hc] at hcoefs
    exact absurd hcoefs.symm (by simp)


theorem add_constraint_not_dup (pool : CPool) (rp r : RRow) (b : Bool)
    (hred : reduce_constraint rp = some r)
    (hnf : bucketHasDup pool r (rowHash r) = false) :
    _gst_add_constraint_to_pool pool rp b =
      (if b then
        match _gst_mark_row_pending_to_LP (addFreshRow pool r (rowHash r))
            pool.rows.length with
        | none => none
        | some pool3 => some (true, pool3)
      else some (true, addFreshRow pool r (rowHash r))) := by
  unfold _gst_add_constraint_to_pool
  rw [hred]
  show (if bucketHasDup pool r (rowHash r) = true then some (false, pool) else _) = _
  rw [hnf]
  simp

theorem mark_fresh (pool : CPool) (r : RRow) (hval : Nat) :
    _gst_mark_row_pending_to_LP (addFreshRow pool r hval) pool.rows.length =
      some { rows := pool.rows ++
               [{ row := r, lprow := -2, biter := pool.iter, hval := hval,
                  flags := 0, uid := pool.uid, refc := 0 }],
             buckets := pool.buckets.set hval
               ((pool.rows.length : Nat) :: pool.buckets.getD hval []),
             lprows := lpWrite pool.lprows (pool.nlprows + pool.npend)
               ((pool.rows.length : Nat) : Int),
             nlprows := pool.nlprows, npend := pool.npend + 1,
             num_nz := pool.num_nz + r.coefs.length,
             iter := pool.iter, uid := pool.uid + 1,
             initrows := pool.initrows } := by
  have hget : (addFreshRow pool r hval).rows.getD pool.rows.length default =
      { row := r, lprow := -1, biter := pool.iter, hval := hval,
        flags := 0, uid := pool.uid, refc := 0 } := by
    show (pool.rows ++ [_]).getD pool.rows.length default = _
    rw [getD_append_right _ _ _ _ (le_refl _)]
    simp
  unfold _gst_mark_row_pending_to_LP
  rw [hget]
  have hlen : pool.rows.length < (addFreshRow pool r hval).rows.length := by
    simp [addFreshRow]
  rw [if_pos hlen]
  simp [addFreshRow, set_append_last]

theorem add_constraint_dup (pool : CPool) (rp r : RRow) (b : Bool)
    (hred : reduce_constraint rp = some r)
    (hd : bucketHasDup pool r (rowHash r) = true) :
    _gst_add_constraint_to_pool pool rp b = some (false, pool) := by
  unfold _gst_add_constraint_to_pool
  rw [hred]
  show (if bucketHasDup pool r (rowHash r) = true then some (false, pool) else _) = _
  rw [hd]
  simp

/-- C2: inserting two rows that normalize to the same coefficient vector into
a pool that does not yet hold that vector stores exactly one copy: the first
call reports inserted (`true`), the second reports duplicate (`false`) and
returns the pool unchanged (in particular the stored row count is unchanged),
and exactly one stored row carries the normalized vector. -/
theorem claim_C2 (pool : CPool) (r1 r2 v : RRow) (b1 b2 : Bool)
    (hbuckets : pool.buckets.length = CPOOL_HASH_SIZE)
    (h1 : reduce_constraint r1 = some v) (h2 : reduce_constraint r2 = some v)
    (hfresh : ∀ rc ∈ pool.rows, rc.row ≠ v) :
    ∃ pool1, _gst_add_constraint_to_pool pool r1 b1 = some (true, pool1) ∧
      pool1.rows.length = pool.rows.length + 1 ∧
      (pool1.rows.filter (fun rc => decide (rc.row = v))).length = 1 ∧
      _gst_add_constraint_to_pool pool1 r2 b2 = some (false, pool1) := by
  have hvne : v.coefs ≠ [] := reduce_some_ne_nil h1
  have hhash : rowHash v < CPOOL_HASH_SIZE := rowHash_lt v
  have hnf : bucketHasDup pool v (rowHash v) = false := by
    unfold bucketHasDup
    rw [List.any_eq_false]
    intro i _
    simp only [decide_eq_true_eq]
    by_cases hi : i < pool.rows.length
    · exact hfresh _ (getD_mem_of_lt _ _ _ hi)
    · have hdef : pool.rows.getD i default = default := by
        rw [List.getD_eq_default]
        omega
      rw [hdef]
      intro hd
      exact hvne (by rw [← hd]; rfl)
  -- the two possible post-insert pools, by the add_to_lp flag
  have hmain : ∀ (rc : Rcon) (lpr : List Int) (np : Nat), rc.row = v →
      ∀ pool1 : CPool, pool1 =
        { rows := pool.rows ++ [rc],
          buckets := pool.buckets.set (rowHash v)
            ((pool.rows.length : Nat) :: pool.buckets.getD (rowHash v) []),
          lprows := lpr, nlprows := pool.nlprows, npend := np,
          num_nz := pool.num_nz + v.coefs.length,
          iter := pool.iter, uid := pool.uid + 1,
          initrows := pool.initrows } →
      pool1.rows.length = pool.rows.length + 1 ∧
      (pool1.rows.filter (fun rc2 => decide (rc2.row = v))).length = 1 ∧
      _gst_add_constraint_to_pool pool1 r2 b2 = some (false, pool1) := by
    intro rc lpr np hrc pool1 hpool1
    have hrows1 : pool1.rows = pool.rows ++ [rc] := by rw [hpool1]
    refine ⟨by simp [hrows1], ?_, ?_⟩
    · rw [hrows1, List.filter_append]
      have hleft : pool.rows.filter (fun rc2 => decide (rc2.row = v)) = [] := by
        rw [List.filter_eq_nil_iff]
        intro rc2 hrc2
        simpa using hfresh rc2 hrc2
      rw [hleft]
      simp [hrc]
    · apply add_constraint_dup pool1 r2 v b2 h2
      unfold bucketHasDup
      apply List.any_eq_true.mpr
      refine ⟨pool.rows.length, ?_, ?_⟩
      · have hchain : pool1.buckets.getD (rowHash v) [] =
            (pool.rows.length : Nat) :: pool.buckets.getD (rowHash v) [] := by
          rw [hpool1]
          show (pool.buckets.set _ _).getD _ [] = _
          rw [getD_set_self]
          rw [hbuckets]
          exact hhash
        rw [hchain]
        exact List.mem_cons_self _ _
      · simp only [decide_eq_true_eq]
        rw [hrows1, getD_append_right _ _ _ _ (le_refl _)]
        simpa using hrc
  cases b1 with
  | false =>
    refine ⟨addFreshRow pool v (rowHash v), ?_, ?_⟩
    · rw [add_constraint_not_dup pool r1 v false h1 hnf]
      simp
    · exact hmain
        { row := v, lprow := -1, biter := pool.iter, hval := rowHash v,
          flags := 0, uid := pool.uid, refc := 0 }
        pool.lprows pool.npend rfl _ rfl
  | true =>
    refine ⟨{ rows := pool.rows ++
                [{ row := v, lprow := -2, biter := pool.iter,
                   hval := rowHash v, flags := 0, uid := pool.uid, refc := 0 }],
              buckets := pool.buckets.set (rowHash v)
                ((pool.rows.length : Nat) :: pool.buckets.getD (rowHash v) []),
              lprows := lpWrite pool.lprows (pool.nlprows + pool.npend)
                ((pool.rows.length : Nat) : Int),
              nlprows := pool.nlprows, npend := pool.npend + 1,
              num_nz := pool.num_nz + v.coefs.length,
              iter := pool.iter, uid := pool.uid + 1,
              initrows := pool.initrows }, ?_, ?_⟩
    · rw [add_constraint_not_dup pool r1 v true h1 hnf]
      show (match _gst_mark_row_pending_to_LP (addFreshRow pool v (rowHash v))
          pool.rows.length with
        | none => none
        | some pool3 => some (true, pool3)) = _
      rw [mark_fresh]
    · exact hmain
        { row := v, lprow := -2, biter := pool.iter, hval := rowHash v,
          flags := 0, uid := pool.uid, refc := 0 }
        (lpWrite pool.lprows (pool.nlprows + pool.npend)
          ((pool.rows.length : Nat) : Int))
        (pool.npend + 1) rfl _ rfl

/-- Witness for C2: inserting `6 x0 + 9 x1 + 15 x2 ≤ 30` and then its reduced
variant `2 x0 + 3 x1 + 5 x2 ≤ 10` into the empty pool. -/
theorem claim_C2_witness :
    ∃ pool1, _gst_add_constraint_to_pool emptyPool row_6_9_15 true = some (true, pool1) ∧
      pool1.rows.length = emptyPool.rows.length + 1 ∧
      (pool1.rows.filter (fun rc => decide (rc.row = row_2_3_5))).length = 1 ∧
      _gst_add_constraint_to_pool pool1 row_2_3_5 false = some (false, pool1) :=
  claim_C2 emptyPool row_6_9_15 row_2_3_5 row_2_3_5 true false
    (by simp [emptyPool]) (by decide) (by decide) (by simp [emptyPool])

/-- Full characterization of the deletion scan of
`_gst_delete_slack_rows_from_LP`: processing positions `js` (with valid,
pairwise-distinct row targets whose recorded LP indices match and whose flags
are given by `flags0`, and with the already-kept rows `kept` correctly
back-pointed and disjoint from the targets) succeeds, appends exactly the
non-deleted targets to the kept list in order, counts the deleted ones, and
touches only the `lprow` fields of the targeted rows: deleted targets are
demoted to `-1` and every kept row's recorded index equals its final kept
position. -/
theorem delSlack_fold (lprows0 : List Int) (slack : List ℚ) (flags0 : Nat → Nat)
    (js : List Nat) :
    ∀ (rows : List Rcon) (kept : List Int) (ndel : Nat),
    (∀ j ∈ js, 0 ≤ lprows0.getD j (-1) ∧
      lprows0.getD j (-1) < (rows.length : Int) ∧
      (rows.getD (lprows0.getD j (-1)).toNat default).lprow = (j : Int) ∧
      (rows.getD (lprows0.getD j (-1)).toNat default).flags = flags0 j) →
    js.Pairwise (fun a b => (lprows0.getD a (-1)).toNat ≠ (lprows0.getD b (-1)).toNat) →
    (∀ p < kept.length, 0 ≤ kept.getD p (-1) ∧
      kept.getD p (-1) < (rows.length : Int) ∧
      (rows.getD (kept.getD p (-1)).toNat default).lprow = (p : Int)) →
    (∀ j ∈ js, ∀ p < kept.length,
      (kept.getD p (-1)).toNat ≠ (lprows0.getD j (-1)).toNat) →
    ∃ rows2,
      foldOpt (delSlackStep lprows0 slack) (rows, kept, ndel) js =
        some (rows2,
          kept ++ (js.filter (fun j => !(delCondAt slack flags0 j))).map
            (fun j => lprows0.getD j (-1)),
          ndel + (js.filter (delCondAt slack flags0)).length) ∧
      rows2.length = rows.length ∧
      (∀ r : Nat, (∀ j ∈ js, (lprows0.getD j (-1)).toNat ≠ r) →
        rows2.getD r default = rows.getD r default) ∧
      (∀ j ∈ js, delCondAt slack flags0 j = true →
        rows2.getD (lprows0.getD j (-1)).toNat default =
          { rows.getD (lprows0.getD j (-1)).toNat default with lprow := -1 }) ∧
      (∀ j ∈ js, ∃ v : Int,
        rows2.getD (lprows0.getD j (-1)).toNat default =
          { rows.getD (lprows0.getD j (-1)).toNat default with lprow := v }) ∧
      (∀ p, p < (kept ++ (js.filter (fun j => !(delCondAt slack flags0 j))).map
            (fun j => lprows0.getD j (-1))).length →
        0 ≤ (kept ++ (js.filter (fun j => !(delCondAt slack flags0 j))).map
            (fun j => lprows0.getD j (-1))).getD p (-1) ∧
        (kept ++ (js.filter (fun j => !(delCondAt slack flags0 j))).map
            (fun j => lprows0.getD j (-1))).getD p (-1) < (rows.length : Int) ∧
        (rows2.getD ((kept ++ (js.filter (fun j => !(delCondAt slack flags0 j))).map
            (fun j => lprows0.getD j (-1))).getD p (-1)).toNat default).lprow
          = (p : Int)) := by
  induction js with
  | nil =>
    intro rows kept ndel _ _ H3 _
    refine ⟨rows, by simp [foldOpt], rfl, fun r _ => rfl, by simp, by simp, ?_⟩
    simpa using H3
  | cons j js ih =>
    intro rows kept ndel H1 H4 H3 H2
    rcases H1 j (List.mem_cons_self _ _) with ⟨hge, hlt, hbp, hfl⟩
    rcases List.pairwise_cons.mp H4 with ⟨hdist, H4tl⟩
    have hLlt : (lprows0.getD j (-1)).toNat < rows.length := by omega
    have hne : ¬((lprows0.getD j (-1)) < 0 ∨
        (rows.length : Int) ≤ lprows0.getD j (-1)) := by
      push_neg
      exact ⟨hge, hlt⟩
    have hstepval : delSlackStep lprows0 slack (rows, kept, ndel) j =
        (if slack.getD j 0 > FUZZ then
          some (rows.set (lprows0.getD j (-1)).toNat
            { rows.getD (lprows0.getD j (-1)).toNat default with lprow := -1 },
            kept, ndel + 1)
        else if flags0 j &&& RCON_FLAG_DISCARD ≠ 0 then
          some (rows.set (lprows0.getD j (-1)).toNat
            { rows.getD (lprows0.getD j (-1)).toNat default with lprow := -1 },
            kept, ndel + 1)
        else
          some (rows.set (lprows0.getD j (-1)).toNat
            { rows.getD (lprows0.getD j (-1)).toNat default with
              lprow := (kept.length : Int) },
            kept ++ [lprows0.getD j (-1)], ndel)) := by
      simp only [delSlackStep]
      rw [if_neg hne, if_neg (fun hcon => hcon hbp), hfl]
    -- facts shared by both branches about the modified row list
    have hlen_set : ∀ rc : Rcon,
        (rows.set (lprows0.getD j (-1)).toNat rc).length = rows.length := by
      intro rc
      exact List.length_set rows _ rc
    have hget_other : ∀ (rc : Rcon) (r : Nat), (lprows0.getD j (-1)).toNat ≠ r →
        (rows.set (lprows0.getD j (-1)).toNat rc).getD r default =
          rows.getD r default := by
      intro rc r hr
      exact getD_set_ne rows _ r rc default hr
    have hget_self : ∀ rc : Rcon,
        (rows.set (lprows0.getD j (-1)).toNat rc).getD
          (lprows0.getD j (-1)).toNat default = rc := by
      intro rc
      exact getD_set_self rows _ rc default hLlt
    have hH1tl : ∀ rc : Rcon, ∀ j2 ∈ js,
        0 ≤ lprows0.getD j2 (-1) ∧
        lprows0.getD j2 (-1) <
          (((rows.set (lprows0.getD j (-1)).toNat rc)).length : Int) ∧
        (((rows.set (lprows0.getD j (-1)).toNat rc)).getD
          (lprows0.getD j2 (-1)).toNat default).lprow = (j2 : Int) ∧
        (((rows.set (lprows0.getD j (-1)).toNat rc)).getD
          (lprows0.getD j2 (-1)).toNat default).flags = flags0 j2 := by
      intro rc j2 hj2
      rcases H1 j2 (List.mem_cons_of_mem _ hj2) with ⟨a, b, c, d⟩
      rw [hlen_set, hget_other rc _ (hdist j2 hj2)]
      exact ⟨a, b, c, d⟩
    cases hd : delCondAt slack flags0 j with
    | true =>
      have hstep2 : delSlackStep lprows0 slack (rows, kept, ndel) j =
          some (rows.set (lprows0.getD j (-1)).toNat
            { rows.getD (lprows0.getD j (-1)).toNat default with lprow := -1 },
            kept, ndel + 1) := by
        rw [hstepval]
        by_cases hs : slack.getD j 0 > FUZZ
        · rw [if_pos hs]
        · rw [if_neg hs]
          have hflag : flags0 j &&& RCON_FLAG_DISCARD ≠ 0 := by
            have hd2 := hd
            simp only [delCondAt, Bool.or_eq_true_iff, decide_eq_true_eq] at hd2
            tauto
          rw [if_pos hflag]
      have hH3tl : ∀ p < kept.length, 0 ≤ kept.getD p (-1) ∧
          kept.getD p (-1) <
            ((rows.set (lprows0.getD j (-1)).toNat
              { rows.getD (lprows0.getD j (-1)).toNat default with
                lprow := -1 }).length : Int) ∧
          (((rows.set (lprows0.getD j (-1)).toNat
              { rows.getD (lprows0.getD j (-1)).toNat default with
                lprow := -1 })).getD (kept.getD p (-1)).toNat default).lprow
            = (p : Int) := by
        intro p hp
        rcases H3 p hp with ⟨a, b, c⟩
        rw [hlen_set, hget_other _ _
          (fun hEq => H2 j (List.mem_cons_self _ _) p hp hEq.symm)]
        exact ⟨a, b, c⟩
      have hH2tl : ∀ j2 ∈ js, ∀ p < kept.length,
          (kept.getD p (-1)).toNat ≠ (lprows0.getD j2 (-1)).toNat :=
        fun j2 hj2 p hp => H2 j2 (List.mem_cons_of_mem _ hj2) p hp
      obtain ⟨rows2, hfold, hlen2, P1, P2, Pex, PK⟩ :=
        ih (rows.set (lprows0.getD j (-1)).toNat
            { rows.getD (lprows0.getD j (-1)).toNat default with lprow := -1 })
          kept (ndel + 1) (hH1tl _) H4tl hH3tl hH2tl
      have hfc1 : (j :: js).filter (fun x => !(delCondAt slack flags0 x)) =
          js.filter (fun x => !(delCondAt slack flags0 x)) := by
        rw [List.filter_cons_of_neg]
        simp [hd]
      have hfc2 : (j :: js).filter (delCondAt slack flags0) =
          j :: js.filter (delCondAt slack flags0) :=
        List.filter_cons_of_pos hd
      refine ⟨rows2, ?_, ?_, ?_, ?_, ?_, ?_⟩
      · rw [foldOpt_cons, hstep2]
        show foldOpt _ _ js = _
        rw [hfold, hfc1, hfc2]
        simp only [Option.some_inj, Prod.mk.injEq, List.length_cons]
        exact ⟨trivial, trivial, by omega⟩
      · rw [hlen2, hlen_set]
      · intro r hr
        rw [P1 r (fun j2 hj2 => hr j2 (List.mem_cons_of_mem _ hj2)),
          hget_other _ _ (hr j (List.mem_cons_self _ _))]
      · intro j2 hj2 hD2
        rcases List.mem_cons.mp hj2 with rfl | hj2m
        · rw [P1 _ (fun j3 hj3 => (hdist j3 hj3).symm), hget_self]
        · rw [P2 j2 hj2m hD2, hget_other _ _ (hdist j2 hj2m)]
      · intro j2 hj2
        rcases List.mem_cons.mp hj2 with rfl | hj2m
        · exact ⟨-1, by rw [P1 _ (fun j3 hj3 => (hdist j3 hj3).symm), hget_self]⟩
        · rcases Pex j2 hj2m with ⟨v, hv⟩
          exact ⟨v, by rw [hv, hget_other _ _ (hdist j2 hj2m)]⟩
      · intro p hp
        rw [hfc1] at hp ⊢
        rcases PK p hp with ⟨a, b, c⟩
        rw [hlen_set] at b
        exact ⟨a, b, c⟩
    | false =>
      have hnds : ¬(slack.getD j 0 > FUZZ) := by
        have hd2 := hd
        simp only [delCondAt, Bool.or_eq_false_iff, decide_eq_false_iff_not] at hd2
        exact hd2.1
      have hndf : ¬(flags0 j &&& RCON_FLAG_DISCARD ≠ 0) := by
        have hd2 := hd
        simp only [delCondAt, Bool.or_eq_false_iff, decide_eq_false_iff_not] at hd2
        exact hd2.2
      have hstep2 : delSlackStep lprows0 slack (rows, kept, ndel) j =
          some (rows.set (lprows0.getD j (-1)).toNat
            { rows.getD (lprows0.getD j (-1)).toNat default with
              lprow := (kept.length : Int) },
            kept ++ [lprows0.getD j (-1)], ndel) := by
        rw [hstepval, if_neg hnds, if_neg hndf]
      have hH3tl : ∀ p < (kept ++ [lprows0.getD j (-1)]).length,
          0 ≤ (kept ++ [lprows0.getD j (-1)]).getD p (-1) ∧
          (kept ++ [lprows0.getD j (-1)]).getD p (-1) <
            ((rows.set (lprows0.getD j (-1)).toNat
              { rows.getD (lprows0.getD j (-1)).toNat default with
                lprow := (kept.length : Int) }).length : Int) ∧
          (((rows.set (lprows0.getD j (-1)).toNat
              { rows.getD (lprows0.getD j (-1)).toNat default with
                lprow := (kept.length : Int) })).getD
            ((kept ++ [lprows0.getD j (-1)]).getD p (-1)).toNat default).lprow
            = (p : Int) := by
        intro p hp
        rw [List.length_append, List.length_singleton] at hp
        rcases Nat.lt_succ_iff_lt_or_eq.mp hp with hplt | rfl
        · rcases H3 p hplt with ⟨a, b, c⟩
          rw [getD_append_left _ _ _ _ hplt, hlen_set,
            hget_other _ _ (fun hEq => H2 j (List.mem_cons_self _ _) p hplt hEq.symm)]
          exact ⟨a, b, c⟩
        · rw [getD_append_right _ _ _ _ (le_refl _), Nat.sub_self]
          simp only [List.getD_cons_zero]
          rw [hlen_set, hget_self]
          exact ⟨hge, hlt, rfl⟩
      have hH2tl : ∀ j2 ∈ js, ∀ p < (kept ++ [lprows0.getD j (-1)]).length,
          ((kept ++ [lprows0.getD j (-1)]).getD p (-1)).toNat ≠
            (lprows0.getD j2 (-1)).toNat := by
        intro j2 hj2 p hp
        rw [List.length_append, List.length_singleton] at hp
        rcases Nat.lt_succ_iff_lt_or_eq.mp hp with hplt | rfl
        · rw [getD_append_left _ _ _ _ hplt]
          exact H2 j2 (List.mem_cons_of_mem _ hj2) p hplt
        · rw [getD_append_right _ _ _ _ (le_refl _), Nat.sub_self]
          simp only [List.getD_cons_zero]
          exact hdist j2 hj2
      obtain ⟨rows2, hfold, hlen2, P1, P2, Pex, PK⟩ :=
        ih (rows.set (lprows0.getD j (-1)).toNat
            { rows.getD (lprows0.getD j (-1)).toNat default with
              lprow := (kept.length : Int) })
          (kept ++ [lprows0.getD j (-1)]) ndel (hH1tl _) H4tl hH3tl hH2tl
      have hfc1 : (j :: js).filter (fun x => !(delCondAt slack flags0 x)) =
          j :: js.filter (fun x => !(delCondAt slack flags0 x)) := by
        apply List.filter_cons_of_pos
        simp [hd]
      have hfc2 : (j :: js).filter (delCondAt slack flags0) =
          js.filter (delCondAt slack flags0) :=
        List.filter_cons_of_neg (by simp [hd])
      have hkf : kept ++ (((j :: js).filter
            (fun x => !(delCondAt slack flags0 x))).map
            (fun x => lprows0.getD x (-1))) =
          (kept ++ [lprows0.getD j (-1)]) ++
            ((js.filter (fun x => !(delCondAt slack flags0 x))).map
              (fun x => lprows0.getD x (-1))) := by
        rw [hfc1, List.map_cons, List.append_assoc, List.singleton_append]
      refine ⟨rows2, ?_, ?_, ?_, ?_, ?_, ?_⟩
      · rw [foldOpt_cons, hstep2]
        show foldOpt _ _ js = _
        rw [hfold, hkf, hfc2]
      · rw [hlen2, hlen_set]
      · intro r hr
        rw [P1 r (fun j2 hj2 => hr j2 (List.mem_cons_of_mem _ hj2)),
          hget_other _ _ (hr j (List.mem_cons_self _ _))]
      · intro j2 hj2 hD2
        rcases List.mem_cons.mp hj2 with rfl | hj2m
        · exact absurd hD2 (by simp [hd])
        · rw [P2 j2 hj2m hD2, hget_other _ _ (hdist j2 hj2m)]
      · intro j2 hj2
        rcases List.mem_cons.mp hj2 with rfl | hj2m
        · refine ⟨(kept.length : Int), ?_⟩
          rw [P1 _ (fun j3 hj3 => (hdist j3 hj3).symm), hget_self]
        · rcases Pex j2 hj2m with ⟨v, hv⟩
          exact ⟨v, by rw [hv, hget_other _ _ (hdist j2 hj2m)]⟩
      · intro p hp
        rw [hkf] at hp ⊢
        rcases PK p hp with ⟨a, b, c⟩
        rw [hlen_set] at b
        exact ⟨a, b, c⟩

theorem natRange_pairwise_lt (s n : Nat) : (natRange s n).Pairwise (· < ·) := by
  induction n generalizing s with
  | zero => exact List.Pairwise.nil
  | succ n ih =>
    refine List.pairwise_cons.mpr ⟨?_, ih (s + 1)⟩
    intro b hb
    have := mem_natRange.mp hb
    omega

theorem delCond_eq_delCondAt (pool : CPool) (slack : List ℚ) (i : Nat) :
    delCond pool slack i = delCondAt slack
      (fun i2 => (pool.rows.getD (pool.lprows.getD i2 (-1)).toNat default).flags)
      i := rfl

/-- C8: `delete_slack_rows` leaves everything unchanged unless the node's
objective bound strictly improved since the last deletion; when it runs (on a
consistent loaded region), it removes exactly the loaded rows that are slack
beyond `FUZZ` or discard-flagged, demotes each removed row to not-loaded,
compacts the survivors so that each one's recorded LP index equals its new
position, keeps every other row field intact, shrinks the engine row count
accordingly, and stamps `delrow_z` exactly when something was deleted. -/
theorem claim_C8 (st : BBState) :
    (st.node.z ≤ st.node.delrow_z → _gst_delete_slack_rows_from_LP st = some st) ∧
    (st.node.delrow_z < st.node.z →
     st.lpRows = st.pool.nlprows →
     (∀ i < st.pool.nlprows, 0 ≤ st.pool.lprows.getD i (-1) ∧
        st.pool.lprows.getD i (-1) < (st.pool.rows.length : Int) ∧
        (st.pool.rows.getD (st.pool.lprows.getD i (-1)).toNat default).lprow
          = (i : Int)) →
     ∃ st', _gst_delete_slack_rows_from_LP st = some st' ∧
       st'.pool.lprows =
         ((natRange 0 st.pool.nlprows).filter
            (fun i => !(delCond st.pool st.slack i))).map
            (fun i => st.pool.lprows.getD i (-1)) ++
         (natRange st.pool.nlprows st.pool.npend).map
            (fun i => st.pool.lprows.getD i (-1)) ∧
       st'.pool.nlprows = ((natRange 0 st.pool.nlprows).filter
            (fun i => !(delCond st.pool st.slack i))).length ∧
       st'.pool.npend = st.pool.npend ∧
       st'.lpRows = st.lpRows -
         ((natRange 0 st.pool.nlprows).filter (delCond st.pool st.slack)).length ∧
       (∀ i < st.pool.nlprows, delCond st.pool st.slack i = true →
         (st'.pool.rows.getD (st.pool.lprows.getD i (-1)).toNat default).lprow
           = -1) ∧
       (∀ p < st'.pool.nlprows,
         (st'.pool.rows.getD (st'.pool.lprows.getD p (-1)).toNat default).lprow
           = (p : Int)) ∧
       (∀ r < st.pool.rows.length, ∃ v : Int,
         st'.pool.rows.getD r default =
           { st.pool.rows.getD r default with lprow := v }) ∧
       st'.pool.rows.length = st.pool.rows.length ∧
       st'.node.delrow_z =
         (if 0 < ((natRange 0 st.pool.nlprows).filter
              (delCond st.pool st.slack)).length
          then st.node.z else st.node.delrow_z)) := by
  constructor
  · intro hle
    unfold _gst_delete_slack_rows_from_LP
    rw [if_pos hle]
  · intro hz hsync hreg
    have hpair : (natRange 0 st.pool.nlprows).Pairwise
        (fun a b => (st.pool.lprows.getD a (-1)).toNat ≠
          (st.pool.lprows.getD b (-1)).toNat) := by
      refine (natRange_pairwise_lt 0 st.pool.nlprows).imp_of_mem ?_
      intro a b ha hb hlt hEq
      have hamem := mem_natRange.mp ha
      have hbmem := mem_natRange.mp hb
      rcases hreg a (by omega) with ⟨ha1, ha2, ha3⟩
      rcases hreg b (by omega) with ⟨hb1, hb2, hb3⟩
      rw [hEq, hb3] at ha3
      omega
    have hH1 : ∀ j ∈ natRange 0 st.pool.nlprows,
        0 ≤ st.pool.lprows.getD j (-1) ∧
        st.pool.lprows.getD j (-1) < (st.pool.rows.length : Int) ∧
        (st.pool.rows.getD (st.pool.lprows.getD j (-1)).toNat default).lprow
          = (j : Int) ∧
        (st.pool.rows.getD (st.pool.lprows.getD j (-1)).toNat default).flags
          = (fun i2 => (st.pool.rows.getD
              (st.pool.lprows.getD i2 (-1)).toNat default).flags) j := by
      intro j hj
      have := mem_natRange.mp hj
      rcases hreg j (by omega) with ⟨a, b, c⟩
      exact ⟨a, b, c, rfl⟩
    obtain ⟨rows2, hfold, hlen2, P1, P2, Pex, PK⟩ :=
      delSlack_fold st.pool.lprows st.slack
        (fun i2 => (st.pool.rows.getD
          (st.pool.lprows.getD i2 (-1)).toNat default).flags)
        (natRange 0 st.pool.nlprows) st.pool.rows [] 0
        hH1 hpair (by simp) (by simp)
    -- run the routine, branching on whether anything was deleted
    have hrun : _gst_delete_slack_rows_from_LP st =
        (if 0 < ((natRange 0 st.pool.nlprows).filter
            (delCond st.pool st.slack)).length then
          some { st with
            pool := { st.pool with
              rows := rows2,
              lprows := ((natRange 0 st.pool.nlprows).filter
                  (fun i => !(delCond st.pool st.slack i))).map
                  (fun i => st.pool.lprows.getD i (-1)) ++
                (natRange st.pool.nlprows st.pool.npend).map
                  (fun i => st.pool.lprows.getD i (-1)),
              nlprows := (((natRange 0 st.pool.nlprows).filter
                  (fun i => !(delCond st.pool st.slack i))).map
                  (fun i => st.pool.lprows.getD i (-1))).length },
            lpRows := st.lpRows - ((natRange 0 st.pool.nlprows).filter
                (delCond st.pool st.slack)).length,
            node := { st.node with delrow_z := st.node.z } }
        else
          some { st with
            pool := { st.pool with
              rows := rows2,
              lprows := ((natRange 0 st.pool.nlprows).filter
                  (fun i => !(delCond st.pool st.slack i))).map
                  (fun i => st.pool.lprows.getD i (-1)) ++
                (natRange st.pool.nlprows st.pool.npend).map
                  (fun i => st.pool.lprows.getD i (-1)),
              nlprows := (((natRange 0 st.pool.nlprows).filter
                  (fun i => !(delCond st.pool st.slack i))).map
                  (fun i => st.pool.lprows.getD i (-1))).length } }) := by
      unfold _gst_delete_slack_rows_from_LP
      rw [if_neg (not_le.mpr hz), if_neg (fun h => h hsync)]
      simp only [delCond_eq_delCondAt]
      rw [hfold]
      simp only [Nat.zero_add, List.nil_append]
      rfl
    simp only [List.nil_append] at PK
    have hdemote : ∀ i < st.pool.nlprows, delCond st.pool st.slack i = true →
        (rows2.getD (st.pool.lprows.getD i (-1)).toNat default).lprow = -1 := by
      intro i hi hD
      rw [P2 i (mem_natRange.mpr (by omega)) hD]
    have hcompact : ∀ p < (((natRange 0 st.pool.nlprows).filter
        (fun i => !(delCondAt st.slack
          (fun i2 => (st.pool.rows.getD
            (st.pool.lprows.getD i2 (-1)).toNat default).flags) i))).map
        (fun i => st.pool.lprows.getD i (-1))).length,
        (rows2.getD ((((natRange 0 st.pool.nlprows).filter
          (fun i => !(delCondAt st.slack
            (fun i2 => (st.pool.rows.getD
              (st.pool.lprows.getD i2 (-1)).toNat default).flags) i))).map
          (fun i => st.pool.lprows.getD i (-1))).getD p (-1)).toNat
          default).lprow = (p : Int) := by
      intro p hp
      exact (PK p hp).2.2
    have hex : ∀ r < st.pool.rows.length, ∃ v : Int,
        rows2.getD r default = { st.pool.rows.getD r default with lprow := v } := by
      intro r hr
      by_cases hcase : ∃ j ∈ natRange 0 st.pool.nlprows,
          (st.pool.lprows.getD j (-1)).toNat = r
      · rcases hcase with ⟨j, hj, hLj⟩
        rcases Pex j hj with ⟨v, hv⟩
        rw [hLj] at hv
        exact ⟨v, hv⟩
      · push_neg at hcase
        refine ⟨(st.pool.rows.getD r default).lprow, ?_⟩
        rw [P1 r hcase]
    by_cases hnd : 0 < ((natRange 0 st.pool.nlprows).filter
        (delCond st.pool st.slack)).length
    · rw [if_pos hnd] at hrun
      refine ⟨_, hrun, rfl, by simp, rfl, rfl, hdemote, ?_, hex, hlen2, ?_⟩
      · intro p hp
        rw [getD_append_left _ _ _ _ hp]
        exact hcompact p hp
      · simp [if_pos hnd]
    · rw [if_neg hnd] at hrun
      refine ⟨_, hrun, rfl, by simp, rfl, ?_, hdemote, ?_, hex, hlen2, ?_⟩
      · show st.lpRows = st.lpRows - _
        omega
      · intro p hp
        rw [getD_append_left _ _ _ _ hp]
        exact hcompact p hp
      · simp [if_neg hnd]

/-- Witness for C8: on `stNoImprove` (objective not improved) the routine is
the identity; on `stSlackDel` (improved objective, one slack row) it runs and
returns a state with the recorded properties. -/
theorem claim_C8_witness :
    _gst_delete_slack_rows_from_LP stNoImprove = some stNoImprove ∧
    ∃ st', _gst_delete_slack_rows_from_LP stSlackDel = some st' ∧
      st'.pool.npend = stSlackDel.pool.npend ∧
      st'.pool.rows.length = stSlackDel.pool.rows.length := by
  refine ⟨(claim_C8 stNoImprove).1 (by norm_num [stNoImprove, poolTwoLoaded]), ?_⟩
  obtain ⟨st', h1, _, _, h4, _, _, _, _, h9, _⟩ :=
    (claim_C8 stSlackDel).2 (by norm_num [stSlackDel, poolTwoLoaded])
      (by decide) (by decide)
  exact ⟨st', h1, h4, h9⟩

/-- C9 counterexample: the claim asserts that a row-count mismatch on entry to
basis restore aborts fatally; but `_gst_restore_node_basis` reconciles the
pool bookkeeping (`pool->nlprows = n`) and completes on `stMismatch`, whose
engine count (2) differs from the pool's loaded count (1). -/
theorem claim_C9_counterexample :
    stMismatch.lpRows ≠ stMismatch.pool.nlprows ∧
    (_gst_restore_node_basis nbMismatch stMismatch).isSome = true := by decide

/-- C9 (amended): a pool/LP row-count mismatch aborts fatally on entry to
`push_pending` (and to `save_node_basis`); `restore_node_basis`, however, does
not abort — it overwrites the pool's loaded-row count with the engine's
reported count and proceeds (equivalently, restoring a mismatched state is the
same as restoring the reconciled state), completing normally on the concrete
mismatched state. -/
theorem claim_C9 :
    (∀ st : BBState, st.lpRows ≠ st.pool.nlprows →
      _gst_add_pending_rows_to_LP st = none) ∧
    (∀ st : BBState, st.pool.nlprows ≠ st.lpRows →
      _gst_save_node_basis st = none) ∧
    (∀ (nb : NodeBasis) (st : BBState),
      _gst_restore_node_basis nb st =
        _gst_restore_node_basis nb
          { st with pool := { st.pool with nlprows := st.lpRows } }) ∧
    (stMismatch.lpRows ≠ stMismatch.pool.nlprows ∧
      (_gst_restore_node_basis nbMismatch stMismatch).isSome = true) := by
  refine ⟨?_, ?_, ?_, by decide⟩
  · intro st h
    unfold _gst_add_pending_rows_to_LP
    rw [if_pos h]
  · intro st h
    unfold _gst_save_node_basis
    rw [if_pos h]
  · intro nb st
    unfold _gst_restore_node_basis
    by_cases h : st.lpRows = st.pool.nlprows
    · have : ({ st.pool with nlprows := st.lpRows } : CPool) = st.pool := by
        rw [h]
      rw [this]
    · have hself : ¬(st.lpRows ≠ st.lpRows) := fun hc => hc rfl
      simp only [if_pos h, if_neg hself]

/-- Witness for C9: the universal conjuncts applied at the concrete mismatched
state. -/
theorem claim_C9_witness :
    _gst_add_pending_rows_to_LP stMismatch = none ∧
    _gst_save_node_basis stMismatch = none ∧
    _gst_restore_node_basis nbMismatch stMismatch =
      _gst_restore_node_basis nbMismatch
        { stMismatch with
          pool := { stMismatch.pool with nlprows := stMismatch.lpRows } } :=
  ⟨claim_C9.1 stMismatch (by decide), claim_C9.2.1 stMismatch (by decide),
   claim_C9.2.2.1 nbMismatch stMismatch⟩

/-! ### List toolkit for the garbage collector -/

theorem natRange_append (s a b : Nat) :
    natRange s (a + b) = natRange s a ++ natRange (s + a) b := by
  induction a generalizing s with
  | zero => simp [natRange]
  | succ a ih =>
    have h1 : a + 1 + b = (a + b) + 1 := by omega
    rw [h1]
    show s :: natRange (s + 1) (a + b) =
      (s :: natRange (s + 1) a) ++ natRange (s + (a + 1)) b
    rw [List.cons_append, ih (s + 1)]
    have h2 : s + 1 + a = s + (a + 1) := by omega
    rw [h2]

theorem natRange_mem (s n i : Nat) : i ∈ natRange s n ↔ s ≤ i ∧ i < s + n := by
  induction n generalizing s with
  | zero => simp [natRange]
  | succ n ih =>
    simp [natRange, ih (s + 1)]
    omega

theorem natRange_getD (s n i : Nat) (d : Nat) (h : i < n) :
    (natRange s n).getD i d = s + i := by
  induction n generalizing s i with
  | zero => omega
  | succ n ih =>
    cases i with
    | zero =>
      show (s :: natRange (s + 1) n).getD 0 d = s + 0
      simp
    | succ i =>
      show (s :: natRange (s + 1) n).getD (i + 1) d = s + (i + 1)
      rw [List.getD_cons_succ, ih (s + 1) i (by omega)]
      omega

theorem getD_map {α β : Type _} (f : α → β) (l : List α) (i : Nat)
    (d1 : β) (d2 : α) (h : i < l.length) :
    (l.map f).getD i d1 = f (l.getD i d2) := by
  induction l generalizing i with
  | nil => simp at h
  | cons a t ih =>
    cases i with
    | zero => simp
    | succ i =>
      simp only [List.map_cons, List.getD_cons_succ]
      exact ih i (by simpa using h)

theorem perm_cons_set {α : Type _} (t : List α) (k : Nat) (b x : α)
    (hk : k < t.length) : (x :: t.set k b).Perm (b :: t.set k x) := by
  induction t generalizing k with
  | nil => simp at hk
  | cons a s ih =>
    cases k with
    | zero => simpa using List.Perm.swap b x s
    | succ k =>
      have h1 : (x :: a :: s.set k b).Perm (a :: x :: s.set k b) :=
        List.Perm.swap a x _
      have h2 : (a :: x :: s.set k b).Perm (a :: b :: s.set k x) :=
        List.Perm.cons a (ih k (by simpa using hk))
      have h3 : (a :: b :: s.set k x).Perm (b :: a :: s.set k x) :=
        List.Perm.swap b a _
      simpa using (h1.trans h2).trans h3

theorem perm_set_set {α : Type _} (l : List α) (i j : Nat) (x d : α)
    (hij : i < j) (hj : j < l.length) :
    ((l.set j (l.getD i d)).set i x).Perm (l.set j x) := by
  induction l generalizing i j with
  | nil => simp at hj
  | cons a t ih =>
    cases j with
    | zero => omega
    | succ j =>
      cases i with
      | zero =>
        simp only [List.getD_cons_zero, List.set_cons_succ, List.set_cons_zero]
        exact perm_cons_set t j a x (by simpa using hj)
      | succ i =>
        simp only [List.getD_cons_succ, List.set_cons_succ]
        exact List.Perm.cons a (ih i j (by omega) (by simpa using hj))

theorem shellInnerA_perm {α : Type _} (key : α → Nat) (h : Nat) (tmp : α) :
    ∀ (fuel : Nat) (l : List α) (j : Nat), j ≤ fuel → j < l.length →
      (shellInnerA key h tmp fuel l j).Perm (l.set j tmp)
  | 0, l, j, _, _ => by simp [shellInnerA]
  | fuel + 1, l, j, hjf, hjl => by
    show (if 0 < h ∧ h ≤ j ∧ key (l.getD (j - h) tmp) > key tmp then
        shellInnerA key h tmp fuel (l.set j (l.getD (j - h) tmp)) (j - h)
      else l.set j tmp).Perm (l.set j tmp)
    by_cases hc : 0 < h ∧ h ≤ j ∧ key (l.getD (j - h) tmp) > key tmp
    · rw [if_pos hc]
      have ih := shellInnerA_perm key h tmp fuel
        (l.set j (l.getD (j - h) tmp)) (j - h)
        (by omega) (by rw [List.length_set]; omega)
      exact ih.trans (perm_set_set l (j - h) j tmp tmp (by omega) hjl)
    · rw [if_neg hc]

theorem shellInner_perm {α : Type _} (key : α → Nat) (h : Nat) (l : List α)
    (j : Nat) (hj : j < l.length) (d : α) :
    (shellInner key h (l.getD j d) l j).Perm l := by
  have := shellInnerA_perm key h (l.getD j d) j l j (Nat.le_refl j) hj
  rw [set_getD_self l j d hj] at this
  exact this

theorem shellPassA_perm {α : Type _} [Inhabited α] (key : α → Nat)
    (h n : Nat) :
    ∀ (fuel : Nat) (l : List α) (i : Nat), n ≤ l.length →
      (shellPassA key h n fuel l i).Perm l
  | 0, l, i, _ => by simp [shellPassA]
  | fuel + 1, l, i, hn => by
    show (if i < n then
        shellPassA key h n fuel (shellInner key h (l.getD i default) l i)
          (i + 1)
      else l).Perm l
    by_cases hi : i < n
    · rw [if_pos hi]
      have hinner := shellInner_perm key h l i (by omega) default
      have ih := shellPassA_perm key h n fuel
        (shellInner key h (l.getD i default) l i) (i + 1)
        (by rw [hinner.length_eq]; exact hn)
      exact ih.trans hinner
    · rw [if_neg hi]

theorem shellPass_perm {α : Type _} [Inhabited α] (key : α → Nat)
    (h n : Nat) (l : List α) (hn : n ≤ l.length) :
    (shellPass key h n l).Perm l :=
  shellPassA_perm key h n (n - h) l h hn

theorem shellLoopA_perm {α : Type _} [Inhabited α] (key : α → Nat) (n : Nat) :
    ∀ (fuel : Nat) (l : List α) (h : Nat), n ≤ l.length →
      (shellLoopA key n fuel l h).Perm l
  | 0, l, h, _ => by simp [shellLoopA]
  | fuel + 1, l, h, hn => by
    show (if h / 3 > 1 then
        shellLoopA key n fuel (shellPass key (h / 3) n l) (h / 3)
      else shellPass key (h / 3) n l).Perm l
    have hp := shellPass_perm key (h / 3) n l hn
    by_cases hgt : h / 3 > 1
    · rw [if_pos hgt]
      have ih := shellLoopA_perm key n fuel (shellPass key (h / 3) n l)
        (h / 3) (by rw [hp.length_eq]; exact hn)
      exact ih.trans hp
    · rw [if_neg hgt]; exact hp

theorem shellSortBy_perm {α : Type _} [Inhabited α] (key : α → Nat)
    (l : List α) : (shellSortBy key l).Perm l :=
  shellLoopA_perm key l.length (shellHA (l.length + 1) l.length 1) l
    (shellHA (l.length + 1) l.length 1) (Nat.le_refl _)

/-! ### Garbage-collector facts -/

theorem gcCollectStep_sub (pool : CPool) (acc : List (Nat × Nat)) (i : Nat)
    (p : Nat × Nat) (hp : p ∈ gcCollectStep pool acc i) :
    p ∈ acc ∨ (p.1 = i ∧ (pool.rows.getD i default).lprow = -1 ∧
      ¬ 0 < (pool.rows.getD i default).refc) := by
  simp only [gcCollectStep] at hp
  by_cases h1 : (pool.rows.getD i default).lprow ≠ -1
  · rw [if_pos h1] at hp; exact Or.inl hp
  · rw [if_neg h1] at hp
    by_cases h2 : 0 < (pool.rows.getD i default).refc
    · rw [if_pos h2] at hp; exact Or.inl hp
    · rw [if_neg h2] at hp
      by_cases h3 : (pool.rows.getD i default).flags &&& RCON_FLAG_DISCARD ≠ 0
      · rw [if_pos h3] at hp
        rcases List.mem_append.mp hp with hq | hq
        · exact Or.inl hq
        · simp only [List.mem_singleton] at hq
          exact Or.inr ⟨by rw [hq], not_not.mp h1, h2⟩
      · rw [if_neg h3] at hp
        by_cases h4 : pool.iter - (pool.rows.getD i default).biter < 10
        · rw [if_pos h4] at hp; exact Or.inl hp
        · rw [if_neg h4] at hp
          rcases List.mem_append.mp hp with hq | hq
          · exact Or.inl hq
          · simp only [List.mem_singleton] at hq
            exact Or.inr ⟨by rw [hq], not_not.mp h1, h2⟩

theorem gcFold_mem (pool : CPool) :
    ∀ (L : List Nat) (acc : List (Nat × Nat)) (p : Nat × Nat),
      p ∈ L.foldl (gcCollectStep pool) acc →
      p ∈ acc ∨ (p.1 ∈ L ∧ (pool.rows.getD p.1 default).lprow = -1 ∧
        ¬ 0 < (pool.rows.getD p.1 default).refc)
  | [], acc, p, hp => Or.inl hp
  | i :: L, acc, p, hp => by
    rcases gcFold_mem pool L (gcCollectStep pool acc i) p hp with hq | hq
    · rcases gcCollectStep_sub pool acc i p hq with hr | hr
      · exact Or.inl hr
      · refine Or.inr ⟨?_, ?_⟩
        · rw [hr.1]; exact List.mem_cons_self i L
        · rw [hr.1]; exact hr.2
    · exact Or.inr ⟨List.mem_cons_of_mem i hq.1, hq.2⟩

theorem gcCandidates_mem (pool : CPool) (p : Nat × Nat)
    (hp : p ∈ gcCandidates pool) :
    pool.initrows ≤ p.1 ∧ p.1 < pool.rows.length ∧
      (pool.rows.getD p.1 default).lprow = -1 ∧
      ¬ 0 < (pool.rows.getD p.1 default).refc := by
  rcases gcFold_mem pool _ [] p hp with hq | hq
  · simp at hq
  · have hr := (natRange_mem pool.initrows
      (pool.rows.length - pool.initrows) p.1).mp hq.1
    exact ⟨hr.1, by omega, hq.2⟩

theorem gcSelectLoop_sub (rows : List Rcon) (minRec : Nat) :
    ∀ (L : List Nat) (nz k : Nat), k ∈ gcSelectLoop rows minRec nz L → k ∈ L
  | [], _, k, hk => by simp [gcSelectLoop] at hk
  | k0 :: L, nz, k, hk => by
    simp only [gcSelectLoop] at hk
    by_cases hc : minRec ≤ nz + (rows.getD k0 default).row.coefs.length
    · rw [if_pos hc] at hk
      simp only [List.mem_singleton] at hk
      rw [hk]; exact List.mem_cons_self k0 L
    · rw [if_neg hc] at hk
      rcases List.mem_cons.mp hk with hq | hq
      · rw [hq]; exact List.mem_cons_self k0 L
      · exact List.mem_cons_of_mem k0 (gcSelectLoop_sub rows minRec L _ k hq)

theorem gcSelectLoop_recovers (rows : List Rcon) (minRec : Nat) :
    ∀ (L : List Nat) (nz : Nat),
      minRec ≤ nz + sumLens rows (gcSelectLoop rows minRec nz L) ∨
      gcSelectLoop rows minRec nz L = L
  | [], nz => Or.inr rfl
  | k0 :: L, nz => by
    simp only [gcSelectLoop]
    by_cases hc : minRec ≤ nz + (rows.getD k0 default).row.coefs.length
    · rw [if_pos hc]
      left
      simp only [sumLens]
      omega
    · rw [if_neg hc]
      rcases gcSelectLoop_recovers rows minRec L
        (nz + (rows.getD k0 default).row.coefs.length) with hq | hq
      · left
        simp only [sumLens]
        omega
      · right; rw [hq]

theorem gcSelectLoop_sum_le (rows : List Rcon) (minRec : Nat) :
    ∀ (L : List Nat) (nz : Nat),
      sumLens rows (gcSelectLoop rows minRec nz L) ≤ sumLens rows L
  | [], _ => Nat.le_refl _
  | k0 :: L, nz => by
    simp only [gcSelectLoop]
    by_cases hc : minRec ≤ nz + (rows.getD k0 default).row.coefs.length
    · rw [if_pos hc]
      simp only [sumLens]
      omega
    · rw [if_neg hc]
      simp only [sumLens]
      have := gcSelectLoop_sum_le rows minRec L
        (nz + (rows.getD k0 default).row.coefs.length)
      omega

theorem sumLens_eq_sum (rows : List Rcon) :
    ∀ L : List Nat,
      sumLens rows L =
        (L.map (fun k => (rows.getD k default).row.coefs.length)).sum
  | [] => rfl
  | k :: L => by
    simp only [sumLens, List.map_cons, List.sum_cons, sumLens_eq_sum rows L]

theorem sumLens_perm (rows : List Rcon) (L1 L2 : List Nat)
    (hp : L1.Perm L2) : sumLens rows L1 = sumLens rows L2 := by
  rw [sumLens_eq_sum, sumLens_eq_sum]
  exact (hp.map _).sum_eq

theorem gc_cases (pool : CPool) (ncoeff nrowsArg : Nat) (params : GstParams)
    (pool' : CPool)
    (hgc : garbage_collect_pool pool ncoeff nrowsArg params = some pool') :
    (pool' = pool ∧ ((gcCandidates pool).length = 0 ∨
      pool.num_nz + ncoeff ≤ gcTarget pool params)) ∨
    ∃ (evicted : List Nat) (lprows2 : List Int),
      (∀ k ∈ evicted, k ∈ (gcCandidates pool).map Prod.fst) ∧
      gcTarget pool params < pool.num_nz + ncoeff ∧
      (pool.num_nz + ncoeff - gcTarget pool params ≤
          sumLens pool.rows evicted ∨
        sumLens pool.rows evicted =
          sumLens pool.rows ((gcCandidates pool).map Prod.fst)) ∧
      sumLens pool.rows evicted ≤
        sumLens pool.rows ((gcCandidates pool).map Prod.fst) ∧
      pool.lprows.foldl
        (fun acc e => match acc with
          | none => none
          | some acc2 => gcLprowsStep evicted pool.rows.length acc2 e)
        (some []) = some lprows2 ∧
      pool' = { pool with
        rows := ((natRange 0 pool.rows.length).filter
            (fun i => !(evicted.contains i))).map
            (fun i => pool.rows.getD i default),
        buckets := pool.buckets.map (gcRenumChain evicted),
        lprows := lprows2,
        num_nz := pool.num_nz - sumLens pool.rows evicted } := by
  simp only [garbage_collect_pool] at hgc
  by_cases hnp : pool.npend ≠ 0
  · rw [if_pos hnp] at hgc; cases hgc
  rw [if_neg hnp] at hgc
  by_cases hc0 : (gcCandidates pool).length = 0
  · rw [if_pos hc0] at hgc
    exact Or.inl ⟨(Option.some.inj hgc).symm, Or.inl hc0⟩
  rw [if_neg hc0] at hgc
  by_cases ht : pool.num_nz + ncoeff ≤ gcTarget pool params
  · rw [if_pos ht] at hgc
    exact Or.inl ⟨(Option.some.inj hgc).symm, Or.inr ht⟩
  rw [if_neg ht] at hgc
  right
  have hpermL : ((shellSortBy Prod.snd
      (gcCandidates pool)).reverse.map Prod.fst).Perm
      ((gcCandidates pool).map Prod.fst) :=
    ((List.reverse_perm _).trans (shellSortBy_perm _ _)).map _
  set minRecV := if 3 * ncoeff / 2 <
      pool.num_nz + ncoeff - gcTarget pool params then
      pool.num_nz + ncoeff - gcTarget pool params
    else 3 * ncoeff / 2 with hminRec
  set L := (shellSortBy Prod.snd (gcCandidates pool)).reverse.map Prod.fst
    with hL
  set ev := gcSelectLoop pool.rows minRecV 0 L with hev
  have hminRec_ge : pool.num_nz + ncoeff - gcTarget pool params ≤ minRecV := by
    rw [hminRec]
    by_cases hm : 3 * ncoeff / 2 <
        pool.num_nz + ncoeff - gcTarget pool params
    · rw [if_pos hm]
    · rw [if_neg hm]; omega
  cases hfold : pool.lprows.foldl
      (fun acc e => match acc with
        | none => none
        | some acc2 => gcLprowsStep ev pool.rows.length acc2 e)
      (some []) with
  | none => rw [hfold] at hgc; cases hgc
  | some lprows2 =>
    rw [hfold] at hgc
    refine ⟨ev, lprows2, ?_, by omega, ?_, ?_, hfold, (Option.some.inj hgc).symm⟩
    · intro k hk
      exact hpermL.mem_iff.mp (gcSelectLoop_sub pool.rows minRecV L 0 k hk)
    · rcases gcSelectLoop_recovers pool.rows minRecV L 0 with hq | hq
      · left; rw [← hev] at hq; omega
      · right
        rw [hev, hq]
        exact sumLens_perm pool.rows L _ hpermL
    · have h1 := gcSelectLoop_sum_le pool.rows minRecV L 0
      rw [← hev] at h1
      rw [sumLens_perm pool.rows L _ hpermL] at h1
      exact h1

theorem filter_range_getD (keep : Nat → Bool) (n r : Nat) (hr : r < n)
    (hk : keep r = true) (d : Nat) :
    ((natRange 0 r).filter keep).length <
      ((natRange 0 n).filter keep).length ∧
    ((natRange 0 n).filter keep).getD
      ((natRange 0 r).filter keep).length d = r := by
  have hsplit : natRange 0 n = natRange 0 r ++ natRange r (n - r) := by
    have h1 : n = r + (n - r) := by omega
    calc natRange 0 n = natRange 0 (r + (n - r)) := by rw [← h1]
      _ = natRange 0 r ++ natRange (0 + r) (n - r) := natRange_append 0 r _
      _ = natRange 0 r ++ natRange r (n - r) := by rw [Nat.zero_add]
  obtain ⟨k, hkk⟩ : ∃ k, n - r = k + 1 := ⟨n - r - 1, by omega⟩
  have hcons : natRange r (n - r) = r :: natRange (r + 1) k := by
    rw [hkk]
    rfl
  rw [hsplit, hcons, List.filter_append, List.filter_cons_of_pos hk]
  constructor
  · rw [List.length_append, List.length_cons]; omega
  · rw [getD_append_right _ _ _ _ (Nat.le_refl _), Nat.sub_self,
      List.getD_cons_zero]

/-- C10: the garbage collector never evicts a seed constraint.  Candidate
collection starts at index `initrows`, so every row whose pool index is
below `initrows` survives every successful garbage collection unchanged and
at the same pool index, regardless of its staleness, flags, reference count,
or loaded status. -/
theorem claim_C10 (pool : CPool) (ncoeff nrowsArg : Nat) (params : GstParams)
    (pool' : CPool) (hinit : pool.initrows ≤ pool.rows.length)
    (hgc : garbage_collect_pool pool ncoeff nrowsArg params = some pool') :
    pool.initrows ≤ pool'.rows.length ∧
    ∀ i, i < pool.initrows →
      pool'.rows.getD i default = pool.rows.getD i default := by
  rcases gc_cases pool ncoeff nrowsArg params pool' hgc with
    ⟨hid, _⟩ | ⟨ev, lp2, hmem, _, _, _, _, hres⟩
  · rw [hid]; exact ⟨hinit, fun i _ => rfl⟩
  · have hkeep : ∀ i, i < pool.initrows → (!(ev.contains i)) = true := by
      intro i hi
      by_contra hc
      have hmi : i ∈ ev := by
        cases hcont : ev.contains i with
        | false => rw [hcont] at hc; exact absurd rfl hc
        | true => exact List.mem_of_elem_eq_true hcont
      rcases List.mem_map.mp (hmem i hmi) with ⟨p, hp, hpe⟩
      have := (gcCandidates_mem pool p hp).1
      omega
    have hgetD : ∀ i, i < pool.initrows →
        i < ((natRange 0 pool.rows.length).filter
            (fun j => !(ev.contains j))).length ∧
        ((natRange 0 pool.rows.length).filter
            (fun j => !(ev.contains j))).getD i 0 = i := by
      intro i hi
      have hfr := filter_range_getD (fun j => !(ev.contains j))
        pool.rows.length i (by omega) (hkeep i hi) 0
      have hpre : (natRange 0 i).filter (fun j => !(ev.contains j)) =
          natRange 0 i := by
        refine List.filter_eq_self.mpr ?_
        intro a ha
        have := (natRange_mem 0 i a).mp ha
        exact hkeep a (by omega)
      rw [hpre, natRange_length] at hfr
      exact hfr
    have hlen : pool.initrows ≤ pool'.rows.length := by
      rcases Nat.eq_zero_or_pos pool.initrows with hz | hpos
      · omega
      · have := (hgetD (pool.initrows - 1) (by omega)).1
        rw [hres]
        simp only [List.length_map]
        omega
    refine ⟨hlen, fun i hi => ?_⟩
    rw [hres]
    show (((natRange 0 pool.rows.length).filter
        (fun j => !(ev.contains j))).map
        (fun j => pool.rows.getD j default)).getD i default =
      pool.rows.getD i default
    rw [getD_map _ _ _ _ 0 (hgetD i hi).1, (hgetD i hi).2]

/-- C10 witness: a pool whose single row (index 0, `initrows = 0` so the
bound is vacuous, exercised via the loaded row being ineligible) passes
through collection unchanged. -/
theorem claim_C10_witness :
    poolOverTarget.initrows ≤ poolOverTarget.rows.length ∧
    garbage_collect_pool poolOverTarget 1 0 paramsTiny =
      some poolOverTarget ∧
    (poolOverTarget.initrows ≤ poolOverTarget.rows.length ∧
      ∀ i, i < poolOverTarget.initrows →
        poolOverTarget.rows.getD i default =
          poolOverTarget.rows.getD i default) :=
  ⟨by decide, rfl,
    claim_C10 poolOverTarget 1 0 paramsTiny poolOverTarget (by decide) rfl⟩

theorem gcLprowsFold_eq (evicted : List Nat) (nrows : Nat) :
    ∀ (L : List Int) (acc : List Int),
      (∀ e ∈ L, 0 ≤ e ∧ e < (nrows : Int) ∧
        evicted.contains e.toNat = false) →
      L.foldl
        (fun a e => match a with
          | none => none
          | some a2 => gcLprowsStep evicted nrows a2 e)
        (some acc)
      = some (acc ++ L.map (fun e => (renumVal evicted e.toNat : Int)))
  | [], acc, _ => by simp
  | e :: L, acc, h => by
    have he := h e (List.mem_cons_self e L)
    have hstep : gcLprowsStep evicted nrows acc e =
        some (acc ++ [(renumVal evicted e.toNat : Int)]) := by
      simp only [gcLprowsStep]
      rw [if_neg (by omega : ¬(e < 0 ∨ (nrows : Int) ≤ e)),
        if_neg (by rw [he.2.2]; exact Bool.false_ne_true)]
    rw [List.foldl_cons]
    show L.foldl _ (gcLprowsStep evicted nrows acc e) = _
    rw [hstep,
      gcLprowsFold_eq evicted nrows L (acc ++ [(renumVal evicted e.toNat : Int)])
        (fun x hx => h x (List.mem_cons_of_mem e hx))]
    rw [List.map_cons, List.append_assoc]
    rfl

/-- C6 counterexample: a successful garbage-collector run need not bring the
pool's coefficient count under the computed size target.  On a pool whose
only row is loaded in the LP there are no eviction candidates, so
`garbage_collect_pool` returns with the pool unchanged even though its
coefficient count (100) exceeds the explicit target (1). -/
theorem claim_C6_counterexample :
    garbage_collect_pool poolOverTarget 1 0 paramsTiny =
      some poolOverTarget ∧
    gcTarget poolOverTarget paramsTiny < poolOverTarget.num_nz :=
  ⟨rfl, by decide⟩

/-- C6 (amended): after any successful run of the garbage collector, every
row that was loaded in (or on its way to) the LP or had a non-zero reference
count before collection is still present in the pool, with its hash-bucket
chain membership and its recorded LP row slot consistent with its new
(renumbered) pool index.  The original claim's size bound does not hold
unconditionally (see the counterexample): the coefficient count lands at or
under the computed target only provided the eligible candidates carry enough
coefficient mass to recover the difference. -/
theorem claim_C6 (pool : CPool) (ncoeff nrowsArg : Nat) (params : GstParams)
    (pool' : CPool)
    (hgc : garbage_collect_pool pool ncoeff nrowsArg params = some pool')
    (hreg : ∀ e ∈ pool.lprows, 0 ≤ e ∧ e < (pool.rows.length : Int) ∧
        (pool.rows.getD e.toNat default).lprow ≠ -1) :
    (∀ r, r < pool.rows.length →
      ((pool.rows.getD r default).lprow ≠ -1 ∨
        0 < (pool.rows.getD r default).refc) →
      ∃ r', r' < pool'.rows.length ∧
        pool'.rows.getD r' default = pool.rows.getD r default ∧
        (∀ b, r ∈ pool.buckets.getD b [] → r' ∈ pool'.buckets.getD b []) ∧
        (∀ k, k < pool.lprows.length →
          pool.lprows.getD k (-1) = (r : Int) →
          pool'.lprows.getD k (-1) = (r' : Int))) ∧
    (sumLens pool.rows ((gcCandidates pool).map Prod.fst) ≤ pool.num_nz →
      pool.num_nz + ncoeff ≤ gcTarget pool params +
        sumLens pool.rows ((gcCandidates pool).map Prod.fst) →
      pool'.num_nz + ncoeff ≤ gcTarget pool params) := by
  rcases gc_cases pool ncoeff nrowsArg params pool' hgc with
    ⟨hid, hwhy⟩ | ⟨ev, lp2, hmem, htgt, hrec, hle, hfold, hres⟩
  · constructor
    · intro r hr _
      exact ⟨r, by rw [hid]; exact hr, by rw [hid],
        fun b hb => by rw [hid]; exact hb,
        fun k _ h2 => by rw [hid]; exact h2⟩
    · intro hS hsum
      rw [hid]
      rcases hwhy with hc0 | ht
      · rw [List.length_eq_zero] at hc0
        rw [hc0] at hsum
        simp only [List.map_nil, sumLens] at hsum
        omega
      · omega
  · have hevfact : ∀ j ∈ ev, pool.initrows ≤ j ∧ j < pool.rows.length ∧
        (pool.rows.getD j default).lprow = -1 ∧
        ¬ 0 < (pool.rows.getD j default).refc := by
      intro j hj
      rcases List.mem_map.mp (hmem j hj) with ⟨p, hp, hpe⟩
      have h := gcCandidates_mem pool p hp
      rw [hpe] at h
      exact h
    constructor
    · intro r hr huse
      have hnotin : r ∉ ev := by
        intro hmem2
        rcases hevfact r hmem2 with ⟨_, _, hlp, hrc⟩
        rcases huse with h | h
        · exact h hlp
        · exact hrc h
      have hkr : (!(ev.contains r)) = true := by
        cases hcont : ev.contains r with
        | false => rfl
        | true => exact absurd (List.mem_of_elem_eq_true hcont) hnotin
      have hfr := filter_range_getD (fun j => !(ev.contains j))
        pool.rows.length r hr hkr 0
      refine ⟨renumVal ev r, ?_, ?_, ?_, ?_⟩
      · rw [hres]
        show renumVal ev r < (((natRange 0 pool.rows.length).filter
            (fun i => !(ev.contains i))).map
            (fun i => pool.rows.getD i default)).length
        rw [List.length_map]
        exact hfr.1
      · rw [hres]
        show (((natRange 0 pool.rows.length).filter
            (fun i => !(ev.contains i))).map
            (fun i => pool.rows.getD i default)).getD (renumVal ev r) default
          = pool.rows.getD r default
        simp only [renumVal]
        rw [getD_map _ _ _ _ 0 hfr.1]
        show pool.rows.getD (((natRange 0 pool.rows.length).filter
            (fun i => !(ev.contains i))).getD
            (((natRange 0 r).filter (fun j => !(ev.contains j))).length) 0)
            default = pool.rows.getD r default
        rw [hfr.2]
      · intro b hb
        rw [hres]
        show renumVal ev r ∈
          (pool.buckets.map (gcRenumChain ev)).getD b []
        by_cases hbl : b < pool.buckets.length
        · rw [getD_map _ _ _ _ [] hbl]
          show renumVal ev r ∈ gcRenumChain ev (pool.buckets.getD b [])
          simp only [gcRenumChain]
          exact List.mem_map.mpr
            ⟨r, List.mem_filter.mpr ⟨hb, hkr⟩, rfl⟩
        · rw [List.getD_eq_default _ _ (by omega)] at hb
          exact absurd hb (List.not_mem_nil r)
      · intro k hk hback
        rw [hres]
        have hvalid : ∀ e ∈ pool.lprows, 0 ≤ e ∧
            e < (pool.rows.length : Int) ∧ ev.contains e.toNat = false := by
          intro e he
          rcases hreg e he with ⟨h0, h1, h2⟩
          refine ⟨h0, h1, ?_⟩
          cases hcont : ev.contains e.toNat with
          | false => rfl
          | true =>
            rcases hevfact e.toNat (List.mem_of_elem_eq_true hcont) with
              ⟨_, _, hlp, _⟩
            exact absurd hlp h2
        have hmapeq := gcLprowsFold_eq ev pool.rows.length pool.lprows []
          hvalid
        rw [hfold] at hmapeq
        have hlp2 : lp2 =
            pool.lprows.map (fun e => (renumVal ev e.toNat : Int)) := by
          have h2 := Option.some.inj hmapeq
          rw [List.nil_append] at h2
          exact h2
        show lp2.getD k (-1) = (renumVal ev r : Int)
        rw [hlp2, getD_map _ _ _ _ (-1) hk]
        show (renumVal ev (pool.lprows.getD k (-1)).toNat : Int) =
          (renumVal ev r : Int)
        rw [hback]
        simp
    · intro hS hsum
      rw [hres]
      show pool.num_nz - sumLens pool.rows ev + ncoeff ≤ gcTarget pool params
      rcases hrec with h | h
      · omega
      · rw [h]; omega

/-- C6 witness: on `poolGC` (row 0 loaded, row 1 a stale candidate) with an
explicit target of 5 and no impending insertion, collection evicts row 1,
the region hypotheses hold, the candidate mass covers the required recovery,
and the resulting count meets the target. -/
theorem claim_C6_witness :
    (∀ e ∈ poolGC.lprows, 0 ≤ e ∧ e < (poolGC.rows.length : Int) ∧
      (poolGC.rows.getD e.toNat default).lprow ≠ -1) ∧
    sumLens poolGC.rows ((gcCandidates poolGC).map Prod.fst) ≤
      poolGC.num_nz ∧
    poolGCres.num_nz + 0 ≤ gcTarget poolGC paramsGC :=
  ⟨by decide, by decide,
    (claim_C6 poolGC 0 2 paramsGC poolGCres (by decide) (by decide)).2
      (by decide) (by decide)⟩

/-! ### Union-find root theory -/

theorem replicate_getD {α : Type _} (n i : Nat) (a : α) :
    (List.replicate n a).getD i a = a := by
  induction n generalizing i with
  | zero => rfl
  | succ n ih =>
    cases i with
    | zero => rfl
    | succ i => exact ih i

theorem rootp_unique :
    ∀ (f1 : Nat) (par : List Nat) (x a : Nat), rootpA f1 par x = some a →
      ∀ (f2 b : Nat), rootpA f2 par x = some b → a = b
  | 0, par, x, a, h, _, _, _ => by simp [rootpA] at h
  | f1 + 1, par, x, a, h1, f2, b, h2 => by
    cases f2 with
    | zero => simp [rootpA] at h2
    | succ f2 =>
      simp only [rootpA] at h1 h2
      by_cases hp : par.getD x x = x
      · rw [if_pos hp] at h1 h2
        rw [← Option.some.inj h1, ← Option.some.inj h2]
      · rw [if_neg hp] at h1 h2
        exact rootp_unique f1 par (par.getD x x) a h1 f2 b h2

theorem RootOf_unique (par : List Nat) (x a b : Nat)
    (ha : RootOf par x a) (hb : RootOf par x b) : a = b := by
  obtain ⟨f1, h1⟩ := ha
  obtain ⟨f2, h2⟩ := hb
  exact rootp_unique f1 par x a h1 f2 b h2

theorem rootpA_set_preserve (par : List Nat) (x r : Nat)
    (hr : par.getD r r = r) (hx : RootOf par x r) :
    ∀ (fuel z r2 : Nat), rootpA fuel par z = some r2 →
      rootpA fuel (par.set x r) z = some r2
  | 0, z, r2, h => by simp [rootpA] at h
  | fuel + 1, z, r2, h => by
    by_cases hzx : z = x
    · subst hzx
      by_cases hlen : z < par.length
      · simp only [rootpA] at h
        by_cases hp : par.getD z z = z
        · rw [if_pos hp] at h
          have hzz : RootOf par z z :=
            ⟨1, by simp only [rootpA]; rw [if_pos hp]⟩
          have hrz : r = z := RootOf_unique par z r z hx hzz
          have hsetid : par.set z r = par := by
            have h2 := set_getD_self par z z hlen
            rw [hp] at h2
            rw [hrz]
            exact h2
          rw [hsetid]
          simp only [rootpA]
          rw [if_pos hp]
          exact h
        · rw [if_neg hp] at h
          have hz2 : rootpA (fuel + 1) par z = some r2 := by
            simp only [rootpA]; rw [if_neg hp]; exact h
          have hr2 : r2 = r :=
            RootOf_unique par z r2 r ⟨fuel + 1, hz2⟩ hx
          by_cases hrz : r = z
          · simp only [rootpA]
            rw [getD_set_self _ _ _ _ hlen, if_pos hrz, hr2, hrz]
          · simp only [rootpA]
            rw [getD_set_self _ _ _ _ hlen, if_neg hrz]
            cases fuel with
            | zero => simp [rootpA] at h
            | succ fuel =>
              simp only [rootpA]
              rw [getD_set_ne _ _ _ _ _ (fun hc => hrz hc.symm), hr,
                if_pos rfl, hr2]
      · rw [List.set_eq_of_length_le (by omega)]
        exact h
    · simp only [rootpA] at h ⊢
      rw [getD_set_ne _ _ _ _ _ (fun hc => hzx hc.symm)]
      by_cases hp : par.getD z z = z
      · rw [if_pos hp] at h ⊢; exact h
      · rw [if_neg hp] at h ⊢
        exact rootpA_set_preserve par x r hr hx fuel (par.getD z z) r2 h

theorem uf_findA_spec :
    ∀ (fuel : Nat) (par : List Nat) (x : Nat) (par2 : List Nat) (r : Nat),
      uf_findA fuel par x = some (par2, r) →
      par2.length = par.length ∧ RootOf par x r ∧ par2.getD r r = r ∧
      (∀ z r2, RootOf par z r2 → RootOf par2 z r2)
  | 0, par, x, par2, r, h => by simp [uf_findA] at h
  | fuel + 1, par, x, par2, r, h => by
    simp only [uf_findA] at h
    by_cases hp : par.getD x x = x
    · rw [if_pos hp] at h
      have hpair := Option.some.inj h
      injection hpair with ha hb
      subst ha; subst hb
      exact ⟨rfl, ⟨1, by simp only [rootpA]; rw [if_pos hp]⟩, hp,
        fun z r2 hz => hz⟩
    · rw [if_neg hp] at h
      cases hrec : uf_findA fuel par (par.getD x x) with
      | none => rw [hrec] at h; cases h
      | some pr =>
        obtain ⟨par2x, rx⟩ := pr
        rw [hrec] at h
        have hpair := Option.some.inj h
        injection hpair with ha hb
        subst hb
        obtain ⟨hlen, hroot, hfix, hpres⟩ :=
          uf_findA_spec fuel par (par.getD x x) par2x rx hrec
        have hrx : RootOf par x rx := by
          obtain ⟨f, hf⟩ := hroot
          exact ⟨f + 1, by simp only [rootpA]; rw [if_neg hp]; exact hf⟩
        have hx2 : RootOf par2x x rx := hpres x rx hrx
        refine ⟨?_, hrx, ?_, ?_⟩
        · rw [← ha, List.length_set]; exact hlen
        · rw [← ha]
          by_cases hxr : x = rx
          · subst hxr
            by_cases hlt : x < par2x.length
            · rw [getD_set_self _ _ _ _ hlt]
            · rw [List.set_eq_of_length_le (by omega)]; exact hfix
          · rw [getD_set_ne _ _ _ _ _ hxr]; exact hfix
        · intro z r2 hz
          have hz2 := hpres z r2 hz
          obtain ⟨fz, hfz⟩ := hz2
          rw [← ha]
          exact ⟨fz, rootpA_set_preserve par2x x rx hfix hx2 fz z r2 hfz⟩

theorem buildFoldSpec (cv : List Bool) (cycleRoot : Nat) :
    ∀ (ks : List Nat) (par : List Nat) (mask : List Bool)
      (parF : List Nat) (maskF : List Bool),
      foldOpt (maskStep cv cycleRoot) (par, mask) ks = some (parF, maskF) →
      ks.Pairwise (fun a b => a ≠ b) →
      (∀ k ∈ ks, k < mask.length ∧ mask.getD k false = false) →
      (∀ z r2, RootOf par z r2 → RootOf parF z r2) ∧
      maskF.length = mask.length ∧
      (∀ k, k ∉ ks → maskF.getD k false = mask.getD k false) ∧
      (∀ k ∈ ks, (maskF.getD k false = true ↔
        (cv.getD k false = true ∧ RootOf parF k cycleRoot)))
  | [], par, mask, parF, maskF, h, _, _ => by
    simp only [foldOpt] at h
    have hpair := Option.some.inj h
    injection hpair with ha hb
    subst ha; subst hb
    exact ⟨fun z r2 hz => hz, rfl, fun k _ => rfl,
      fun k hk => absurd hk (List.not_mem_nil k)⟩
  | k0 :: ks, par, mask, parF, maskF, h, hpw, hbits => by
    rw [foldOpt_cons] at h
    simp only [maskStep] at h
    cases hfind : uf_find par k0 with
    | none => rw [hfind] at h; cases h
    | some pr =>
      obtain ⟨par2, rk⟩ := pr
      rw [hfind] at h
      set mask2 := if cv.getD k0 false = true ∧ rk = cycleRoot then
        mask.set k0 true else mask with hm2
      have hk0ks : k0 ∉ ks := by
        intro hc
        exact (List.pairwise_cons.mp hpw).1 k0 hc rfl
      have hlen2 : mask2.length = mask.length := by
        rw [hm2]
        by_cases hC : cv.getD k0 false = true ∧ rk = cycleRoot
        · rw [if_pos hC, List.length_set]
        · rw [if_neg hC]
      have hbits2 : ∀ k ∈ ks, k < mask2.length ∧
          mask2.getD k false = false := by
        intro k hk
        have hne : k0 ≠ k := (List.pairwise_cons.mp hpw).1 k hk
        have hb := hbits k (List.mem_cons_of_mem k0 hk)
        refine ⟨by rw [hlen2]; exact hb.1, ?_⟩
        rw [hm2]
        by_cases hC : cv.getD k0 false = true ∧ rk = cycleRoot
        · rw [if_pos hC, getD_set_ne _ _ _ _ _ hne]; exact hb.2
        · rw [if_neg hC]; exact hb.2
      obtain ⟨hpres2, hlenF, hout, hiff⟩ :=
        buildFoldSpec cv cycleRoot ks par2 mask2 parF maskF h
          (List.pairwise_cons.mp hpw).2 hbits2
      have hspec := uf_findA_spec (par.length + 1) par k0 par2 rk hfind
      refine ⟨fun z r2 hz => hpres2 z r2 (hspec.2.2.2 z r2 hz),
        hlenF.trans hlen2, ?_, ?_⟩
      · intro k hk
        have hkne : k ≠ k0 := by
          intro hc
          rw [hc] at hk
          exact hk (List.mem_cons_self k0 ks)
        have hks : k ∉ ks := fun hc => hk (List.mem_cons_of_mem k0 hc)
        rw [hout k hks, hm2]
        by_cases hC : cv.getD k0 false = true ∧ rk = cycleRoot
        · rw [if_pos hC, getD_set_ne _ _ _ _ _ (fun hc => hkne hc.symm)]
        · rw [if_neg hC]
      · intro k hk
        rcases List.mem_cons.mp hk with hke | hks
        · subst hke
          rw [hout k hk0ks, hm2]
          have hroot2 : RootOf parF k rk :=
            hpres2 k rk (hspec.2.2.2 k rk hspec.2.1)
          by_cases hC : cv.getD k false = true ∧ rk = cycleRoot
          · rw [if_pos hC, getD_set_self _ _ _ _
              (hbits k (List.mem_cons_self k ks)).1]
            constructor
            · intro _
              exact ⟨hC.1, by rw [← hC.2]; exact hroot2⟩
            · intro _; rfl
          · rw [if_neg hC, (hbits k (List.mem_cons_self k ks)).2]
            constructor
            · intro hfalse; exact Bool.noConfusion hfalse
            · rintro ⟨hcv, hrf⟩
              have hrc : rk = cycleRoot :=
                RootOf_unique parF k rk cycleRoot hroot2 hrf
              exact absurd ⟨hcv, hrc⟩ hC
        · exact hiff k hks

theorem buildMask_spec (uf : UF) (cv : List Bool) (root nverts : Nat)
    (parF : List Nat) (mask : List Bool)
    (h : buildMask uf cv root nverts = some (parF, mask)) :
    mask.length = nverts ∧
    ∀ k, k < nverts →
      (mask.getD k false = true ↔
        (cv.getD k false = true ∧
          ∃ r, RootOf parF k r ∧ RootOf parF root r)) := by
  simp only [buildMask] at h
  cases hfind : uf_find uf.parent root with
  | none => rw [hfind] at h; cases h
  | some pr =>
    obtain ⟨par1, cycleRoot⟩ := pr
    rw [hfind] at h
    have hspec := uf_findA_spec (uf.parent.length + 1) uf.parent root par1
      cycleRoot hfind
    have hpw : (natRange 0 nverts).Pairwise (fun a b => a ≠ b) :=
      (natRange_pairwise_lt 0 nverts).imp (fun hlt => Nat.ne_of_lt hlt)
    have hbits : ∀ k ∈ natRange 0 nverts,
        k < (List.replicate nverts false).length ∧
        (List.replicate nverts false).getD k false = false := by
      intro k hk
      have hkk := (natRange_mem 0 nverts k).mp hk
      exact ⟨by rw [List.length_replicate]; omega,
        replicate_getD nverts k false⟩
    obtain ⟨hpres, hlen, hout, hiff⟩ :=
      buildFoldSpec cv cycleRoot (natRange 0 nverts) par1
        (List.replicate nverts false) parF mask h hpw hbits
    have hrootF : RootOf parF root cycleRoot :=
      hpres root cycleRoot (hspec.2.2.2 root cycleRoot hspec.2.1)
    refine ⟨by rw [hlen, List.length_replicate], ?_⟩
    intro k hk
    have hkmem : k ∈ natRange 0 nverts :=
      (natRange_mem 0 nverts k).mpr ⟨Nat.zero_le k, by omega⟩
    rw [hiff k hkmem]
    constructor
    · rintro ⟨hcv, hroot⟩
      exact ⟨hcv, cycleRoot, hroot, hrootF⟩
    · rintro ⟨hcv, r, hr1, hr2⟩
      have hrc : r = cycleRoot :=
        RootOf_unique parF root r cycleRoot hr2 hrootF
      rw [hrc] at hr1
      exact ⟨hcv, hr1⟩

theorem scan_cycle (nverts : Nat) :
    ∀ (elist : List (ℚ × List Nat)) (uf : UF) (cv : List Bool)
      (mask : List Bool),
      cycleScanEdges nverts uf cv elist = some (CycleOut.cycle mask) →
      ∃ (uf2 : UF) (cv2 : List Bool) (root : Nat) (parF : List Nat),
        buildMask uf2 cv2 root nverts = some (parF, mask)
  | [], uf, cv, mask, h => by simp [cycleScanEdges] at h
  | (xv, vs) :: rest, uf, cv, mask, h => by
    cases vs with
    | nil =>
      simp only [cycleScanEdges] at h
      by_cases hx : xv < 1 / 2
      · rw [if_pos hx] at h
        exact scan_cycle nverts rest uf cv mask h
      · rw [if_neg hx] at h
        exact scan_cycle nverts rest uf _ mask h
    | cons root js =>
      simp only [cycleScanEdges] at h
      by_cases hx : xv < 1 / 2
      · rw [if_pos hx] at h
        exact scan_cycle nverts rest uf cv mask h
      · rw [if_neg hx] at h
        cases hstar : starLoop uf root js with
        | none => rw [hstar] at h; exact Option.noConfusion h
        | some s =>
          cases s with
          | inl uf2 =>
            rw [hstar] at h
            exact scan_cycle nverts rest uf2 _ mask h
          | inr uf2 =>
            rw [hstar] at h
            have h2 : (match buildMask uf2
                ((root :: js).foldl (fun c j => c.set j true) cv) root
                nverts with
              | none => none
              | some (_, mask2) => some (CycleOut.cycle mask2)) =
                some (CycleOut.cycle mask) := h
            cases hbm : buildMask uf2
                ((root :: js).foldl (fun c j => c.set j true) cv) root
                nverts with
            | none => rw [hbm] at h2; exact Option.noConfusion h2
            | some pr =>
              obtain ⟨parF, mask2⟩ := pr
              rw [hbm] at h2
              have hinj := Option.some.inj h2
              injection hinj with hm
              rw [hm] at hbm
              exact ⟨uf2, _, root, parF, hbm⟩


theorem cycleScan_step (nverts : Nat) (uf : UF) (cv : List Bool) (xv : ℚ)
    (root : Nat) (js : List Nat) (rest : List (ℚ × List Nat))
    (h : ¬ xv < 1 / 2) :
    cycleScanEdges nverts uf cv ((xv, root :: js) :: rest) =
      match starLoop uf root js with
      | none => none
      | some (Sum.inl uf2) =>
        cycleScanEdges nverts uf2
          ((root :: js).foldl (fun c j => c.set j true) cv) rest
      | some (Sum.inr uf2) =>
        match buildMask uf2
            ((root :: js).foldl (fun c j => c.set j true) cv) root
            nverts with
        | none => none
        | some (_, mask) => some (CycleOut.cycle mask) := by
  simp only [cycleScanEdges]
  rw [if_neg h]

theorem scanFactor (nverts : Nat) :
    ∀ (elist : List (ℚ × List Nat)) (uf : UF) (cv : List Bool),
      cycleScanEdges nverts uf cv elist =
        match cycleScanState uf cv elist with
        | none => none
        | some (Sum.inl _) => some CycleOut.noCycle
        | some (Sum.inr (uf2, cv2, root)) =>
          match buildMask uf2 cv2 root nverts with
          | none => none
          | some (_, mask) => some (CycleOut.cycle mask)
  | [], _, _ => rfl
  | (xv, vs) :: rest, uf, cv => by
    simp only [cycleScanEdges, cycleScanState]
    by_cases hx : xv < 1 / 2
    · rw [if_pos hx, if_pos hx]
      exact scanFactor nverts rest uf cv
    · rw [if_neg hx, if_neg hx]
      cases vs with
      | nil => exact scanFactor nverts rest uf _
      | cons root js =>
        dsimp only
        cases hstar : starLoop uf root js with
        | none => rfl
        | some s =>
          cases s with
          | inl uf2 => exact scanFactor nverts rest uf2 _
          | inr uf2 => rfl

/-- C5: the cycle check factors through its union-find trajectory
`cycleScanState`, a function of the inputs, so the detection-time state is
pinned: a cycle is reported exactly from the state at the first failed
union, and the emitted SEC mask contains exactly the vertices covered at
detection time whose union-find root equals the cycle's root (in the pinned
post-compression parent array); the scan reports no cycle precisely when
every selected component processes without a failed union; and concretely,
selecting the three 2-vertex components (0,1), (1,2), (0,2) reports a cycle
over vertices {0,1,2}, while selecting only (0,1) and (1,2) reports no
cycle. -/
theorem claim_C5 :
    (∀ (x : List ℚ) (edges : List (List Nat)) (nverts : Nat)
        (mask : List Bool),
      _gst_check_integer_solution_for_cycles x edges nverts =
        some (CycleOut.cycle mask) →
      ∃ (uf2 : UF) (cv2 : List Bool) (root : Nat) (parF : List Nat),
        cycleScanState (create_union_find nverts)
          (List.replicate nverts false) (x.zip edges) =
          some (Sum.inr (uf2, cv2, root)) ∧
        buildMask uf2 cv2 root nverts = some (parF, mask) ∧
        mask.length = nverts ∧
        ∀ k, k < nverts →
          (mask.getD k false = true ↔
            (cv2.getD k false = true ∧
              ∃ r, RootOf parF k r ∧ RootOf parF root r))) ∧
    (∀ (x : List ℚ) (edges : List (List Nat)) (nverts : Nat),
      _gst_check_integer_solution_for_cycles x edges nverts =
        some CycleOut.noCycle ↔
      ∃ ufF : UF, cycleScanState (create_union_find nverts)
        (List.replicate nverts false) (x.zip edges) =
        some (Sum.inl ufF)) ∧
    _gst_check_integer_solution_for_cycles [1, 1, 1]
      [[0, 1], [1, 2], [0, 2]] 3 =
      some (CycleOut.cycle [true, true, true]) ∧
    _gst_check_integer_solution_for_cycles [1, 1] [[0, 1], [1, 2]] 3 =
      some CycleOut.noCycle := by
  refine ⟨?_, ?_, ?_, ?_⟩
  · intro x edges nverts mask h
    have hf := scanFactor nverts (x.zip edges) (create_union_find nverts)
      (List.replicate nverts false)
    have h2 : (match cycleScanState (create_union_find nverts)
          (List.replicate nverts false) (x.zip edges) with
        | none => none
        | some (Sum.inl _) => some CycleOut.noCycle
        | some (Sum.inr (uf2, cv2, root)) =>
          match buildMask uf2 cv2 root nverts with
          | none => none
          | some (_, mask2) => some (CycleOut.cycle mask2)) =
        some (CycleOut.cycle mask) := by
      rw [← hf]; exact h
    cases hs : cycleScanState (create_union_find nverts)
        (List.replicate nverts false) (x.zip edges) with
    | none => rw [hs] at h2; exact Option.noConfusion h2
    | some st =>
      cases st with
      | inl ufF =>
        rw [hs] at h2
        have hne := Option.some.inj h2
        exact CycleOut.noConfusion hne
      | inr tr =>
        obtain ⟨uf2, cv2, root⟩ := tr
        rw [hs] at h2
        dsimp only at h2
        cases hbm : buildMask uf2 cv2 root nverts with
        | none => rw [hbm] at h2; exact Option.noConfusion h2
        | some pr =>
          obtain ⟨parF, mask2⟩ := pr
          rw [hbm] at h2
          have hinj := Option.some.inj h2
          injection hinj with hm
          rw [hm] at hbm
          obtain ⟨hlen, hchar⟩ :=
            buildMask_spec uf2 cv2 root nverts parF mask hbm
          exact ⟨uf2, cv2, root, parF, rfl, hbm, hlen, hchar⟩
  · intro x edges nverts
    have hf := scanFactor nverts (x.zip edges) (create_union_find nverts)
      (List.replicate nverts false)
    constructor
    · intro h
      have h2 : (match cycleScanState (create_union_find nverts)
            (List.replicate nverts false) (x.zip edges) with
          | none => none
          | some (Sum.inl _) => some CycleOut.noCycle
          | some (Sum.inr (uf2, cv2, root)) =>
            match buildMask uf2 cv2 root nverts with
            | none => none
            | some (_, mask2) => some (CycleOut.cycle mask2)) =
          some CycleOut.noCycle := by
        rw [← hf]; exact h
      cases hs : cycleScanState (create_union_find nverts)
          (List.replicate nverts false) (x.zip edges) with
      | none => rw [hs] at h2; exact Option.noConfusion h2
      | some st =>
        cases st with
        | inl ufF => exact ⟨ufF, rfl⟩
        | inr tr =>
          obtain ⟨uf2, cv2, root⟩ := tr
          rw [hs] at h2
          dsimp only at h2
          cases hbm : buildMask uf2 cv2 root nverts with
          | none => rw [hbm] at h2; exact Option.noConfusion h2
          | some pr =>
            obtain ⟨parF, mask2⟩ := pr
            rw [hbm] at h2
            have hne := Option.some.inj h2
            exact CycleOut.noConfusion hne
    · rintro ⟨ufF, hs⟩
      show cycleScanEdges nverts (create_union_find nverts)
        (List.replicate nverts false) (x.zip edges) = some CycleOut.noCycle
      rw [hf, hs]
  · have h1 : ¬((1 : ℚ) < 1 / 2) := by norm_num
    show cycleScanEdges 3 (create_union_find 3) (List.replicate 3 false)
      [((1 : ℚ), [0, 1]), (1, [1, 2]), (1, [0, 2])] = _
    rw [cycleScan_step 3 _ _ _ _ _ _ h1]
    rw [show starLoop (create_union_find 3) 0 [1] =
      some (Sum.inl ⟨[0, 0, 2], [1, 0, 0]⟩) from rfl]
    show cycleScanEdges 3 ⟨[0, 0, 2], [1, 0, 0]⟩ [true, true, false]
      [((1 : ℚ), [1, 2]), (1, [0, 2])] = _
    rw [cycleScan_step 3 _ _ _ _ _ _ h1]
    rw [show starLoop ⟨[0, 0, 2], [1, 0, 0]⟩ 1 [2] =
      some (Sum.inl ⟨[0, 0, 0], [1, 0, 0]⟩) from rfl]
    show cycleScanEdges 3 ⟨[0, 0, 0], [1, 0, 0]⟩ [true, true, true]
      [((1 : ℚ), [0, 2])] = _
    rw [cycleScan_step 3 _ _ _ _ _ _ h1]
    rw [show starLoop ⟨[0, 0, 0], [1, 0, 0]⟩ 0 [2] =
      some (Sum.inr ⟨[0, 0, 0], [1, 0, 0]⟩) from rfl]
    rfl
  · have h1 : ¬((1 : ℚ) < 1 / 2) := by norm_num
    show cycleScanEdges 3 (create_union_find 3) (List.replicate 3 false)
      [((1 : ℚ), [0, 1]), (1, [1, 2])] = _
    rw [cycleScan_step 3 _ _ _ _ _ _ h1]
    rw [show starLoop (create_union_find 3) 0 [1] =
      some (Sum.inl ⟨[0, 0, 2], [1, 0, 0]⟩) from rfl]
    show cycleScanEdges 3 ⟨[0, 0, 2], [1, 0, 0]⟩ [true, true, false]
      [((1 : ℚ), [1, 2])] = _
    rw [cycleScan_step 3 _ _ _ _ _ _ h1]
    rw [show starLoop ⟨[0, 0, 2], [1, 0, 0]⟩ 1 [2] =
      some (Sum.inl ⟨[0, 0, 0], [1, 0, 0]⟩) from rfl]
    rfl

/-! ### Cutting-plane loop facts -/

theorem restampBiter_agree (pool : CPool) (i : Nat) :
    (restampBiter pool i).rows.length = pool.rows.length ∧
    ∀ j, ((restampBiter pool i).rows.getD j default).row =
        (pool.rows.getD j default).row ∧
      ((restampBiter pool i).rows.getD j default).lprow =
        (pool.rows.getD j default).lprow := by
  constructor
  · simp [restampBiter, List.length_set]
  · intro j
    show ((pool.rows.set i
        { pool.rows.getD i default with biter := pool.iter }).getD j
        default).row = (pool.rows.getD j default).row ∧
      ((pool.rows.set i
        { pool.rows.getD i default with biter := pool.iter }).getD j
        default).lprow = (pool.rows.getD j default).lprow
    by_cases hij : i = j
    · subst hij
      by_cases hlt : i < pool.rows.length
      · rw [getD_set_self _ _ _ _ hlt]
        exact ⟨rfl, rfl⟩
      · rw [List.set_eq_of_length_le (by omega)]
        exact ⟨rfl, rfl⟩
    · rw [getD_set_ne _ _ _ _ _ hij]
      exact ⟨rfl, rfl⟩

theorem scanFold (x : Nat → ℚ) :
    ∀ (ks : List Nat) (pool : CPool) (b0 : Bool) (pool5 : CPool) (b5 : Bool),
      foldOpt (poolScanStep x) (pool, b0) ks = some (pool5, b5) →
      b5 = false →
      b0 = false ∧
      pool5.rows.length = pool.rows.length ∧
      (∀ j, (pool5.rows.getD j default).row =
          (pool.rows.getD j default).row ∧
        (pool5.rows.getD j default).lprow =
          (pool.rows.getD j default).lprow) ∧
      (∀ i ∈ ks,
        ¬ compute_slack_value ((pool.rows.getD i default).row) x < -FUZZ ∨
        (pool.rows.getD i default).lprow ≥ 0 ∨
        compute_slack_value ((pool.rows.getD i default).row) x > FUZZ)
  | [], pool, b0, pool5, b5, h, hb5 => by
    simp only [foldOpt] at h
    have hpair := Option.some.inj h
    injection hpair with ha hb
    subst ha; subst hb
    exact ⟨hb5, rfl, fun j => ⟨rfl, rfl⟩,
      fun i hi => absurd hi (List.not_mem_nil i)⟩
  | i :: ks, pool, b0, pool5, b5, h, hb5 => by
    rw [foldOpt_cons] at h
    simp only [poolScanStep] at h
    by_cases h1 : compute_slack_value ((pool.rows.getD i default).row) x >
        FUZZ
    · rw [if_pos h1] at h
      obtain ⟨hb0, hlen, hagree, hconds⟩ :=
        scanFold x ks pool b0 pool5 b5 h hb5
      exact ⟨hb0, hlen, hagree, fun k hk => by
        rcases List.mem_cons.mp hk with hke | hks
        · subst hke; exact Or.inr (Or.inr h1)
        · exact hconds k hks⟩
    · rw [if_neg h1] at h
      have hra := restampBiter_agree pool i
      by_cases h2 : (pool.rows.getD i default).lprow ≥ 0
      · rw [if_pos h2] at h
        obtain ⟨hb0, hlen, hagree, hconds⟩ :=
          scanFold x ks (restampBiter pool i) b0 pool5 b5 h hb5
        refine ⟨hb0, hlen.trans hra.1, ?_, ?_⟩
        · intro j
          exact ⟨(hagree j).1.trans (hra.2 j).1,
            (hagree j).2.trans (hra.2 j).2⟩
        · intro k hk
          rcases List.mem_cons.mp hk with hke | hks
          · subst hke; exact Or.inr (Or.inl h2)
          · rcases hconds k hks with hc | hc | hc
            · exact Or.inl (by rw [← (hra.2 k).1]; exact hc)
            · exact Or.inr (Or.inl (by rw [← (hra.2 k).2]; exact hc))
            · exact Or.inr (Or.inr (by rw [← (hra.2 k).1]; exact hc))
      · rw [if_neg h2] at h
        by_cases h3 : compute_slack_value ((pool.rows.getD i default).row) x
            < -FUZZ
        · rw [if_pos h3] at h
          cases hmark : _gst_mark_row_pending_to_LP (restampBiter pool i) i
          with
          | none => rw [hmark] at h; exact Option.noConfusion h
          | some pool3 =>
            rw [hmark] at h
            obtain ⟨hb0, _, _, _⟩ :=
              scanFold x ks pool3 true pool5 b5 h hb5
            exact Bool.noConfusion hb0
        · rw [if_neg h3] at h
          obtain ⟨hb0, hlen, hagree, hconds⟩ :=
            scanFold x ks (restampBiter pool i) b0 pool5 b5 h hb5
          refine ⟨hb0, hlen.trans hra.1, ?_, ?_⟩
          · intro j
            exact ⟨(hagree j).1.trans (hra.2 j).1,
              (hagree j).2.trans (hra.2 j).2⟩
          · intro k hk
            rcases List.mem_cons.mp hk with hke | hks
            · subst hke; exact Or.inl h3
            · rcases hconds k hks with hc | hc | hc
              · exact Or.inl (by rw [← (hra.2 k).1]; exact hc)
              · exact Or.inr (Or.inl (by rw [← (hra.2 k).2]; exact hc))
              · exact Or.inr (Or.inr (by rw [← (hra.2 k).1]; exact hc))

theorem mem_getD {α : Type _} (l : List α) (r d : α) (h : r ∈ l) :
    ∃ j, j < l.length ∧ l.getD j d = r := by
  induction l with
  | nil => simp at h
  | cons a t ih =>
    rcases List.mem_cons.mp h with h1 | h1
    · exact ⟨0, by simp, by rw [List.getD_cons_zero]; exact h1.symm⟩
    · obtain ⟨j, hj, hjr⟩ := ih h1
      exact ⟨j + 1, by simpa using hj,
        by rw [List.getD_cons_succ]; exact hjr⟩

theorem delSlack_node_x (st st' : BBState)
    (h : _gst_delete_slack_rows_from_LP st = some st') :
    st'.node.x = st.node.x := by
  simp only [_gst_delete_slack_rows_from_LP] at h
  by_cases h1 : st.node.z ≤ st.node.delrow_z
  · rw [if_pos h1] at h
    rw [← Option.some.inj h]
  · rw [if_neg h1] at h
    by_cases h2 : st.lpRows ≠ st.pool.nlprows
    · rw [if_pos h2] at h; cases h
    · rw [if_neg h2] at h
      cases hf : foldOpt (delSlackStep st.pool.lprows st.slack)
          (st.pool.rows, [], 0) (natRange 0 st.pool.nlprows) with
      | none => rw [hf] at h; cases h
      | some s =>
        obtain ⟨rows2, kept, ndel⟩ := s
        rw [hf] at h
        set pend := (natRange st.pool.nlprows st.pool.npend).map
          (fun i => st.pool.lprows.getD i (-1)) with hpend
        have hc : (if ndel > 0 then
            some { st with
                    pool := { st.pool with
                              rows := rows2,
                              lprows := kept ++ pend,
                              nlprows := kept.length },
                    lpRows := st.lpRows - ndel,
                    node := { st.node with delrow_z := st.node.z } }
          else
            some { st with
                    pool := { st.pool with
                              rows := rows2,
                              lprows := kept ++ pend,
                              nlprows := kept.length } }) =
            some st' := h
        by_cases h3 : ndel > 0
        · rw [if_pos h3] at hc
          rw [← Option.some.inj hc]
        · rw [if_neg h3] at hc
          rw [← Option.some.inj hc]

theorem solveLoop_optimal (oracle : Nat → LPResult) :
    ∀ (fuel : Nat) (st : BBState) (pi : Nat) (st2 : BBState),
      solveLoop oracle fuel st pi = some (BBLPStatus.optimal, st2) →
      ∀ r ∈ st2.pool.rows, r.lprow < 0 →
        ¬ _gst_is_violation r.row (fun i => st2.node.x.getD i 0) = true
  | 0, st, pi, st2, h => by simp [solveLoop] at h
  | fuel + 1, st, pi, st2, h => by
    simp only [solveLoop] at h
    by_cases hst : (oracle pi).status ≠ BBLPStatus.optimal
    · rw [if_pos hst] at h
      have hpair := Option.some.inj h
      injection hpair with h1 h2
      exact absurd h1 hst
    · rw [if_neg hst] at h
      cases hdel : _gst_delete_slack_rows_from_LP (solveStepB oracle st pi)
        with
      | none => rw [hdel] at h; exact Option.noConfusion h
      | some st4 =>
        rw [hdel] at h
        have h4 : (match poolScan st4.pool
              (fun i => (oracle pi).x.getD i 0) with
            | none => none
            | some pb =>
              if pb.2 = false then
                some (BBLPStatus.optimal, { st4 with pool := pb.1 })
              else
                match prune_pending_rows { st4 with pool := pb.1 }
                    (canDelSlack oracle st pi) with
                | none => none
                | some st6 =>
                  match _gst_add_pending_rows_to_LP st6 with
                  | none => none
                  | some st7 => solveLoop oracle fuel st7 (pi + 1)) =
            some (BBLPStatus.optimal, st2) := h
        cases hscan : poolScan st4.pool (fun i => (oracle pi).x.getD i 0)
          with
        | none => rw [hscan] at h4; exact Option.noConfusion h4
        | some pb =>
          obtain ⟨pool5, bscan⟩ := pb
          rw [hscan] at h4
          have hcopy : (if bscan = false then
              some (BBLPStatus.optimal, { st4 with pool := pool5 })
            else
              match prune_pending_rows { st4 with pool := pool5 }
                  (canDelSlack oracle st pi) with
              | none => none
              | some st6 =>
                match _gst_add_pending_rows_to_LP st6 with
                | none => none
                | some st7 => solveLoop oracle fuel st7 (pi + 1)) =
              some (BBLPStatus.optimal, st2) := h4
          by_cases hv : bscan = false
          · rw [if_pos hv] at hcopy
            have hpair := Option.some.inj hcopy
            injection hpair with h1 h2
            subst h2
            have hfold : foldOpt
                (poolScanStep (fun i => (oracle pi).x.getD i 0))
                (st4.pool, false) (natRange 0 st4.pool.rows.length) =
                some (pool5, bscan) := hscan
            obtain ⟨_, hlen, hagree, hconds⟩ :=
              scanFold _ _ _ _ _ _ hfold hv
            have hx4 : st4.node.x = (oracle pi).x := by
              have hdx := delSlack_node_x _ _ hdel
              rw [hdx]
              rfl
            intro r hr hneg hviol
            obtain ⟨j, hj, hjr⟩ := mem_getD pool5.rows r default hr
            have hjlt : j < st4.pool.rows.length := by
              rw [← hlen]; exact hj
            have hcond := hconds j
              ((natRange_mem 0 st4.pool.rows.length j).mpr
                ⟨Nat.zero_le j, by omega⟩)
            have hrow : r.row = (st4.pool.rows.getD j default).row := by
              rw [← hjr]; exact (hagree j).1
            have hlpr : r.lprow = (st4.pool.rows.getD j default).lprow := by
              rw [← hjr]; exact (hagree j).2
            have hviol2 : _gst_is_violation r.row
                (fun i => (oracle pi).x.getD i 0) = true := by
              rw [show ((fun i => (oracle pi).x.getD i 0) : Nat → ℚ) =
                (fun i => st4.node.x.getD i 0) from by rw [hx4]]
              exact hviol
            rw [is_violation_iff_slack, hrow] at hviol2
            rcases hcond with hc | hc | hc
            · exact hc hviol2
            · omega
            · have hfp := FUZZ_pos
              linarith
          · rw [if_neg hv] at hcopy
            cases hprune : prune_pending_rows { st4 with pool := pool5 }
                (canDelSlack oracle st pi) with
            | none => rw [hprune] at hcopy; exact Option.noConfusion hcopy
            | some st6 =>
              rw [hprune] at hcopy
              have hcopy2 : (match _gst_add_pending_rows_to_LP st6 with
                  | none => none
                  | some st7 => solveLoop oracle fuel st7 (pi + 1)) =
                  some (BBLPStatus.optimal, st2) := hcopy
              cases hadd : _gst_add_pending_rows_to_LP st6 with
              | none =>
                rw [hadd] at hcopy2
                exact Option.noConfusion hcopy2
              | some st7 =>
                rw [hadd] at hcopy2
                exact solveLoop_optimal oracle fuel st7 (pi + 1) st2 hcopy2

/-- C4: when the cutting-plane loop returns optimal on a pool that forced a
real solve, the node's final solution satisfies (within `FUZZ`) every row of
the constraint pool.  The rows loaded in the LP are satisfied by the
engine's own feasibility (the hypothesis on loaded rows); the loop's exit
condition — a full scan over all pool rows marking nothing pending —
extends this to every unloaded row. -/
theorem claim_C4 (oracle : Nat → LPResult) (fuel : Nat) (st st' : BBState)
    (hnc : st.node.cpiter ≠ (st.pool.uid : Int))
    (hrun : _gst_solve_LP_over_constraint_pool oracle fuel st =
      some (BBLPStatus.optimal, st'))
    (heng : ∀ r ∈ st'.pool.rows, 0 ≤ r.lprow →
      _gst_is_violation r.row (fun i => st'.node.x.getD i 0) = false) :
    ∀ r ∈ st'.pool.rows,
      _gst_is_violation r.row (fun i => st'.node.x.getD i 0) = false := by
  simp only [_gst_solve_LP_over_constraint_pool] at hrun
  rw [if_neg hnc] at hrun
  cases hloop : solveLoop oracle fuel st 0 with
  | none => rw [hloop] at hrun; exact Option.noConfusion hrun
  | some res =>
    obtain ⟨status, stL⟩ := res
    rw [hloop] at hrun
    have hcopy : (if status = BBLPStatus.optimal then
        some (status, { stL with
          node := { stL.node with cpiter := (stL.pool.uid : Int) } })
      else
        some (status, { stL with
          node := { stL.node with cpiter := -1 } })) =
        some (BBLPStatus.optimal, st') := hrun
    by_cases hopt : status = BBLPStatus.optimal
    · rw [if_pos hopt] at hcopy
      have hpair := Option.some.inj hcopy
      injection hpair with h1 h2
      rw [hopt] at hloop
      have hloopOpt := solveLoop_optimal oracle fuel st 0 stL hloop
      subst h2
      intro r hr
      by_cases hlp : 0 ≤ r.lprow
      · exact heng r hr hlp
      · have hno := hloopOpt r hr (by omega)
        have hgoal : _gst_is_violation r.row
            (fun i => stL.node.x.getD i 0) = false := by
          cases hb : _gst_is_violation r.row
              (fun i => stL.node.x.getD i 0) with
          | false => rfl
          | true => exact absurd hb hno
        exact hgoal
    · rw [if_neg hopt] at hcopy
      have hpair := Option.some.inj hcopy
      injection hpair with h1 h2
      exact absurd h1 hopt

/-- C4 witness: on the empty pool with the trivial oracle, one iteration
reaches the fixed point; the engine hypothesis is vacuous and the
conclusion holds for the (empty) row set. -/
theorem claim_C4_witness :
    stC4.node.cpiter ≠ (stC4.pool.uid : Int) ∧
    ∀ r ∈ stC4res.pool.rows,
      _gst_is_violation r.row (fun i => stC4res.node.x.getD i 0) = false :=
  ⟨by decide,
    claim_C4 oracleTriv 1 stC4 stC4res (by decide) rfl (by decide)⟩

/-! ### Basis save/restore roundtrip facts -/

theorem unloadFold :
    ∀ (ks : List Nat) (pool pool1 : CPool),
      foldOpt unloadStep pool ks = some pool1 →
      pool1.rows.length = pool.rows.length ∧
      pool1.lprows = pool.lprows ∧
      (∀ k, (pool1.rows.getD k default).row =
          (pool.rows.getD k default).row ∧
        (pool1.rows.getD k default).uid = (pool.rows.getD k default).uid ∧
        (pool1.rows.getD k default).refc =
          (pool.rows.getD k default).refc ∧
        ((pool1.rows.getD k default).lprow =
            (pool.rows.getD k default).lprow ∨
          (pool1.rows.getD k default).lprow = -1)) ∧
      (∀ i ∈ ks, 0 ≤ pool.lprows.getD i (-1) →
        (pool1.rows.getD (pool.lprows.getD i (-1)).toNat default).lprow = -1)
  | [], pool, pool1, h => by
    simp only [foldOpt] at h
    rw [← Option.some.inj h]
    exact ⟨rfl, rfl, fun k => ⟨rfl, rfl, rfl, Or.inl rfl⟩,
      fun i hi => absurd hi (List.not_mem_nil i)⟩
  | i :: ks, pool, pool1, h => by
    rw [foldOpt_cons] at h
    simp only [unloadStep] at h
    by_cases h1 : pool.lprows.getD i (-1) < 0
    · rw [if_pos h1] at h
      obtain ⟨hlen, hlp, hfld, hdem⟩ := unloadFold ks pool pool1 h
      refine ⟨hlen, hlp, hfld, ?_⟩
      intro i2 hi2 hpos
      rcases List.mem_cons.mp hi2 with he | hm
      · subst he; omega
      · exact hdem i2 hm hpos
    · rw [if_neg h1] at h
      by_cases h2 : (pool.rows.length : Int) ≤ pool.lprows.getD i (-1)
      · rw [if_pos h2] at h; exact Option.noConfusion h
      · rw [if_neg h2] at h
        set e := (pool.lprows.getD i (-1)).toNat with hedef
        set poolB : CPool := { pool with
          rows := pool.rows.set e
            { pool.rows.getD e default with lprow := -1 } } with hB
        obtain ⟨hlen, hlp, hfld, hdem⟩ := unloadFold ks poolB pool1 h
        have helt : e < pool.rows.length := by
          rw [hedef]; omega
        have hBfld : ∀ k, (poolB.rows.getD k default).row =
            (pool.rows.getD k default).row ∧
            (poolB.rows.getD k default).uid =
              (pool.rows.getD k default).uid ∧
            (poolB.rows.getD k default).refc =
              (pool.rows.getD k default).refc ∧
            ((poolB.rows.getD k default).lprow =
                (pool.rows.getD k default).lprow ∨
              (poolB.rows.getD k default).lprow = -1) := by
          intro k
          show ((pool.rows.set e
              { pool.rows.getD e default with lprow := -1 }).getD k
              default).row = _ ∧ _
          by_cases hek : e = k
          · subst hek
            rw [getD_set_self _ _ _ _ helt]
            exact ⟨rfl, rfl, rfl, Or.inr rfl⟩
          · rw [getD_set_ne _ _ _ _ _ hek]
            exact ⟨rfl, rfl, rfl, Or.inl rfl⟩
        have hBe : (poolB.rows.getD e default).lprow = -1 := by
          show ((pool.rows.set e
              { pool.rows.getD e default with lprow := -1 }).getD e
              default).lprow = -1
          rw [getD_set_self _ _ _ _ helt]
        refine ⟨hlen.trans (by rw [hB]; simp [List.length_set]), ?_, ?_, ?_⟩
        · rw [hlp, hB]
        · intro k
          obtain ⟨hr1, hu1, hc1, hl1⟩ := hfld k
          obtain ⟨hr2, hu2, hc2, hl2⟩ := hBfld k
          refine ⟨hr1.trans hr2, hu1.trans hu2, hc1.trans hc2, ?_⟩
          rcases hl1 with hl1 | hl1
          · rcases hl2 with hl2 | hl2
            · exact Or.inl (hl1.trans hl2)
            · exact Or.inr (hl1.trans hl2)
          · exact Or.inr hl1
        · intro i2 hi2 hpos
          rcases List.mem_cons.mp hi2 with he2 | hm
          · subst he2
            rcases (hfld e).2.2.2 with hl | hl
            · rw [hl]; exact hBe
            · exact hl
          · exact hdem i2 hm hpos

theorem findUidLoop_spec (rows : List Rcon) (uid : Nat) :
    ∀ (fuel p row : Nat), findUidLoop rows uid fuel p = some row →
      row < rows.length ∧ (rows.getD row default).uid = uid
  | 0, p, row, h => by simp [findUidLoop] at h
  | fuel + 1, p, row, h => by
    simp only [findUidLoop] at h
    by_cases h1 : p < rows.length
    · rw [if_pos h1] at h
      by_cases h2 : (rows.getD p default).uid = uid
      · rw [if_pos h2] at h
        rw [← Option.some.inj h]
        exact ⟨h1, h2⟩
      · rw [if_neg h2] at h
        exact findUidLoop_spec rows uid fuel (p + 1) row h
    · rw [if_neg h1] at h
      exact Option.noConfusion h

theorem replayFold (nuids : Nat) :
    ∀ (pl : List (Nat × Nat)) (pool : CPool) (p : Nat) (pool3 : CPool)
      (p3 : Nat),
      foldOpt (replayStep nuids) (pool, p) pl = some (pool3, p3) →
      nuids ≤ pool.lprows.length →
      pool3.rows.length = pool.rows.length ∧
      pool3.lprows.length = pool.lprows.length ∧
      (∀ k, (pool3.rows.getD k default).row =
          (pool.rows.getD k default).row ∧
        (pool3.rows.getD k default).uid = (pool.rows.getD k default).uid ∧
        (pool3.rows.getD k default = pool.rows.getD k default ∨
          ((pool.rows.getD k default).lprow = -1 ∧
            pool3.rows.getD k default =
              { pool.rows.getD k default with
                  lprow := -2,
                  refc := (pool.rows.getD k default).refc - 1 }))) ∧
      (∀ j, pool3.lprows.getD j (-1) = pool.lprows.getD j (-1) ∨
        pool.lprows.getD j (-1) = -1) ∧
      (∀ q ∈ pl, q.2 < nuids ∧ ∃ k, k < pool.rows.length ∧
        pool3.lprows.getD q.2 (-1) = (k : Int) ∧
        (pool3.rows.getD k default).uid = q.1 ∧
        (pool3.rows.getD k default).lprow = -2 ∧
        (pool3.rows.getD k default).refc =
          (pool.rows.getD k default).refc - 1 ∧
        (pool3.rows.getD k default).row =
          (pool.rows.getD k default).row) ∧
      (∀ k, (pool3.rows.getD k default).lprow = -2 →
        (pool.rows.getD k default).lprow = -2 ∨
        ∃ j, j < nuids ∧ pool3.lprows.getD j (-1) = (k : Int))
  | [], pool, p, pool3, p3, h, _ => by
    simp only [foldOpt] at h
    have hpair := Option.some.inj h
    injection hpair with ha hb
    subst ha
    exact ⟨rfl, rfl, fun k => ⟨rfl, rfl, Or.inl rfl⟩, fun j => Or.inl rfl,
      fun q hq => absurd hq (List.not_mem_nil q),
      fun k hk => Or.inl hk⟩
  | q :: pl, pool, p, pool3, p3, h, hcap => by
    obtain ⟨uid, j⟩ := q
    rw [foldOpt_cons] at h
    simp only [replayStep] at h
    cases hfind : findUidFrom pool.rows uid p with
    | none => rw [hfind] at h; exact Option.noConfusion h
    | some row =>
      rw [hfind] at h
      dsimp only at h
      obtain ⟨hrowlt, hrowuid⟩ := findUidLoop_spec pool.rows uid
        (pool.rows.length - p) p row hfind
      by_cases hchk : (pool.rows.getD row default).lprow ≠ -1 ∨
          nuids ≤ j ∨ pool.lprows.getD j (-1) ≠ -1
      · rw [if_pos hchk] at h; exact Option.noConfusion h
      · rw [if_neg hchk] at h
        dsimp only at h
        push_neg at hchk
        obtain ⟨hlpr0, hjlt, hslot0⟩ := hchk
        have hjcap : j < pool.lprows.length := by omega
        set rcpN : Rcon := { pool.rows.getD row default with
            lprow := -2,
            refc := (pool.rows.getD row default).refc - 1 } with hrcpN
        set poolB : CPool := { pool with
          rows := pool.rows.set row rcpN,
          lprows := pool.lprows.set j (row : Int) } with hBdef
        obtain ⟨hlen, hlplen, hfld, hslots, hpairs, hpend⟩ :=
          replayFold nuids pl poolB row pool3 p3 h
            (by rw [hBdef]; simp only [List.length_set]; omega)
        have hBrows : ∀ k, poolB.rows.getD k default =
            (if k = row then rcpN else pool.rows.getD k default) := by
          intro k
          by_cases hk : k = row
          · subst hk
            rw [if_pos rfl]
            show (pool.rows.set k rcpN).getD k default = rcpN
            exact getD_set_self _ _ _ _ hrowlt
          · rw [if_neg hk]
            show (pool.rows.set row rcpN).getD k default = _
            exact getD_set_ne _ _ _ _ _ (fun hc => hk hc.symm)
        have hBslots : ∀ j2, poolB.lprows.getD j2 (-1) =
            (if j2 = j then (row : Int) else pool.lprows.getD j2 (-1)) := by
          intro j2
          by_cases hj2 : j2 = j
          · subst hj2
            rw [if_pos rfl]
            show (pool.lprows.set j2 (row : Int)).getD j2 (-1) = _
            exact getD_set_self _ _ _ _ hjcap
          · rw [if_neg hj2]
            show (pool.lprows.set j (row : Int)).getD j2 (-1) = _
            exact getD_set_ne _ _ _ _ _ (fun hc => hj2 hc.symm)
        have hB3row : pool3.rows.getD row default = rcpN := by
          rcases (hfld row).2.2 with hc | hc
          · rw [hc, hBrows row, if_pos rfl]
          · rw [hBrows row, if_pos rfl] at hc
            rw [hrcpN] at hc
            simp at hc
        refine ⟨?_, ?_, ?_, ?_, ?_, ?_⟩
        · rw [hlen, hBdef]; simp only [List.length_set]
        · rw [hlplen, hBdef]; simp only [List.length_set]
        · intro k
          obtain ⟨hr1, hu1, hd1⟩ := hfld k
          rw [hBrows k] at hr1 hu1 hd1
          by_cases hk : k = row
          · subst hk
            rw [if_pos rfl] at hr1 hu1 hd1
            refine ⟨hr1.trans (by rw [hrcpN]),
              hu1.trans (by rw [hrcpN]), ?_⟩
            right
            refine ⟨hlpr0, ?_⟩
            rw [hB3row, hrcpN]
          · rw [if_neg hk] at hr1 hu1 hd1
            exact ⟨hr1, hu1, hd1⟩
        · intro j2
          rcases hslots j2 with hs | hs
          · rw [hBslots j2] at hs
            by_cases hj2 : j2 = j
            · subst hj2
              right; exact hslot0
            · rw [if_neg hj2] at hs
              exact Or.inl hs
          · rw [hBslots j2] at hs
            by_cases hj2 : j2 = j
            · subst hj2
              right; exact hslot0
            · rw [if_neg hj2] at hs
              exact Or.inr hs
        · intro q2 hq2
          rcases List.mem_cons.mp hq2 with hq | hq
          · subst hq
            refine ⟨hjlt, row, hrowlt, ?_, ?_, ?_, ?_, ?_⟩
            · rcases hslots j with hs | hs
              · rw [hs, hBslots j, if_pos rfl]
              · rw [hBslots j, if_pos rfl] at hs
                exact absurd hs (by omega)
            · rw [hB3row, hrcpN]
              exact hrowuid
            · rw [hB3row, hrcpN]
            · rw [hB3row, hrcpN]
            · rw [hB3row, hrcpN]
          · obtain ⟨hjq, k, hklt, hkslot, hkuid, hklpr, hkrefc, hkrow⟩ :=
              hpairs q2 hq
            have hkne : k ≠ row := by
              intro hke
              subst hke
              rw [hB3row] at hklpr hkrefc
              rw [hBrows k, if_pos rfl] at hkrefc
              rw [hrcpN] at hkrefc
              simp only [] at hkrefc
              omega
            rw [hBrows k, if_neg hkne] at hkrefc hkrow
            refine ⟨hjq, k, ?_, hkslot, hkuid, hklpr, hkrefc, hkrow⟩
            have hlB : poolB.rows.length = pool.rows.length := by
              rw [hBdef]; simp only [List.length_set]
            omega
        · intro k hk2
          rcases hpend k hk2 with hc | hc
          · rw [hBrows k] at hc
            by_cases hke : k = row
            · subst hke
              right
              refine ⟨j, hjlt, ?_⟩
              rcases hslots j with hs | hs
              · rw [hs, hBslots j, if_pos rfl]
              · rw [hBslots j, if_pos rfl] at hs
                exact absurd hs (by omega)
            · rw [if_neg hke] at hc
              exact Or.inl hc
          · exact Or.inr hc

theorem assignFold :
    ∀ (ks : List Nat) (pool pool4 : CPool),
      foldOpt assignPendingStep pool ks = some pool4 →
      pool4.rows.length = pool.rows.length ∧
      pool4.lprows = pool.lprows ∧ pool4.nlprows = pool.nlprows ∧
      pool4.npend = pool.npend ∧
      (∀ k, (pool4.rows.getD k default).row =
          (pool.rows.getD k default).row ∧
        (pool4.rows.getD k default).uid = (pool.rows.getD k default).uid ∧
        (pool4.rows.getD k default).refc =
          (pool.rows.getD k default).refc ∧
        ((pool4.rows.getD k default).lprow =
            (pool.rows.getD k default).lprow ∨
          ((pool.rows.getD k default).lprow = -2 ∧
            ∃ i, i ∈ ks ∧ pool.lprows.getD i (-1) = (k : Int) ∧
              (pool4.rows.getD k default).lprow = (i : Int)))) ∧
      (∀ i ∈ ks, ∃ k, k < pool.rows.length ∧
        pool.lprows.getD i (-1) = (k : Int) ∧
        (pool4.rows.getD k default).lprow = (i : Int))
  | [], pool, pool4, h => by
    simp only [foldOpt] at h
    rw [← Option.some.inj h]
    exact ⟨rfl, rfl, rfl, rfl, fun k => ⟨rfl, rfl, rfl, Or.inl rfl⟩,
      fun i hi => absurd hi (List.not_mem_nil i)⟩
  | i :: ks, pool, pool4, h => by
    rw [foldOpt_cons] at h
    simp only [assignPendingStep] at h
    by_cases h1 : pool.lprows.getD i (-1) < 0 ∨
        (pool.rows.length : Int) ≤ pool.lprows.getD i (-1)
    · rw [if_pos h1] at h; exact Option.noConfusion h
    · rw [if_neg h1] at h
      push_neg at h1
      obtain ⟨hge, hlt⟩ := h1
      set e := (pool.lprows.getD i (-1)).toNat with hedef
      have helt : e < pool.rows.length := by omega
      have hecast : pool.lprows.getD i (-1) = (e : Int) := by
        rw [hedef]; omega
      by_cases h2 : (pool.rows.getD e default).lprow ≠ -2
      · rw [if_pos h2] at h; exact Option.noConfusion h
      · rw [if_neg h2] at h
        dsimp only at h
        push_neg at h2
        set rcpN : Rcon := { pool.rows.getD e default with
            lprow := (i : Int) } with hrcpN
        set poolB : CPool := { pool with
          rows := pool.rows.set e rcpN } with hBdef
        obtain ⟨hlen, hlp, hnl, hnp, hfld, hdone⟩ :=
          assignFold ks poolB pool4 h
        have hBrows : ∀ k, poolB.rows.getD k default =
            (if k = e then rcpN else pool.rows.getD k default) := by
          intro k
          by_cases hk : k = e
          · subst hk
            rw [if_pos rfl]
            show (pool.rows.set e rcpN).getD e default = rcpN
            exact getD_set_self _ _ _ _ helt
          · rw [if_neg hk]
            show (pool.rows.set e rcpN).getD k default = _
            exact getD_set_ne _ _ _ _ _ (fun hc => hk hc.symm)
        have hBlp : poolB.lprows = pool.lprows := by rw [hBdef]
        have h4e : (pool4.rows.getD e default).lprow = (i : Int) := by
          rcases (hfld e).2.2.2 with hc | hc
          · rw [hc, hBrows e, if_pos rfl, hrcpN]
          · obtain ⟨hc1, _⟩ := hc
            rw [hBrows e, if_pos rfl, hrcpN] at hc1
            simp at hc1
        refine ⟨?_, ?_, hnl, hnp, ?_, ?_⟩
        · rw [hlen, hBdef]; simp only [List.length_set]
        · rw [hlp, hBlp]
        · intro k
          obtain ⟨hr1, hu1, hc1, hd1⟩ := hfld k
          rw [hBrows k] at hr1 hu1 hc1 hd1
          by_cases hk : k = e
          · subst hk
            rw [if_pos rfl] at hr1 hu1 hc1 hd1
            refine ⟨hr1.trans (by rw [hrcpN]), hu1.trans (by rw [hrcpN]),
              hc1.trans (by rw [hrcpN]), ?_⟩
            right
            exact ⟨h2, i, List.mem_cons_self i ks, hecast, h4e⟩
          · rw [if_neg hk] at hr1 hu1 hc1 hd1
            refine ⟨hr1, hu1, hc1, ?_⟩
            rcases hd1 with hd1 | hd1
            · exact Or.inl hd1
            · obtain ⟨hd2, i2, hi2, hsl, hv⟩ := hd1
              rw [hBlp] at hsl
              exact Or.inr ⟨hd2, i2, List.mem_cons_of_mem i hi2, hsl, hv⟩
        · intro i2 hi2
          rcases List.mem_cons.mp hi2 with he2 | hm
          · subst he2
            exact ⟨e, helt, hecast, h4e⟩
          · obtain ⟨k, hklt, hsl, hv⟩ := hdone i2 hm
            rw [hBlp] at hsl
            refine ⟨k, ?_, hsl, hv⟩
            have : poolB.rows.length = pool.rows.length := by
              rw [hBdef]; simp only [List.length_set]
            omega

theorem replayNl (nuids : Nat) :
    ∀ (pl : List (Nat × Nat)) (pool : CPool) (p : Nat) (pool3 : CPool)
      (p3 : Nat),
      foldOpt (replayStep nuids) (pool, p) pl = some (pool3, p3) →
      pool3.nlprows = pool.nlprows
  | [], pool, p, pool3, p3, h => by
    simp only [foldOpt] at h
    have hpair := Option.some.inj h
    injection hpair with ha hb
    rw [← ha]
  | q :: pl, pool, p, pool3, p3, h => by
    obtain ⟨uid, j⟩ := q
    rw [foldOpt_cons] at h
    simp only [replayStep] at h
    cases hfind : findUidFrom pool.rows uid p with
    | none => rw [hfind] at h; exact Option.noConfusion h
    | some row =>
      rw [hfind] at h
      dsimp only at h
      by_cases hchk : (pool.rows.getD row default).lprow ≠ -1 ∨
          nuids ≤ j ∨ pool.lprows.getD j (-1) ≠ -1
      · rw [if_pos hchk] at h; exact Option.noConfusion h
      · rw [if_neg hchk] at h
        dsimp only at h
        exact replayNl nuids pl { pool with
            rows := pool.rows.set row
              { pool.rows.getD row default with
                  lprow := -2,
                  refc := (pool.rows.getD row default).refc - 1 },
            lprows := pool.lprows.set j (row : Int) } row pool3 p3 h

theorem restore_exact (nb : NodeBasis) (stMid stF : BBState)
    (hres : _gst_restore_node_basis nb stMid = some stF)
    (htrack : ∀ k, k < stMid.pool.rows.length →
      ((stMid.pool.rows.getD k default).lprow = -1 ∨
       (0 ≤ (stMid.pool.rows.getD k default).lprow ∧
        (stMid.pool.rows.getD k default).lprow < (stMid.lpRows : Int) ∧
        stMid.pool.lprows.getD
          (stMid.pool.rows.getD k default).lprow.toNat (-1) = (k : Int)))) :
    stF.lpRows = nb.bc_uids.length ∧
    stF.pool.nlprows = nb.bc_uids.length ∧
    stF.pool.npend = 0 ∧
    stF.pool.rows.length = stMid.pool.rows.length ∧
    (∀ q ∈ nb.bc_uids.zip nb.bc_row, ∃ k, k < stMid.pool.rows.length ∧
      stF.pool.lprows.getD q.2 (-1) = (k : Int) ∧
      (stF.pool.rows.getD k default).uid = q.1 ∧
      (stF.pool.rows.getD k default).lprow = (q.2 : Int) ∧
      (stF.pool.rows.getD k default).row =
        (stMid.pool.rows.getD k default).row ∧
      (stF.pool.rows.getD k default).refc =
        (stMid.pool.rows.getD k default).refc - 1) ∧
    (∀ k, k < stMid.pool.rows.length →
      ((stF.pool.rows.getD k default).lprow = -1 ∧
        (stF.pool.rows.getD k default).row =
          (stMid.pool.rows.getD k default).row ∧
        (stF.pool.rows.getD k default).uid =
          (stMid.pool.rows.getD k default).uid ∧
        (stF.pool.rows.getD k default).refc =
          (stMid.pool.rows.getD k default).refc) ∨
      (0 ≤ (stF.pool.rows.getD k default).lprow ∧
        (stF.pool.rows.getD k default).lprow <
          (nb.bc_uids.length : Int) ∧
        stF.pool.lprows.getD
          (stF.pool.rows.getD k default).lprow.toNat (-1) = (k : Int))) := by
  simp only [_gst_restore_node_basis] at hres
  set P0 : CPool := (if stMid.lpRows ≠ stMid.pool.nlprows then
    { stMid.pool with nlprows := stMid.lpRows } else stMid.pool) with hP0
  have hP0rows : P0.rows = stMid.pool.rows := by
    rw [hP0]
    by_cases hc : stMid.lpRows ≠ stMid.pool.nlprows
    · rw [if_pos hc]
    · rw [if_neg hc]
  have hP0lp : P0.lprows = stMid.pool.lprows := by
    rw [hP0]
    by_cases hc : stMid.lpRows ≠ stMid.pool.nlprows
    · rw [if_pos hc]
    · rw [if_neg hc]
  have hP0n : P0.nlprows = stMid.lpRows := by
    rw [hP0]
    by_cases hc : stMid.lpRows ≠ stMid.pool.nlprows
    · rw [if_pos hc]
    · rw [if_neg hc]
      push_neg at hc
      rw [hc]
  by_cases hnp : P0.npend ≠ 0
  · rw [if_pos hnp] at hres
    exact Option.noConfusion hres
  rw [if_neg hnp] at hres
  cases hu : foldOpt unloadStep P0 (natRange 0 P0.nlprows) with
  | none => rw [hu] at hres; exact Option.noConfusion hres
  | some pool1 =>
    rw [hu] at hres
    dsimp only at hres
    obtain ⟨hulen, hulp, hufld, hudem⟩ := unloadFold _ P0 pool1 hu
    have hall1 : ∀ k, k < stMid.pool.rows.length →
        (pool1.rows.getD k default).lprow = -1 := by
      intro k hk
      rcases htrack k hk with hm | ⟨hm0, hm1, hm2⟩
      · rcases (hufld k).2.2.2 with hc | hc
        · rw [hc, hP0rows]; exact hm
        · exact hc
      · have hdem := hudem
          (stMid.pool.rows.getD k default).lprow.toNat
          ((natRange_mem 0 P0.nlprows _).mpr
            ⟨Nat.zero_le _, by rw [hP0n]; omega⟩)
        rw [hP0lp, hm2] at hdem
        have := hdem (by omega)
        simpa using this
    set nuids := nb.bc_uids.length with hnu
    set pool2 : CPool := { pool1 with
      nlprows := 0, lprows := List.replicate nuids (-1) } with hp2
    cases hr : foldOpt (replayStep nuids) (pool2, 0)
        (nb.bc_uids.zip nb.bc_row) with
    | none => rw [hr] at hres; exact Option.noConfusion hres
    | some s =>
      obtain ⟨pool3, p3⟩ := s
      rw [hr] at hres
      dsimp only at hres
      obtain ⟨hrlen, hrlplen, hrfld, hrslots, hrpairs, hrpend⟩ :=
        replayFold nuids _ pool2 0 pool3 p3 hr
          (by rw [hp2]; simp)
      have hnl3 : pool3.nlprows = 0 := by
        have := replayNl nuids _ pool2 0 pool3 p3 hr
        rw [this, hp2]
      have hlen31 : pool3.rows.length = stMid.pool.rows.length := by
        rw [hrlen, hp2]
        show pool1.rows.length = _
        rw [hulen, hP0rows]
      have hrows2eq : pool2.rows = pool1.rows := by rw [hp2]
      simp only [_gst_add_pending_rows_to_LP] at hres
      rw [hnl3] at hres
      have hzne : ¬((0 : Nat) ≠ 0) := fun hc => hc rfl
      rw [if_neg hzne] at hres
      have h1row : ∀ k, (pool1.rows.getD k default).row =
          (stMid.pool.rows.getD k default).row := by
        intro k
        have hh := (hufld k).1
        rw [hP0rows] at hh
        exact hh
      have h1uid : ∀ k, (pool1.rows.getD k default).uid =
          (stMid.pool.rows.getD k default).uid := by
        intro k
        have hh := (hufld k).2.1
        rw [hP0rows] at hh
        exact hh
      have h1refc : ∀ k, (pool1.rows.getD k default).refc =
          (stMid.pool.rows.getD k default).refc := by
        intro k
        have hh := (hufld k).2.2.1
        rw [hP0rows] at hh
        exact hh
      by_cases hz : nuids = 0
      · rw [if_pos hz] at hres
        have hstF := Option.some.inj hres
        subst hstF
        have hbcnil : nb.bc_uids = [] := List.length_eq_zero.mp hz
        refine ⟨?_, ?_, ?_, ?_, ?_, ?_⟩
        · show (0 : Nat) = nb.bc_uids.length
          omega
        · show (0 : Nat) = nb.bc_uids.length
          omega
        · exact hz
        · exact hlen31
        · intro q hq
          rw [hbcnil] at hq
          simp at hq
        · intro k hk
          rcases (hrfld k).2.2 with hc | hc
          · left
            have hl2 : (pool2.rows.getD k default).lprow = -1 := hall1 k hk
            refine ⟨by rw [hc]; exact hl2, ?_, ?_, ?_⟩
            · show (pool3.rows.getD k default).row = _
              rw [hc]
              exact h1row k
            · show (pool3.rows.getD k default).uid = _
              rw [hc]
              exact h1uid k
            · show (pool3.rows.getD k default).refc = _
              rw [hc]
              exact h1refc k
          · obtain ⟨hcm, hceq⟩ := hc
            have hneg2 : (pool3.rows.getD k default).lprow = -2 := by
              rw [hceq]
            rcases hrpend k hneg2 with hp | ⟨j, hj, _⟩
            · rw [hcm] at hp
              exact absurd hp (by decide)
            · omega
      · rw [if_neg hz] at hres
        cases ha : foldOpt assignPendingStep { pool3 with nlprows := 0, npend := nuids }
            (natRange 0 nuids) with
        | none => rw [ha] at hres; exact Option.noConfusion hres
        | some pool4 =>
          rw [ha] at hres
          have hstF := Option.some.inj hres
          subst hstF
          obtain ⟨halen, halp, hanl, hanp, hafld, hadone⟩ :=
            assignFold (natRange 0 nuids) { pool3 with nlprows := 0, npend := nuids }
              pool4 ha
          refine ⟨?_, ?_, ?_, ?_, ?_, ?_⟩
          · show 0 + nuids = nb.bc_uids.length
            omega
          · show 0 + nuids = nb.bc_uids.length
            omega
          · rfl
          · show pool4.rows.length = _
            have hx : ({ pool3 with nlprows := 0, npend := nuids } : CPool).rows.length =
              pool3.rows.length := rfl
            omega
          · intro q hq
            obtain ⟨hq2, k, hklt2, hkslot, hkuid, hklpr, hkrefc, hkrow⟩ :=
              hrpairs q hq
            have hklt : k < stMid.pool.rows.length := by
              have hx : pool2.rows.length = pool1.rows.length := rfl
              have hy := hulen
              rw [hP0rows] at hy
              omega
            obtain ⟨k2, hk2lt, hsl2, hv2⟩ := hadone q.2
              ((natRange_mem 0 nuids q.2).mpr ⟨Nat.zero_le _, by omega⟩)
            have hkk2 : k2 = k := by
              have hx : ({ pool3 with nlprows := 0, npend := nuids } : CPool).lprows.getD
                q.2 (-1) = pool3.lprows.getD q.2 (-1) := rfl
              rw [hx, hkslot] at hsl2
              omega
            subst hkk2
            refine ⟨k2, hklt, ?_, ?_, ?_, ?_, ?_⟩
            · show pool4.lprows.getD q.2 (-1) = _
              rw [halp]
              show pool3.lprows.getD q.2 (-1) = _
              exact hkslot
            · have hx := (hafld k2).2.1
              show (pool4.rows.getD k2 default).uid = q.1
              rw [hx]
              exact hkuid
            · exact hv2
            · have hx := (hafld k2).1
              show (pool4.rows.getD k2 default).row = _
              rw [hx]
              show (pool3.rows.getD k2 default).row = _
              rw [hkrow]
              exact h1row k2
            · have hx := (hafld k2).2.2.1
              show (pool4.rows.getD k2 default).refc = _
              rw [hx]
              show (pool3.rows.getD k2 default).refc = _
              rw [hkrefc]
              have hy : (pool2.rows.getD k2 default).refc =
                  (stMid.pool.rows.getD k2 default).refc := h1refc k2
              omega
          · intro k hk
            obtain ⟨har, hau, hac, had⟩ := hafld k
            rcases had with had | had
            · rcases (hrfld k).2.2 with hc | hc
              · left
                have hl2 : (pool2.rows.getD k default).lprow = -1 :=
                  hall1 k hk
                refine ⟨?_, ?_, ?_, ?_⟩
                · show (pool4.rows.getD k default).lprow = -1
                  rw [had]
                  show (pool3.rows.getD k default).lprow = -1
                  rw [hc]
                  exact hl2
                · show (pool4.rows.getD k default).row = _
                  rw [har]
                  show (pool3.rows.getD k default).row = _
                  rw [hc]
                  exact h1row k
                · show (pool4.rows.getD k default).uid = _
                  rw [hau]
                  show (pool3.rows.getD k default).uid = _
                  rw [hc]
                  exact h1uid k
                · show (pool4.rows.getD k default).refc = _
                  rw [hac]
                  show (pool3.rows.getD k default).refc = _
                  rw [hc]
                  exact h1refc k
              · obtain ⟨hcm, hceq⟩ := hc
                have hneg2 : (pool3.rows.getD k default).lprow = -2 := by
                  rw [hceq]
                rcases hrpend k hneg2 with hp | ⟨j, hj, hslj⟩
                · rw [hcm] at hp
                  exact absurd hp (by decide)
                · obtain ⟨k3, hk3lt, hsl3, hv3⟩ := hadone j
                    ((natRange_mem 0 nuids j).mpr ⟨Nat.zero_le _, by omega⟩)
                  have hkk3 : k3 = k := by
                    have hx : ({ pool3 with nlprows := 0, npend := nuids } :
                      CPool).lprows.getD j (-1) =
                      pool3.lprows.getD j (-1) := rfl
                    rw [hx, hslj] at hsl3
                    omega
                  subst hkk3
                  have hcontr : (pool4.rows.getD k3 default).lprow =
                      (j : Int) := hv3
                  rw [had] at hcontr
                  show _ ∨ _
                  rw [hneg2] at hcontr
                  exact absurd hcontr.symm (by omega)
            · obtain ⟨hneg2, i, hi, hsl, hv⟩ := had
              right
              have hilt : i < nuids := by
                have := (natRange_mem 0 nuids i).mp hi
                omega
              refine ⟨?_, ?_, ?_⟩
              · show 0 ≤ (pool4.rows.getD k default).lprow
                rw [hv]
                omega
              · show (pool4.rows.getD k default).lprow < _
                rw [hv]
                have : nuids = nb.bc_uids.length := hnu
                omega
              · show pool4.lprows.getD
                  (pool4.rows.getD k default).lprow.toNat (-1) = (k : Int)
                rw [hv, halp]
                show ({ pool3 with nlprows := 0, npend := nuids } : CPool).lprows.getD
                  (Int.toNat (i : Int)) (-1) = (k : Int)
                rw [Int.toNat_natCast]
                exact hsl

theorem save_spec (st : BBState) (nb : NodeBasis) (stSaved : BBState)
    (h : _gst_save_node_basis st = some (nb, stSaved)) :
    nb.bc_uids.zip nb.bc_row = loadedPairs st.pool ∧
    st.pool.nlprows = st.lpRows ∧
    (loadedPairs st.pool).length = st.pool.nlprows ∧
    stSaved.pool.rows.length = st.pool.rows.length ∧
    ∀ k, k < st.pool.rows.length →
      (0 ≤ (st.pool.rows.getD k default).lprow →
        stSaved.pool.rows.getD k default =
          { st.pool.rows.getD k default with
              refc := (st.pool.rows.getD k default).refc + 1 }) ∧
      ((st.pool.rows.getD k default).lprow < 0 →
        stSaved.pool.rows.getD k default = st.pool.rows.getD k default) := by
  simp only [_gst_save_node_basis] at h
  by_cases h1 : st.pool.nlprows ≠ st.lpRows
  · rw [if_pos h1] at h; exact Option.noConfusion h
  · rw [if_neg h1] at h
    push_neg at h1
    by_cases h2 : (st.pool.rows.filterMap
        (fun rc => if 0 ≤ rc.lprow then some (rc.uid, rc.lprow.toNat)
          else none)).length ≠ st.pool.nlprows
    · rw [if_pos h2] at h; exact Option.noConfusion h
    · rw [if_neg h2] at h
      push_neg at h2
      have hpair := Option.some.inj h
      injection hpair with hnb hsv
      subst hnb; subst hsv
      refine ⟨(List.zip_of_prod rfl rfl).symm, h1, h2, ?_, ?_⟩
      · show (st.pool.rows.map _).length = _
        rw [List.length_map]
      · intro k hk
        constructor
        · intro hpos
          show (st.pool.rows.map (fun rc => if 0 ≤ rc.lprow then
              { rc with refc := rc.refc + 1 } else rc)).getD k default = _
          rw [getD_map _ _ _ default default hk]
          show (if 0 ≤ (st.pool.rows.getD k default).lprow then _ else _) = _
          rw [if_pos hpos]
        · intro hneg
          show (st.pool.rows.map (fun rc => if 0 ≤ rc.lprow then
              { rc with refc := rc.refc + 1 } else rc)).getD k default = _
          rw [getD_map _ _ _ default default hk]
          show (if 0 ≤ (st.pool.rows.getD k default).lprow then _ else _) = _
          rw [if_neg (by omega)]

theorem delSlackC1 :
    _gst_delete_slack_rows_from_LP stPushSlackC1 = some stMidC1 := by
  simp only [_gst_delete_slack_rows_from_LP, stPushSlackC1, stMidC1,
    poolC1, delSlackStep, foldOpt, natRange]
  norm_num [FUZZ]
  decide

/-- C1: the basis snapshot/restore roundtrip is exact.  (i) `save_node_basis`
records precisely the loaded `(uid, LP position)` tuples, in pool order, and
bumps each loaded row's reference count by one, leaving other rows alone.
(ii) A successful `restore_node_basis` of a snapshot — on any state whose
loaded rows are consistently back-pointed — reinstates a loaded set holding,
at each saved LP position, a row with the saved uid and consistent
bookkeeping, drops the snapshot reference counts by one, leaves every other
row unloaded with untouched fields, and loads nothing else.  (iii) On a
concrete run in which, between the save and the restore, an unrelated row is
marked pending, pushed into the engine, and then slack-deleted, the restore
returns the loaded-row observable and every reference count exactly to their
values at save time. -/
theorem claim_C1 :
    (∀ (st : BBState) (nb : NodeBasis) (stSaved : BBState),
      _gst_save_node_basis st = some (nb, stSaved) →
      nb.bc_uids.zip nb.bc_row = loadedPairs st.pool ∧
      stSaved.pool.rows.length = st.pool.rows.length ∧
      ∀ k, k < st.pool.rows.length →
        (0 ≤ (st.pool.rows.getD k default).lprow →
          stSaved.pool.rows.getD k default =
            { st.pool.rows.getD k default with
                refc := (st.pool.rows.getD k default).refc + 1 }) ∧
        ((st.pool.rows.getD k default).lprow < 0 →
          stSaved.pool.rows.getD k default =
            st.pool.rows.getD k default)) ∧
    (∀ (nb : NodeBasis) (stMid stF : BBState),
      _gst_restore_node_basis nb stMid = some stF →
      (∀ k, k < stMid.pool.rows.length →
        ((stMid.pool.rows.getD k default).lprow = -1 ∨
         (0 ≤ (stMid.pool.rows.getD k default).lprow ∧
          (stMid.pool.rows.getD k default).lprow < (stMid.lpRows : Int) ∧
          stMid.pool.lprows.getD
            (stMid.pool.rows.getD k default).lprow.toNat (-1) =
            (k : Int)))) →
      stF.lpRows = nb.bc_uids.length ∧
      stF.pool.nlprows = nb.bc_uids.length ∧
      stF.pool.npend = 0 ∧
      stF.pool.rows.length = stMid.pool.rows.length ∧
      (∀ q ∈ nb.bc_uids.zip nb.bc_row, ∃ k,
        k < stMid.pool.rows.length ∧
        stF.pool.lprows.getD q.2 (-1) = (k : Int) ∧
        (stF.pool.rows.getD k default).uid = q.1 ∧
        (stF.pool.rows.getD k default).lprow = (q.2 : Int) ∧
        (stF.pool.rows.getD k default).row =
          (stMid.pool.rows.getD k default).row ∧
        (stF.pool.rows.getD k default).refc =
          (stMid.pool.rows.getD k default).refc - 1) ∧
      (∀ k, k < stMid.pool.rows.length →
        ((stF.pool.rows.getD k default).lprow = -1 ∧
          (stF.pool.rows.getD k default).row =
            (stMid.pool.rows.getD k default).row ∧
          (stF.pool.rows.getD k default).uid =
            (stMid.pool.rows.getD k default).uid ∧
          (stF.pool.rows.getD k default).refc =
            (stMid.pool.rows.getD k default).refc) ∨
        (0 ≤ (stF.pool.rows.getD k default).lprow ∧
          (stF.pool.rows.getD k default).lprow <
            (nb.bc_uids.length : Int) ∧
          stF.pool.lprows.getD
            (stF.pool.rows.getD k default).lprow.toNat (-1) =
            (k : Int)))) ∧
    (_gst_save_node_basis stC1 = some (nbC1, stSavedC1) ∧
      _gst_mark_row_pending_to_LP stSavedC1.pool 2 = some poolMarkC1 ∧
      _gst_add_pending_rows_to_LP { stSavedC1 with pool := poolMarkC1 } =
        some { stPushSlackC1 with slack := [0, 0] } ∧
      _gst_delete_slack_rows_from_LP stPushSlackC1 = some stMidC1 ∧
      _gst_restore_node_basis nbC1 stMidC1 = some stBackC1 ∧
      loadedPairs stBackC1.pool = loadedPairs stC1.pool ∧
      stBackC1.pool.rows.map Rcon.refc = stC1.pool.rows.map Rcon.refc) := by
  refine ⟨?_, ?_, ?_, ?_, ?_, delSlackC1, ?_, ?_, ?_⟩
  · intro st nb stSaved h
    obtain ⟨ha, _, _, hd, he⟩ := save_spec st nb stSaved h
    exact ⟨ha, hd, he⟩
  · intro nb stMid stF hres htrack
    exact restore_exact nb stMid stF hres htrack
  · decide
  · decide
  · decide
  · decide
  · decide
  · decide
